import Mathlib

/-!
Verification of the ToyC → RV32I compiler (shallow embedding).

Each definition in this file is a direct translation of a function of the
C++ source (file and symbol named in its doc comment).  Positions, register
ids and immediates are modelled as `Int` (the C++ `int`); C++ `std::set`
becomes a sorted duplicate-free list or a `Finset`; maps become association
lists with update-in-place semantics.
-/

set_option maxHeartbeats 1600000
set_option maxRecDepth 4000

namespace ToyC

/-! ## Live ranges (`reg_alloc.h` `LiveRange`) -/

/-- `LiveRange` of `reg_alloc.h`: a closed interval of linearised positions.
`endp` is the C++ field `end` (a Lean keyword). -/
structure LiveRange where
  start : Int
  endp : Int
deriving DecidableEq, Repr

/-- `LiveRange::overlaps`: `!(end < o.start || o.end < start)`. -/
def LiveRange.overlaps (a b : LiveRange) : Bool :=
  !(a.endp < b.start || b.endp < a.start)

/-- `LiveRange::adjacent`: `end + 1 == o.start || o.end + 1 == start`. -/
def LiveRange.adjacent (a b : LiveRange) : Bool :=
  a.endp + 1 == b.start || b.endp + 1 == a.start

/-- A position is covered by a list of ranges. -/
def covered (l : List LiveRange) (p : Int) : Prop :=
  ∃ r ∈ l, r.start ≤ p ∧ p ≤ r.endp

instance (l : List LiveRange) (p : Int) : Decidable (covered l p) :=
  inferInstanceAs (Decidable (∃ r ∈ l, r.start ≤ p ∧ p ≤ r.endp))

/-- A well-formed single range: nonempty interval. -/
def RangeWF (r : LiveRange) : Prop := r.start ≤ r.endp

/-- Strict separation: `a` ends at least two positions before `b` starts,
so the two ranges neither overlap nor touch. -/
def Sep (a b : LiveRange) : Prop := a.endp + 1 < b.start

/-- The invariant of a `LiveInterval.ranges` vector: each range nonempty,
sorted by start, pairwise disjoint and non-adjacent. -/
def GoodRanges (l : List LiveRange) : Prop :=
  (∀ r ∈ l, RangeWF r) ∧ l.Chain' Sep

/-! ### `toyc::LiveInterval::addRange` (`src/reg_alloc.cpp` lines 90-119) -/

/-- First pass of `LiveInterval::addRange`: walk the existing ranges,
absorbing every range that overlaps or touches `nr`, placing `nr` before the
first strictly later range.  Returns the `merged` vector, the final value of
the local `nr` and the `placed` flag. -/
def addRangePass1 : List LiveRange → LiveRange → Bool →
    List LiveRange × LiveRange × Bool
  | [], nr, placed => ([], nr, placed)
  | r :: rest, nr, placed =>
    if nr.overlaps r || nr.adjacent r then
      addRangePass1 rest ⟨min nr.start r.start, max nr.endp r.endp⟩ placed
    else if !placed && nr.start < r.start then
      let result := addRangePass1 rest nr true
      (nr :: r :: result.1, result.2)
    else
      let result := addRangePass1 rest nr placed
      (r :: result.1, result.2)

/-- Second pass of `LiveInterval::addRange`: re-scan `merged`, fusing any
remaining overlapping or adjacent neighbours into the tail of the output.
`acc` is the output vector built so far, in reverse. -/
def addRangePass2 : List LiveRange → List LiveRange → List LiveRange
  | acc, [] => acc.reverse
  | [], r :: rest => addRangePass2 [r] rest
  | b :: acc, r :: rest =>
    if b.overlaps r || b.adjacent r then
      addRangePass2 (⟨min b.start r.start, max b.endp r.endp⟩ :: acc) rest
    else
      addRangePass2 (r :: b :: acc) rest

/-- The `merged` vector of `LiveInterval::addRange` after the first loop:
if `nr` was never placed it is appended at the end. -/
def addRangeCore (ranges : List LiveRange) (nr : LiveRange) : List LiveRange :=
  let p1 := addRangePass1 ranges nr false
  if p1.2.2 then p1.1 else p1.1 ++ [p1.2.1]

/-- `toyc::LiveInterval::addRange(s, e)` from `src/reg_alloc.cpp`:
two-pass insert-and-merge into the sorted ranges vector. -/
def addRange (ranges : List LiveRange) (s e : Int) : List LiveRange :=
  addRangePass2 [] (addRangeCore ranges ⟨s, e⟩)

/-! ### `ra_ls::LiveInterval::addRange` (`src/ra_linear_scan.cpp` lines 233-296) -/

/-- Backward merge of `ra_ls::LiveInterval::addRange`: `revA` is the part of
the vector before the insertion point, reversed; absorb trailing ranges that
overlap or touch `nr`.  Returns the kept part (still reversed) and the grown
range. -/
def raMergeBack : List LiveRange → LiveRange → List LiveRange × LiveRange
  | [], nr => ([], nr)
  | p :: rest, nr =>
    if p.overlaps nr || p.adjacent nr then
      raMergeBack rest ⟨min nr.start p.start, max nr.endp p.endp⟩
    else (p :: rest, nr)

/-- Forward merge of `ra_ls::LiveInterval::addRange`: absorb leading ranges
of the part after the insertion point. -/
def raMergeFwd : List LiveRange → LiveRange → List LiveRange × LiveRange
  | [], nr => ([], nr)
  | q :: rest, nr =>
    if q.overlaps nr || q.adjacent nr then
      raMergeFwd rest ⟨min nr.start q.start, max nr.endp q.endp⟩
    else (q :: rest, nr)

/-- `ra_ls::LiveInterval::addRange(start, end)` from `src/ra_linear_scan.cpp`:
find the insertion point, merge backward and forward, splice the result. -/
def raAddRange (ranges : List LiveRange) (s e : Int) : List LiveRange :=
  if s > e then ranges
  else if ranges.isEmpty then [⟨s, e⟩]
  else
    let A := ranges.takeWhile (fun r => r.start ≤ s)
    let B := ranges.dropWhile (fun r => r.start ≤ s)
    let back := raMergeBack A.reverse ⟨s, e⟩
    let fwd := raMergeFwd B back.2
    back.1.reverse ++ fwd.2 :: fwd.1

/-! ### Lemmas about ranges and merging -/

/-- Coverage by one range. -/
def covR (r : LiveRange) (p : Int) : Prop := r.start ≤ p ∧ p ≤ r.endp

lemma covered_nil (p : Int) : ¬ covered [] p := by simp [covered]

lemma covered_cons {r : LiveRange} {l : List LiveRange} {p : Int} :
    covered (r :: l) p ↔ covR r p ∨ covered l p := by
  simp [covered, covR, or_and_right, exists_or]

lemma covered_append {l1 l2 : List LiveRange} {p : Int} :
    covered (l1 ++ l2) p ↔ covered l1 p ∨ covered l2 p := by
  simp [covered, or_and_right, exists_or]

lemma covered_reverse {l : List LiveRange} {p : Int} :
    covered l.reverse p ↔ covered l p := by
  simp [covered]

lemma touch_iff {a b : LiveRange} (hwa : RangeWF a) (hwb : RangeWF b) :
    (a.overlaps b || a.adjacent b) = true ↔
      b.start ≤ a.endp + 1 ∧ a.start ≤ b.endp + 1 := by
  simp only [RangeWF] at hwa hwb
  simp only [LiveRange.overlaps, LiveRange.adjacent, Bool.or_eq_true,
    Bool.not_eq_true', Bool.or_eq_false_iff, decide_eq_false_iff_not,
    decide_eq_true_eq, beq_iff_eq, not_lt]
  omega

lemma not_touch_iff {a b : LiveRange} (hwa : RangeWF a) (hwb : RangeWF b) :
    (a.overlaps b || a.adjacent b) = false ↔ Sep a b ∨ Sep b a := by
  rw [← Bool.not_eq_true, touch_iff hwa hwb]
  simp only [RangeWF] at hwa hwb
  simp only [Sep]
  omega

lemma hull_cov {a b : LiveRange} (hwa : RangeWF a) (hwb : RangeWF b)
    (ht : (a.overlaps b || a.adjacent b) = true) (p : Int) :
    covR ⟨min a.start b.start, max a.endp b.endp⟩ p ↔ covR a p ∨ covR b p := by
  rw [touch_iff hwa hwb] at ht
  simp only [covR, RangeWF] at *
  omega

lemma sep_chain_all {r : LiveRange} : ∀ {l : List LiveRange},
    (∀ y ∈ l, RangeWF y) → List.Chain' Sep (r :: l) → ∀ y ∈ l, Sep r y := by
  intro l
  induction l generalizing r with
  | nil => simp
  | cons a t ih =>
    intro hwf hch y hy
    have h1 : Sep r a := (List.chain'_cons.mp hch).1
    rcases List.mem_cons.mp hy with rfl | hy
    · exact h1
    · have h2 : Sep a y := by
        refine ih (fun z hz => hwf z (by simp [hz])) (List.chain'_cons.mp hch).2 y hy
      have hwa : RangeWF a := hwf a (by simp)
      simp only [Sep, RangeWF] at *
      omega

lemma addRangePass1_all_sep : ∀ (l : List LiveRange) (nr : LiveRange),
    (∀ y ∈ l, (nr.overlaps y || nr.adjacent y) = false) →
    addRangePass1 l nr true = (l, nr, true) := by
  intro l
  induction l with
  | nil => intro nr _; rfl
  | cons r rest ih =>
    intro nr h
    rw [addRangePass1, if_neg (by simp [h r (by simp)]), if_neg (by simp)]
    rw [ih nr (fun y hy => h y (by simp [hy]))]

/-- The heart of the `toyc` `addRange` proof: inserting a well-formed range
into a canonical ranges vector yields the `merged` vector already canonical,
covering exactly the old positions plus the new range, and with every start
drawn from the inputs. -/
lemma addRangeCore_spec : ∀ (l : List LiveRange) (nr : LiveRange),
    GoodRanges l → RangeWF nr →
    GoodRanges (addRangeCore l nr) ∧
    (∀ p, covered (addRangeCore l nr) p ↔ covered l p ∨ covR nr p) ∧
    (∀ x ∈ addRangeCore l nr, x.start = nr.start ∨ ∃ y ∈ l, x.start = y.start) := by
  intro l
  induction l with
  | nil =>
    intro nr _ hwf
    refine ⟨⟨by simpa [addRangeCore, addRangePass1] using hwf, by
      simp [addRangeCore, addRangePass1]⟩, ?_, ?_⟩
    · intro p; simp [addRangeCore, addRangePass1, covered_cons, covered_nil]
    · intro x hx; left
      simpa [addRangeCore, addRangePass1] using congrArg LiveRange.start
        (by simpa [addRangeCore, addRangePass1] using hx)
  | cons r rest ih =>
    intro nr hg hwf
    have hwr : RangeWF r := hg.1 r (by simp)
    have hwrest : ∀ y ∈ rest, RangeWF y := fun y hy => hg.1 y (by simp [hy])
    have hgrest : GoodRanges rest := ⟨hwrest, hg.2.tail⟩
    by_cases ht : (nr.overlaps r || nr.adjacent r) = true
    · -- the head range is absorbed into nr
      have heq : addRangeCore (r :: rest) nr =
          addRangeCore rest ⟨min nr.start r.start, max nr.endp r.endp⟩ := by
        simp [addRangeCore, addRangePass1, ht]
      have hwhull : RangeWF ⟨min nr.start r.start, max nr.endp r.endp⟩ := by
        simp only [RangeWF] at *; omega
      obtain ⟨h1, h2, h3⟩ := ih ⟨min nr.start r.start, max nr.endp r.endp⟩ hgrest hwhull
      refine ⟨heq ▸ h1, ?_, ?_⟩
      · intro p
        rw [heq, h2 p, covered_cons, hull_cov hwf hwr ht p]
        tauto
      · intro x hx
        rcases h3 x (heq ▸ hx) with h | ⟨y, hy, h⟩
        · simp only at h
          rcases le_total nr.start r.start with hle | hle
        -- min resolves to one side or the other
          · left; rw [h]; exact min_eq_left hle
          · right; exact ⟨r, by simp, by rw [h]; exact min_eq_right hle⟩
        · exact Or.inr ⟨y, by simp [hy], h⟩
    · by_cases hlt : nr.start < r.start
      · -- nr is placed before r
        have hsep : Sep nr r := by
          rcases (not_touch_iff hwf hwr).mp (by simpa using ht) with h | h
          · exact h
          · exfalso; simp only [Sep, RangeWF] at *; omega
        have hall : ∀ y ∈ rest, Sep nr y := by
          intro y hy
          have h2 : Sep r y := sep_chain_all hwrest hg.2 y hy
          simp only [Sep] at *; simp only [RangeWF] at hwr; omega
        have heq : addRangeCore (r :: rest) nr = nr :: r :: rest := by
          have hnone : ∀ y ∈ rest, (nr.overlaps y || nr.adjacent y) = false := by
            intro y hy
            exact (not_touch_iff hwf (hwrest y hy)).mpr (Or.inl (hall y hy))
          simp [addRangeCore, addRangePass1, ht, hlt,
            addRangePass1_all_sep rest nr hnone]
        refine ⟨⟨?_, ?_⟩, ?_, ?_⟩
        · intro x hx
          rw [heq] at hx
          rcases List.mem_cons.mp hx with h | h
          · exact h ▸ hwf
          · exact hg.1 x h
        · rw [heq]; exact List.chain'_cons.mpr ⟨hsep, hg.2⟩
        · intro p
          rw [heq]
          simp only [covered_cons]
          tauto
        · intro x hx
          rw [heq] at hx
          rcases List.mem_cons.mp hx with h | h
          · exact Or.inl (by rw [h])
          · exact Or.inr ⟨x, h, rfl⟩
      · -- r stays before nr
        have hsep : Sep r nr := by
          rcases (not_touch_iff hwf hwr).mp (by simpa using ht) with h | h
          · exfalso; simp only [Sep, RangeWF] at *; omega
          · exact h
        have heq : addRangeCore (r :: rest) nr = r :: addRangeCore rest nr := by
          have ht2 : (nr.overlaps r || nr.adjacent r) = false := by simpa using ht
          have hstep : addRangePass1 (r :: rest) nr false =
              (r :: (addRangePass1 rest nr false).1,
                (addRangePass1 rest nr false).2) := by
            rw [addRangePass1, if_neg (by simp [ht2]), if_neg (by simp [hlt])]
          simp only [addRangeCore, hstep]
          cases hrec : addRangePass1 rest nr false with
          | mk m rest2 =>
            cases rest2 with
            | mk nr2 p2 =>
              cases p2 <;> simp
        obtain ⟨h1, h2, h3⟩ := ih nr hgrest hwf
        refine ⟨⟨?_, ?_⟩, ?_, ?_⟩
        · intro x hx
          rw [heq] at hx
          rcases List.mem_cons.mp hx with h | h
          · exact h ▸ hwr
          · exact h1.1 x h
        · rw [heq]
          refine List.chain'_cons'.mpr ⟨?_, h1.2⟩
          intro h hh
          have hmem : h ∈ addRangeCore rest nr := List.mem_of_mem_head? hh
          rcases h3 h hmem with hs | ⟨y, hy, hs⟩
          · simp only [Sep] at *; omega
          · have h2y : Sep r y := sep_chain_all hwrest hg.2 y hy
            simp only [Sep] at *; omega
        · intro p
          rw [heq]
          simp only [covered_cons, h2 p]
          tauto
        · intro x hx
          rw [heq] at hx
          rcases List.mem_cons.mp hx with h | h
          · exact Or.inr ⟨r, by simp, by rw [h]⟩
          · rcases h3 x h with hs | ⟨y, hy, hs⟩
            · exact Or.inl hs
            · exact Or.inr ⟨y, by simp [hy], hs⟩

/-- On an already-canonical vector the second pass of `addRange` is the
identity: no neighbouring entries overlap or touch. -/
lemma addRangePass2_eq : ∀ (l acc : List LiveRange),
    (∀ r ∈ acc.reverse ++ l, RangeWF r) → List.Chain' Sep (acc.reverse ++ l) →
    addRangePass2 acc l = acc.reverse ++ l := by
  intro l
  induction l with
  | nil =>
    intro acc _ _
    cases acc <;> simp [addRangePass2]
  | cons r rest ih =>
    intro acc hwf hch
    match acc with
    | [] =>
      rw [addRangePass2]
      simpa using ih [r] (by simpa using hwf) (by simpa using hch)
    | b :: acc2 =>
      have hsep : Sep b r := by
        have := (List.chain'_append.mp
          (by simpa using hch : List.Chain' Sep (acc2.reverse ++ [b] ++ r :: rest))).2.2
        exact this b (by simp) r (by simp)
      have hb : RangeWF b := hwf b (by simp)
      have hr : RangeWF r := hwf r (by simp)
      have ht : (b.overlaps r || b.adjacent r) = false :=
        (not_touch_iff hb hr).mpr (Or.inl hsep)
      rw [addRangePass2, if_neg (by simp [ht])]
      have := ih (r :: b :: acc2) (by simpa using hwf) (by simpa using hch)
      simpa using this

/-- C7, `toyc` half: `LiveInterval::addRange` of `src/reg_alloc.cpp`
preserves the canonical-ranges invariant and covers exactly the union. -/
lemma addRange_spec (l : List LiveRange) (s e : Int)
    (hg : GoodRanges l) (hse : s ≤ e) :
    GoodRanges (addRange l s e) ∧
    (∀ p, covered (addRange l s e) p ↔ covered l p ∨ (s ≤ p ∧ p ≤ e)) := by
  obtain ⟨h1, h2, _⟩ := addRangeCore_spec l ⟨s, e⟩ hg hse
  have hpp : addRange l s e = addRangeCore l ⟨s, e⟩ := by
    unfold addRange
    simpa using addRangePass2_eq (addRangeCore l ⟨s, e⟩) [] (by simpa using h1.1)
      (by simpa using h1.2)
  exact ⟨hpp ▸ h1, fun p => by rw [hpp, h2 p]; exact Iff.rfl⟩

/-- Specification of the backward merge of `ra_ls::LiveInterval::addRange`. -/
lemma raMergeBack_spec : ∀ (revA : List LiveRange) (nr : LiveRange) (s : Int),
    (∀ r ∈ revA, RangeWF r ∧ r.start ≤ s) → RangeWF nr →
    nr.start ≤ s → s ≤ nr.endp →
    ∃ D, revA = D ++ (raMergeBack revA nr).1 ∧
      RangeWF (raMergeBack revA nr).2 ∧ (raMergeBack revA nr).2.start ≤ s ∧
      s ≤ (raMergeBack revA nr).2.endp ∧
      (∀ p, covR (raMergeBack revA nr).2 p ↔ covR nr p ∨ covered D p) ∧
      (∀ h ∈ (raMergeBack revA nr).1.head?, Sep h (raMergeBack revA nr).2) := by
  intro revA
  induction revA with
  | nil =>
    intro nr s _ hwf hs1 hs2
    exact ⟨[], by simp [raMergeBack], hwf, hs1, hs2,
      fun p => by simp [raMergeBack, covered_nil], by simp [raMergeBack]⟩
  | cons p rest ih =>
    intro nr s hall hwf hs1 hs2
    have hp := hall p (by simp)
    by_cases ht : (p.overlaps nr || p.adjacent nr) = true
    · have heq : raMergeBack (p :: rest) nr =
          raMergeBack rest ⟨min nr.start p.start, max nr.endp p.endp⟩ := by
        rw [raMergeBack, if_pos (by simp [ht])]
      have hwh : RangeWF ⟨min nr.start p.start, max nr.endp p.endp⟩ := by
        simp only [RangeWF] at *; omega
      obtain ⟨D, hD, h1, h2, h3, h4, h5⟩ :=
        ih ⟨min nr.start p.start, max nr.endp p.endp⟩ s
          (fun r hr => hall r (by simp [hr])) hwh (by simp; omega) (by simp; omega)
      refine ⟨p :: D, ?_, heq ▸ h1, heq ▸ h2, heq ▸ h3, ?_, heq ▸ h5⟩
      · rw [heq]; simpa using hD
      · intro q
        have htnr : (nr.overlaps p || nr.adjacent p) = true := by
          rw [touch_iff hwf hp.1]
          rw [touch_iff hp.1 hwf] at ht
          omega
        rw [heq, h4 q, covered_cons, hull_cov hwf hp.1 htnr q]
        tauto
    · have heq : raMergeBack (p :: rest) nr = (p :: rest, nr) := by
        rw [raMergeBack, if_neg (by simp [ht])]
      refine ⟨[], by simp [heq], by simp [heq, hwf], by simp [heq, hs1],
        by simp [heq, hs2], fun q => by simp [heq, covered_nil], ?_⟩
      intro h hh
      rw [heq] at hh
      simp only [List.head?_cons, Option.mem_def, Option.some.injEq] at hh
      subst hh
      rcases (not_touch_iff hp.1 hwf).mp (by simpa using ht) with hsep | hsep
      · simpa [heq] using hsep
      · exfalso; simp only [Sep] at hsep; simp only [RangeWF] at hp hwf; omega

/-- Specification of the forward merge of `ra_ls::LiveInterval::addRange`. -/
lemma raMergeFwd_spec : ∀ (B : List LiveRange) (nr : LiveRange) (s : Int),
    (∀ r ∈ B, RangeWF r ∧ s < r.start) → RangeWF nr → nr.start ≤ s →
    ∃ D, B = D ++ (raMergeFwd B nr).1 ∧
      RangeWF (raMergeFwd B nr).2 ∧ (raMergeFwd B nr).2.start = nr.start ∧
      (∀ p, covR (raMergeFwd B nr).2 p ↔ covR nr p ∨ covered D p) ∧
      (∀ h ∈ (raMergeFwd B nr).1.head?, Sep (raMergeFwd B nr).2 h) := by
  intro B
  induction B with
  | nil =>
    intro nr s _ hwf _
    exact ⟨[], by simp [raMergeFwd], hwf, by simp [raMergeFwd],
      fun p => by simp [raMergeFwd, covered_nil], by simp [raMergeFwd]⟩
  | cons q rest ih =>
    intro nr s hall hwf hs1
    have hq := hall q (by simp)
    by_cases ht : (q.overlaps nr || q.adjacent nr) = true
    · have heq : raMergeFwd (q :: rest) nr =
          raMergeFwd rest ⟨min nr.start q.start, max nr.endp q.endp⟩ := by
        rw [raMergeFwd, if_pos (by simp [ht])]
      have hwh : RangeWF ⟨min nr.start q.start, max nr.endp q.endp⟩ := by
        simp only [RangeWF] at *; omega
      have hmin : min nr.start q.start = nr.start := min_eq_left (by omega)
      obtain ⟨D, hD, h1, h2, h3, h4⟩ :=
        ih ⟨min nr.start q.start, max nr.endp q.endp⟩ s
          (fun r hr => hall r (by simp [hr])) hwh (by simp [hmin]; omega)
      refine ⟨q :: D, ?_, heq ▸ h1, ?_, ?_, heq ▸ h4⟩
      · rw [heq]; simpa using hD
      · rw [heq, h2]; simpa using hmin
      · intro x
        have htnr : (nr.overlaps q || nr.adjacent q) = true := by
          rw [touch_iff hwf hq.1]
          rw [touch_iff hq.1 hwf] at ht
          omega
        rw [heq, h3 x, covered_cons, hull_cov hwf hq.1 htnr x]
        tauto
    · have heq : raMergeFwd (q :: rest) nr = (q :: rest, nr) := by
        rw [raMergeFwd, if_neg (by simp [ht])]
      refine ⟨[], by simp [heq], by simp [heq, hwf], by simp [heq],
        fun x => by simp [heq, covered_nil], ?_⟩
      intro h hh
      rw [heq] at hh
      simp only [List.head?_cons, Option.mem_def, Option.some.injEq] at hh
      subst hh
      rcases (not_touch_iff hq.1 hwf).mp (by simpa using ht) with hsep | hsep
      · exfalso; simp only [Sep] at hsep; simp only [RangeWF] at hq hwf; omega
      · simpa [heq] using hsep

lemma dropWhile_head_false {p : LiveRange → Bool} :
    ∀ {l : List LiveRange} {x : LiveRange} {t : List LiveRange},
      l.dropWhile p = x :: t → p x = false := by
  intro l
  induction l with
  | nil => intro x t h; simp [List.dropWhile] at h
  | cons a l ih =>
    intro x t h
    by_cases hpa : p a
    · rw [List.dropWhile_cons_of_pos hpa] at h; exact ih h
    · rw [List.dropWhile_cons_of_neg hpa] at h
      cases h; simpa using hpa

/-- C7, `ra_ls` half: `ra_ls::LiveInterval::addRange` preserves the invariant
and covers exactly the union. -/
lemma raAddRange_spec (l : List LiveRange) (s e : Int)
    (hg : GoodRanges l) (hse : s ≤ e) :
    GoodRanges (raAddRange l s e) ∧
    (∀ p, covered (raAddRange l s e) p ↔ covered l p ∨ (s ≤ p ∧ p ≤ e)) := by
  by_cases hempty : l.isEmpty
  · have hl : l = [] := List.isEmpty_iff.mp hempty
    subst hl
    have heq : raAddRange [] s e = [⟨s, e⟩] := by
      rw [raAddRange, if_neg (by omega)]; rfl
    refine ⟨⟨?_, ?_⟩, ?_⟩
    · intro r hr; rw [heq] at hr
      rcases List.mem_cons.mp hr with h | h
      · exact h ▸ hse
      · simp at h
    · rw [heq]; simp
    · intro p; rw [heq, covered_cons]
      simp [covered_nil, covR]
  · have hA : ∀ r ∈ l.takeWhile (fun r => r.start ≤ s), RangeWF r ∧ r.start ≤ s := by
      intro r hr
      refine ⟨hg.1 r ?_, by simpa using List.mem_takeWhile_imp hr⟩
      rw [← List.takeWhile_append_dropWhile (p := fun r => r.start ≤ s) (l := l)]
      exact List.mem_append_left _ hr
    have hchB : List.Chain' Sep (l.dropWhile (fun r => r.start ≤ s)) := by
      have := hg.2
      rw [← List.takeWhile_append_dropWhile (p := fun r => r.start ≤ s) (l := l)] at this
      exact (List.chain'_append.mp this).2.1
    have hB : ∀ r ∈ l.dropWhile (fun r => r.start ≤ s), RangeWF r ∧ s < r.start := by
      intro r hr
      have hmem : r ∈ l := by
        rw [← List.takeWhile_append_dropWhile (p := fun r => r.start ≤ s) (l := l)]
        exact List.mem_append_right _ hr
      refine ⟨hg.1 r hmem, ?_⟩
      cases hd : l.dropWhile (fun r => r.start ≤ s) with
      | nil => rw [hd] at hr; simp at hr
      | cons h0 t0 =>
        have hh0 : ¬ h0.start ≤ s := by simpa using dropWhile_head_false hd
        rw [hd] at hr
        rcases List.mem_cons.mp hr with h | h
        · subst h; omega
        · have hwt : ∀ y ∈ t0, RangeWF y := by
            intro y hy
            refine hg.1 y ?_
            rw [← List.takeWhile_append_dropWhile (p := fun r => r.start ≤ s) (l := l), hd]
            exact List.mem_append_right _ (by simp [hy])
          have hsep : Sep h0 r := sep_chain_all hwt (hd ▸ hchB) r h
          have hwh0 : RangeWF h0 := hg.1 h0 (by
            rw [← List.takeWhile_append_dropWhile (p := fun r => r.start ≤ s) (l := l), hd]
            exact List.mem_append_right _ (by simp))
          simp only [Sep, RangeWF] at *
          omega
    obtain ⟨D1, hD1, hw1, hst1, hen1, hcov1, hlast1⟩ :=
      raMergeBack_spec (l.takeWhile (fun r => r.start ≤ s)).reverse ⟨s, e⟩ s
        (fun r hr => hA r (List.mem_reverse.mp hr)) hse (le_refl s) hse
    obtain ⟨D2, hD2, hw2, hst2, hcov2, hhead2⟩ :=
      raMergeFwd_spec (l.dropWhile (fun r => r.start ≤ s))
        (raMergeBack (l.takeWhile (fun r => r.start ≤ s)).reverse ⟨s, e⟩).2 s hB hw1 hst1
    have heq : raAddRange l s e =
        (raMergeBack (l.takeWhile (fun r => r.start ≤ s)).reverse ⟨s, e⟩).1.reverse ++
          (raMergeFwd (l.dropWhile (fun r => r.start ≤ s))
            (raMergeBack (l.takeWhile (fun r => r.start ≤ s)).reverse ⟨s, e⟩).2).2 ::
          (raMergeFwd (l.dropWhile (fun r => r.start ≤ s))
            (raMergeBack (l.takeWhile (fun r => r.start ≤ s)).reverse ⟨s, e⟩).2).1 := by
      rw [raAddRange, if_neg (by omega), if_neg (by simp [hempty])]
    set K1 := (raMergeBack (l.takeWhile (fun r => r.start ≤ s)).reverse ⟨s, e⟩).1 with hK1
    set nr1 := (raMergeBack (l.takeWhile (fun r => r.start ≤ s)).reverse ⟨s, e⟩).2 with hnr1
    set K2 := (raMergeFwd (l.dropWhile (fun r => r.start ≤ s)) nr1).1 with hK2
    set nr2 := (raMergeFwd (l.dropWhile (fun r => r.start ≤ s)) nr1).2 with hnr2
    have hAeq : l.takeWhile (fun r => r.start ≤ s) = K1.reverse ++ D1.reverse := by
      have := congrArg List.reverse hD1
      simpa [List.reverse_append] using this
    have hchA : List.Chain' Sep (l.takeWhile (fun r => r.start ≤ s)) := by
      have := hg.2
      rw [← List.takeWhile_append_dropWhile (p := fun r => r.start ≤ s) (l := l)] at this
      exact (List.chain'_append.mp this).1
    have hchK1 : List.Chain' Sep K1.reverse := by
      rw [hAeq] at hchA
      exact (List.chain'_append.mp hchA).1
    have hchK2 : List.Chain' Sep K2 := by
      rw [hD2] at hchB
      exact (List.chain'_append.mp hchB).2.1
    refine ⟨⟨?_, ?_⟩, ?_⟩
    · intro r hr
      rw [heq] at hr
      rcases List.mem_append.mp hr with h | h
      · exact (hA r (by rw [hAeq]; exact List.mem_append_left _ h)).1
      · rcases List.mem_cons.mp h with h | h
        · exact h ▸ hw2
        · exact (hB r (by rw [hD2]; exact List.mem_append_right _ h)).1
    · rw [heq]
      refine List.chain'_append.mpr ⟨hchK1, ?_, ?_⟩
      · refine List.chain'_cons'.mpr ⟨fun y hy => hhead2 y hy, hchK2⟩
      · intro x hx y hy
        simp only [List.head?_cons, Option.mem_def, Option.some.injEq] at hy
        subst hy
        have hx2 : x ∈ K1.head? := by
          rw [List.getLast?_reverse] at hx
          exact hx
        have := hlast1 x hx2
        simp only [Sep] at *
        omega
    · intro p
      rw [heq, covered_append, covered_cons]
      have hcovl : covered l p ↔
          covered (l.takeWhile (fun r => r.start ≤ s)) p ∨
          covered (l.dropWhile (fun r => r.start ≤ s)) p := by
        rw [← covered_append, List.takeWhile_append_dropWhile]
      rw [hcovl, hAeq, hD2, covered_append, covered_append, hcov2 p, hcov1 p]
      have : covered D1.reverse p ↔ covered D1 p := covered_reverse
      rw [this]
      simp only [covR]
      tauto

instance (r : LiveRange) : Decidable (RangeWF r) :=
  inferInstanceAs (Decidable (r.start ≤ r.endp))

instance (a b : LiveRange) : Decidable (Sep a b) :=
  inferInstanceAs (Decidable (a.endp + 1 < b.start))

instance (r : LiveRange) (p : Int) : Decidable (covR r p) :=
  inferInstanceAs (Decidable (r.start ≤ p ∧ p ≤ r.endp))

instance (l : List LiveRange) : Decidable (GoodRanges l) :=
  inferInstanceAs (Decidable ((∀ r ∈ l, RangeWF r) ∧ l.Chain' Sep))

/-- C7: for every `LiveInterval` whose ranges vector is sorted, pairwise
disjoint and pairwise non-adjacent, and every call `addRange(s,e)` with
`s ≤ e`, the ranges vector is afterwards again sorted, disjoint and
non-adjacent, and it covers exactly the old positions plus `[s,e]` — the
new range has been merged with every pre-existing range it overlaps or
touches and no covered position is lost.  Proved for both implementations:
`toyc::LiveInterval::addRange` (`src/reg_alloc.cpp`) and
`ra_ls::LiveInterval::addRange` (`src/ra_linear_scan.cpp`). -/
theorem C7_addRange_canonical :
    ∀ (l : List LiveRange) (s e : Int), GoodRanges l → s ≤ e →
      (GoodRanges (addRange l s e) ∧
        (∀ p, covered (addRange l s e) p ↔ covered l p ∨ (s ≤ p ∧ p ≤ e))) ∧
      (GoodRanges (raAddRange l s e) ∧
        (∀ p, covered (raAddRange l s e) p ↔ covered l p ∨ (s ≤ p ∧ p ≤ e))) :=
  fun l s e hg hse => ⟨addRange_spec l s e hg hse, raAddRange_spec l s e hg hse⟩

/-- Witness for C7 at a concrete interval list. -/
theorem C7_addRange_canonical_witness :
    GoodRanges [(⟨0, 1⟩ : LiveRange), ⟨5, 6⟩] ∧ (2 : Int) ≤ 3 ∧
      GoodRanges (addRange [⟨0, 1⟩, ⟨5, 6⟩] 2 3) ∧
      GoodRanges (raAddRange [⟨0, 1⟩, ⟨5, 6⟩] 2 3) ∧
      covered (addRange [⟨0, 1⟩, ⟨5, 6⟩] 2 3) 3 := by
  have hg : GoodRanges [(⟨0, 1⟩ : LiveRange), ⟨5, 6⟩] :=
    ⟨by decide, List.chain'_cons.mpr ⟨by decide, List.chain'_singleton _⟩⟩
  exact ⟨hg, by norm_num,
    (C7_addRange_canonical _ 2 3 hg (by norm_num)).1.1,
    (C7_addRange_canonical _ 2 3 hg (by norm_num)).2.1,
    ((C7_addRange_canonical _ 2 3 hg (by norm_num)).1.2 3).mpr
      (Or.inr (by norm_num))⟩

/-! ## RV32I register table (`reg_alloc.cpp` `RegInfo::RegInfo`) -/

/-- `PhysReg` of `reg_alloc.h`. -/
structure PhysReg where
  id : Int
  name : String
  callerSaved : Bool
  calleeSaved : Bool
  reserved : Bool
  priority : Int
deriving DecidableEq, Repr

/-- The 32-entry table built by `RegInfo::RegInfo` (`src/reg_alloc.cpp`
lines 32-72), entry by entry. -/
def physRegs : List PhysReg :=
  [⟨0, "zero", false, false, true, 999⟩,
   ⟨1, "ra", false, false, true, 999⟩,
   ⟨2, "sp", false, false, true, 999⟩,
   ⟨3, "gp", false, false, true, 999⟩,
   ⟨4, "tp", false, false, true, 999⟩,
   ⟨5, "t0", true, false, true, 999⟩,
   ⟨6, "t1", true, false, true, 999⟩,
   ⟨7, "t2", true, false, false, 20⟩,
   ⟨8, "s0", false, false, true, 999⟩,
   ⟨9, "s1", false, true, false, 50⟩,
   ⟨10, "a0", true, false, false, 0⟩,
   ⟨11, "a1", true, false, false, 1⟩,
   ⟨12, "a2", true, false, false, 2⟩,
   ⟨13, "a3", true, false, false, 3⟩,
   ⟨14, "a4", true, false, false, 4⟩,
   ⟨15, "a5", true, false, false, 5⟩,
   ⟨16, "a6", true, false, false, 6⟩,
   ⟨17, "a7", true, false, false, 7⟩,
   ⟨18, "s2", false, true, false, 40⟩,
   ⟨19, "s3", false, true, false, 41⟩,
   ⟨20, "s4", false, true, false, 42⟩,
   ⟨21, "s5", false, true, false, 43⟩,
   ⟨22, "s6", false, true, false, 44⟩,
   ⟨23, "s7", false, true, false, 45⟩,
   ⟨24, "s8", false, true, false, 46⟩,
   ⟨25, "s9", false, true, false, 47⟩,
   ⟨26, "s10", false, true, false, 48⟩,
   ⟨27, "s11", false, true, false, 49⟩,
   ⟨28, "t3", true, false, false, 21⟩,
   ⟨29, "t4", true, false, false, 22⟩,
   ⟨30, "t5", true, false, false, 23⟩,
   ⟨31, "t6", true, false, false, 24⟩]

/-- Index into the register table (out-of-range ids give a dummy entry). -/
def physRegAt (i : Int) : PhysReg :=
  (physRegs.getD i.toNat ⟨-1, "", false, false, true, 999⟩)

/-- `RegInfo::isReserved`. -/
def isReserved (i : Int) : Bool := (physRegAt i).reserved

/-- `RegInfo::isCallerSaved`. -/
def isCallerSaved (i : Int) : Bool := (physRegAt i).callerSaved

/-- `RegInfo::isCalleeSaved`. -/
def isCalleeSaved (i : Int) : Bool := (physRegAt i).calleeSaved

/-- `RegInfo::getRegName`. -/
def getRegName (i : Int) : String := (physRegAt i).name

/-- `PhysRegComparator::operator()`: priority ascending, id tie-break. -/
def physRegLt (a b : Int) : Bool :=
  if (physRegAt a).priority != (physRegAt b).priority then
    (physRegAt a).priority < (physRegAt b).priority
  else a < b

/-- The allocatable set built by `RegInfo::RegInfo`: all non-reserved ids. -/
def allocatableRegs : List Int :=
  ((List.range 32).map Int.ofNat).filter (fun i => !(physRegAt i).reserved)

/-! ## Linear-scan allocator (`reg_alloc.cpp` `LinearScanAllocator`) -/

/-- `LiveInterval` as consumed by the scanner: the owning vreg and its
canonical ranges vector. -/
structure Interval where
  vreg : Int
  ranges : List LiveRange
deriving DecidableEq, Repr

/-- `LiveInterval::start()`: first range start, `INT_MAX` when empty. -/
def Interval.start (iv : Interval) : Int :=
  match iv.ranges.head? with
  | none => 2147483647
  | some r => r.start

/-- `LiveInterval::end()`: last range end, `-1` when empty. -/
def Interval.endp (iv : Interval) : Int :=
  match iv.ranges.getLast? with
  | none => -1
  | some r => r.endp

/-- `LiveInterval::contains(pos)`. -/
def Interval.containsPos (iv : Interval) (pos : Int) : Bool :=
  iv.ranges.any (fun r => r.start ≤ pos && pos ≤ r.endp)

/-- Association-list lookup (C++ `std::unordered_map::find`). -/
def alookup (m : List (Int × Int)) (k : Int) : Option Int :=
  (m.find? (fun kv => kv.1 == k)).map (·.2)

/-- Association-list update (C++ `operator[]` assignment). -/
def aset (m : List (Int × Int)) (k v : Int) : List (Int × Int) :=
  if (m.find? (fun kv => kv.1 == k)).isSome then
    m.map (fun kv => if kv.1 == k then (k, v) else kv)
  else m ++ [(k, v)]

/-- Association-list erase (C++ `std::unordered_map::erase`). -/
def aerase (m : List (Int × Int)) (k : Int) : List (Int × Int) :=
  m.filter (fun kv => kv.1 != k)

/-- Set-list insert (C++ `std::set::insert`). -/
def sinsert (l : List Int) (x : Int) : List Int :=
  if x ∈ l then l else x :: l

/-- Set-list erase (C++ `std::set::erase`). -/
def serase (l : List Int) (x : Int) : List Int :=
  l.filter (fun y => y != x)

/-- Least element of the free set under `PhysRegComparator`
(C++ `*freePhysRegs_.begin()`). -/
def poolMin : List Int → Option Int
  | [] => none
  | x :: rest =>
    match poolMin rest with
    | none => some x
    | some m => some (if physRegLt m x then m else x)

/-- Mutable allocator state of `LinearScanAllocator`. -/
structure AllocState where
  freePhysRegs : List Int
  active : List (Interval × Int)
  vregToPhys : List (Int × Int)
  vregToStack : List (Int × Int)
  paramVregToLocation : List (Int × Int)
  allocatedVregs : List Int
  nextSpillSlot : Int
  usedPhysRegs : List Int
deriving Repr

/-- `LinearScanAllocator::initializeFreeRegs` composed with the
constructor: all allocatable registers free, nothing active. -/
def initState : AllocState :=
  ⟨allocatableRegs, [], [], [], [], [], 0, []⟩

/-- `LinearScanAllocator::processParameters` (one parameter, at index `i`). -/
def processOneParam (st : AllocState) (i : Nat) (vreg : Int) : AllocState :=
  if i < 8 then
    let argReg : Int := 10 + Int.ofNat i
    { st with
      vregToPhys := aset st.vregToPhys vreg argReg
      paramVregToLocation := aset st.paramVregToLocation vreg argReg
      usedPhysRegs := sinsert st.usedPhysRegs argReg
      freePhysRegs := serase st.freePhysRegs argReg
      allocatedVregs := sinsert st.allocatedVregs vreg }
  else
    let stackOffset : Int := (Int.ofNat i - 8 + 1) * 4
    { st with
      vregToStack := aset st.vregToStack vreg stackOffset
      paramVregToLocation := aset st.paramVregToLocation vreg stackOffset
      allocatedVregs := sinsert st.allocatedVregs vreg }

/-- `LinearScanAllocator::processParameters`. -/
def processParameters (st : AllocState) (paramVregs : List Int) : AllocState :=
  (paramVregs.enum.foldl (fun s p => processOneParam s p.1 p.2) st)

/-- `LinearScanAllocator::freePhysReg`. -/
def freePhysReg (st : AllocState) (physId : Int) : AllocState :=
  if 0 ≤ physId ∧ ¬ isReserved physId then
    { st with freePhysRegs := sinsert st.freePhysRegs physId }
  else st

/-- Loop body of `LinearScanAllocator::expireOldIntervals`: the list
argument mirrors `st.active`. -/
def expireAux (curStart : Int) : List (Interval × Int) → AllocState → AllocState
  | [], st => st
  | e :: rest, st =>
    if e.1.endp < curStart then
      expireAux curStart rest (freePhysReg { st with active := rest } e.2)
    else st

/-- `LinearScanAllocator::expireOldIntervals`: pop active intervals (sorted
by end) that end before `curStart`, returning their registers. -/
def expireOldIntervals (st : AllocState) (curStart : Int) : AllocState :=
  expireAux curStart st.active st

/-- `LinearScanAllocator::insertActiveInterval`: insert sorted by end. -/
def insertActiveInterval : List (Interval × Int) → (Interval × Int) →
    List (Interval × Int)
  | [], e => [e]
  | a :: rest, e =>
    if a.1.endp < e.1.endp then a :: insertActiveInterval rest e
    else e :: a :: rest

/-- `LinearScanAllocator::allocateSpillSlot`: `-(++nextSpillSlot) * 4`. -/
def allocateSpillSlot (st : AllocState) : AllocState × Int :=
  ({ st with nextSpillSlot := st.nextSpillSlot + 1 }, -(st.nextSpillSlot + 1) * 4)

/-- `LinearScanAllocator::allocatePhysReg`: take the least free register. -/
def allocatePhysReg (st : AllocState) : AllocState × Int :=
  match poolMin st.freePhysRegs with
  | none => (st, -1)
  | some reg =>
    ({ st with
        freePhysRegs := serase st.freePhysRegs reg
        usedPhysRegs := sinsert st.usedPhysRegs reg }, reg)

/-- `LinearScanAllocator::allocatePhysicalReg`. -/
def allocatePhysicalReg (st : AllocState) (iv : Interval) : AllocState :=
  let p := allocatePhysReg st
  { p.1 with
    vregToPhys := aset p.1.vregToPhys iv.vreg p.2
    active := insertActiveInterval p.1.active (iv, p.2) }

/-- Index chosen by `std::max_element` over `active_` compared by interval
end: the first index attaining the maximal end position. -/
def maxEndIdx (l : List (Interval × Int)) : Nat :=
  match l with
  | [] => 0
  | e :: rest =>
    let rec go : List (Interval × Int) → Int → Nat → Nat → Nat
      | [], _, best, _ => best
      | x :: xs, curMax, best, pos =>
        if curMax < x.1.endp then go xs x.1.endp pos (pos + 1)
        else go xs curMax best (pos + 1)
    go rest e.1.endp 0 1

/-- `LinearScanAllocator::spillAtInterval`. -/
def spillAtInterval (st : AllocState) (iv : Interval) : AllocState :=
  match st.active with
  | [] =>
    let p := allocateSpillSlot st
    { p.1 with vregToStack := aset p.1.vregToStack iv.vreg p.2 }
  | _ :: _ =>
    let idx := maxEndIdx st.active
    let spill := st.active.getD idx (default_, -1)
    if iv.endp < spill.1.endp then
      let physReg := spill.2
      let p := allocateSpillSlot st
      { p.1 with
        vregToPhys := aset (aerase p.1.vregToPhys spill.1.vreg) iv.vreg physReg
        vregToStack := aset p.1.vregToStack spill.1.vreg p.2
        active := insertActiveInterval (p.1.active.eraseIdx idx) (iv, physReg) }
    else
      let p := allocateSpillSlot st
      { p.1 with vregToStack := aset p.1.vregToStack iv.vreg p.2 }
where default_ : Interval := ⟨-1, []⟩

/-- One iteration of the main loop of
`LinearScanAllocator::runLinearScan`. -/
def scanStep (st : AllocState) (iv : Interval) : AllocState :=
  let st1 := expireOldIntervals st iv.start
  if iv.vreg ∈ st1.allocatedVregs then
    if (alookup st1.vregToPhys iv.vreg).isSome then
      { st1 with active := insertActiveInterval st1.active (iv, -1) }
    else st1
  else
    if st1.freePhysRegs.isEmpty then
      spillAtInterval st1 iv
    else
      { allocatePhysicalReg st1 iv with
        allocatedVregs := sinsert (allocatePhysicalReg st1 iv).allocatedVregs iv.vreg }

/-- `LinearScanAllocator::runLinearScan` over the start-sorted interval
list. -/
def runLinearScan (st : AllocState) (sorted : List Interval) : AllocState :=
  sorted.foldl scanStep st

/-! ### C4: the spill temporaries are never handed out -/

/-- A register value that may legally appear in `vregToPhys`: either the
`-1` sentinel or a non-reserved register. -/
def RegOk (r : Int) : Prop := r = -1 ∨ isReserved r = false

lemma mem_aset {m : List (Int × Int)} {k v : Int} {kv : Int × Int}
    (h : kv ∈ aset m k v) : kv ∈ m ∨ kv = (k, v) := by
  unfold aset at h
  split at h
  · rcases List.mem_map.mp h with ⟨kv0, hkv0, heq⟩
    by_cases hk : (kv0.1 == k) = true
    · right; rw [← heq]; simp [hk]
    · left; rw [← heq]; simpa [hk] using hkv0
  · rcases List.mem_append.mp h with h | h
    · exact Or.inl h
    · right; simpa using h

lemma mem_aerase {m : List (Int × Int)} {k : Int} {kv : Int × Int}
    (h : kv ∈ aerase m k) : kv ∈ m := List.mem_of_mem_filter h

lemma mem_serase {l : List Int} {x y : Int} (h : y ∈ serase l x) : y ∈ l :=
  List.mem_of_mem_filter h

lemma mem_sinsert {l : List Int} {x y : Int} (h : y ∈ sinsert l x) :
    y = x ∨ y ∈ l := by
  unfold sinsert at h
  split at h
  · exact Or.inr h
  · exact List.mem_cons.mp h

lemma poolMin_mem : ∀ {l : List Int} {r : Int}, poolMin l = some r → r ∈ l := by
  intro l
  induction l with
  | nil => intro r h; simp [poolMin] at h
  | cons x rest ih =>
    intro r h
    rw [poolMin] at h
    cases hm : poolMin rest with
    | none => rw [hm] at h; simp at h; simp [h]
    | some m =>
      rw [hm] at h
      simp only [Option.some.injEq] at h
      by_cases hc : physRegLt m x
      · rw [if_pos hc] at h; exact List.mem_cons.mpr (Or.inr (ih (h ▸ hm)))
      · rw [if_neg hc] at h; simp [h]

lemma mem_insertActiveInterval :
    ∀ {l : List (Interval × Int)} {e x : Interval × Int},
      x ∈ insertActiveInterval l e → x ∈ l ∨ x = e := by
  intro l
  induction l with
  | nil => intro e x h; simp [insertActiveInterval] at h; simp [h]
  | cons a rest ih =>
    intro e x h
    rw [insertActiveInterval] at h
    split at h
    · rcases List.mem_cons.mp h with h | h
      · exact Or.inl (by simp [h])
      · rcases ih h with h | h
        · exact Or.inl (by simp [h])
        · exact Or.inr h
    · rcases List.mem_cons.mp h with h | h
      · exact Or.inr h
      · exact Or.inl h

lemma alookup_mem {m : List (Int × Int)} {k v : Int}
    (h : alookup m k = some v) : (k, v) ∈ m := by
  unfold alookup at h
  cases hf : m.find? (fun kv => kv.1 == k) with
  | none => rw [hf] at h; simp at h
  | some kv =>
    rw [hf] at h
    have hv : kv.2 = v := by simpa using h
    have hmem := List.mem_of_find?_eq_some hf
    have hp := List.find?_some hf
    simp only [beq_iff_eq] at hp
    have : kv = (k, v) := by
      cases kv
      simp only at hp hv
      simp [hp, hv]
    exact this ▸ hmem

/-- The C4 invariant: no reserved register in the free pool, in the map
values, or in the fields of active intervals. -/
def NoRes (st : AllocState) : Prop :=
  (∀ r ∈ st.freePhysRegs, isReserved r = false) ∧
  (∀ kv ∈ st.vregToPhys, RegOk kv.2) ∧
  (∀ e ∈ st.active, RegOk e.2)

lemma noRes_init : NoRes initState := by
  refine ⟨?_, by simp [initState], by simp [initState]⟩
  intro r hr
  simp only [initState, allocatableRegs, List.mem_filter, List.mem_map] at hr
  simpa [isReserved] using hr.2

lemma noRes_processOneParam {st : AllocState} (h : NoRes st) (i : Nat) (v : Int) :
    NoRes (processOneParam st i v) := by
  unfold processOneParam
  by_cases hi : i < 8
  · rw [if_pos hi]
    refine ⟨?_, ?_, h.2.2⟩
    · intro r hr; exact h.1 r (mem_serase hr)
    · intro kv hkv
      rcases mem_aset hkv with hm | he
      · exact h.2.1 kv hm
      · right
        rw [he]
        show isReserved (10 + Int.ofNat i) = false
        interval_cases i <;> decide
  · rw [if_neg hi]
    exact ⟨h.1, h.2.1, h.2.2⟩

lemma noRes_processParameters {st : AllocState} (h : NoRes st)
    (params : List Int) : NoRes (processParameters st params) := by
  unfold processParameters
  induction params.enum generalizing st with
  | nil => exact h
  | cons p rest ih => exact ih (noRes_processOneParam h p.1 p.2)

lemma noRes_freePhysReg {st : AllocState} (h : NoRes st) (physId : Int) :
    NoRes (freePhysReg st physId) := by
  unfold freePhysReg
  split
  · next hc =>
    refine ⟨?_, h.2.1, h.2.2⟩
    intro r hr
    rcases mem_sinsert hr with rfl | hm
    · simpa using hc.2
    · exact h.1 r hm
  · exact h

lemma noRes_expireAux (curStart : Int) :
    ∀ (l : List (Interval × Int)) (st : AllocState),
      NoRes st → (∀ e ∈ l, e ∈ st.active) →
      NoRes (expireAux curStart l st) := by
  intro l
  induction l with
  | nil => intro st h _; exact h
  | cons e rest ih =>
    intro st h hsub
    rw [expireAux]
    split
    · refine ih _ ?_ ?_
      · refine @noRes_freePhysReg { st with active := rest } ⟨h.1, h.2.1, ?_⟩ e.2
        intro x hx
        exact h.2.2 x (hsub x (by simp [hx]))
      · intro x hx
        unfold freePhysReg
        split <;> simpa using hx
    · exact h

lemma noRes_expire {st : AllocState} (h : NoRes st) (curStart : Int) :
    NoRes (expireOldIntervals st curStart) :=
  noRes_expireAux curStart st.active st h (fun _ hx => hx)

lemma noRes_spillAtInterval {st : AllocState} (h : NoRes st) (iv : Interval) :
    NoRes (spillAtInterval st iv) := by
  unfold spillAtInterval
  split
  · exact ⟨h.1, h.2.1, h.2.2⟩
  · next a rest heq =>
    have hspill : RegOk (st.active.getD (maxEndIdx st.active)
        (spillAtInterval.default_, -1)).2 := by
      by_cases hidx : maxEndIdx st.active < st.active.length
      · rw [List.getD_eq_getElem st.active _ hidx]
        exact h.2.2 _ (List.getElem_mem hidx)
      · rw [List.getD_eq_default st.active _ (by omega)]
        exact Or.inl rfl
    dsimp only
    split
    · refine ⟨h.1, ?_, ?_⟩
      · intro kv hkv
        rcases mem_aset hkv with hm | rfl
        · exact h.2.1 kv (mem_aerase hm)
        · exact hspill
      · intro e he
        rcases mem_insertActiveInterval he with hm | rfl
        · exact h.2.2 e ((List.eraseIdx_sublist st.active _).subset hm)
        · exact hspill
    · exact ⟨h.1, h.2.1, h.2.2⟩

lemma noRes_allocatePhysicalReg {st : AllocState} (h : NoRes st)
    (iv : Interval) : NoRes (allocatePhysicalReg st iv) := by
  unfold allocatePhysicalReg allocatePhysReg
  cases hp : poolMin st.freePhysRegs with
  | none =>
    refine ⟨h.1, ?_, ?_⟩
    · intro kv hkv
      rcases mem_aset hkv with hm | rfl
      · exact h.2.1 kv hm
      · exact Or.inl rfl
    · intro e he
      rcases mem_insertActiveInterval he with hm | rfl
      · exact h.2.2 e hm
      · exact Or.inl rfl
  | some reg =>
    have hreg : isReserved reg = false := h.1 reg (poolMin_mem hp)
    refine ⟨?_, ?_, ?_⟩
    · intro r hr; exact h.1 r (mem_serase hr)
    · intro kv hkv
      rcases mem_aset hkv with hm | rfl
      · exact h.2.1 kv hm
      · exact Or.inr hreg
    · intro e he
      rcases mem_insertActiveInterval he with hm | rfl
      · exact h.2.2 e hm
      · exact Or.inr hreg

lemma noRes_scanStep {st : AllocState} (h : NoRes st) (iv : Interval) :
    NoRes (scanStep st iv) := by
  unfold scanStep
  have h1 := noRes_expire h iv.start
  dsimp only
  split
  · split
    · refine ⟨h1.1, h1.2.1, ?_⟩
      intro e he
      rcases mem_insertActiveInterval he with hm | rfl
      · exact h1.2.2 e hm
      · exact Or.inl rfl
    · exact h1
  · split
    · exact noRes_spillAtInterval h1 iv
    · have h2 := noRes_allocatePhysicalReg h1 iv
      exact ⟨h2.1, h2.2.1, h2.2.2⟩

lemma noRes_runLinearScan {st : AllocState} (h : NoRes st) :
    ∀ (ivs : List Interval), NoRes (runLinearScan st ivs) := by
  intro ivs
  unfold runLinearScan
  induction ivs generalizing st with
  | nil => exact h
  | cons iv rest ih => exact ih (noRes_scanStep h iv)

/-- C4: for every function (any parameter list and any live-interval list),
the `AllocationResult` produced by the allocator never maps a VReg to
physical register id 5 (`t0`) or 6 (`t1`) in `vregToPhys`: the two
spill-temporary registers are reserved and never handed out by the main
allocation loop. -/
theorem C4_no_spill_temp_assigned :
    ∀ (paramVregs : List Int) (ivs : List Interval) (v r : Int),
      alookup (runLinearScan (processParameters initState paramVregs)
        ivs).vregToPhys v = some r → r ≠ 5 ∧ r ≠ 6 := by
  intro params ivs v r hlk
  have h := noRes_runLinearScan (noRes_processParameters noRes_init params) ivs
  have hmem := alookup_mem hlk
  rcases h.2.1 _ hmem with h1 | h1
  · simp only at h1
    constructor <;> (rw [h1]; omega)
  · simp only at h1
    constructor <;> rintro rfl <;> exact absurd h1 (by decide)

/-- Witness for C4: a one-parameter function with a single non-parameter
interval; the interval receives `a1` (id 11), not a spill temporary. -/
theorem C4_no_spill_temp_assigned_witness :
    alookup (runLinearScan (processParameters initState [0])
      [⟨2, [⟨2, 3⟩]⟩]).vregToPhys 2 = some 11 ∧ (11 : Int) ≠ 5 ∧ (11 : Int) ≠ 6 :=
  ⟨by decide, C4_no_spill_temp_assigned [0] [⟨2, [⟨2, 3⟩]⟩] 2 11 (by decide)⟩

/-! ## IR instructions (`ir.h`) -/

/-- `ir::Opcode`. -/
inductive Opcode
  | Alloca | Load | Store
  | Add | Sub | Mul | SDiv | SRem
  | ICmp
  | Br | CondBr | Ret | RetVoid
  | Call
deriving DecidableEq, Repr

/-- `ir::CmpPred`. -/
inductive CmpPred
  | EQ | NE | SLT | SGT | SLE | SGE
deriving DecidableEq, Repr

/-- `ir::Operand`. -/
inductive Operand
  | none
  | vreg (id : Int)
  | imm (v : Int)
  | label (name : String)
  | boolLit (b : Bool)
deriving DecidableEq, Repr

/-- `Operand::isVReg`. -/
def Operand.isVReg : Operand → Bool
  | .vreg _ => true
  | _ => false

/-- `Operand::isImm`. -/
def Operand.isImm : Operand → Bool
  | .imm _ => true
  | _ => false

/-- `Operand::isBoolLit`. -/
def Operand.isBoolLit : Operand → Bool
  | .boolLit _ => true
  | _ => false

/-- `Operand::isLabel`. -/
def Operand.isLabel : Operand → Bool
  | .label _ => true
  | _ => false

/-- `Operand::isNone`. -/
def Operand.isNone : Operand → Bool
  | .none => true
  | _ => false

/-- `Operand::regId` (the raw `value_` field). -/
def Operand.regId : Operand → Int
  | .vreg id => id
  | .imm v => v
  | .boolLit b => if b then 1 else 0
  | _ => 0

/-- `Operand::immValue` (same raw field). -/
def Operand.immValue (o : Operand) : Int := o.regId

/-- `Operand::boolValue`. -/
def Operand.boolValue (o : Operand) : Bool := o.regId != 0

/-- `Operand::labelName`. -/
def Operand.labelName : Operand → String
  | .label n => n
  | _ => ""

/-- `ir::Instruction`; `defOp` is the C++ field `def` (a Lean keyword). -/
structure Instruction where
  opcode : Opcode
  type : String := ""
  defOp : Operand := Operand.none
  ops : List Operand := []
  cmpPred : CmpPred := CmpPred.EQ
  callee : String := ""
  nsw : Bool := false
  align : Int := 4
deriving DecidableEq, Repr

/-- `Instruction::defReg`. -/
def Instruction.defReg (i : Instruction) : Int :=
  if i.defOp.isVReg then i.defOp.regId else -1

/-- `Instruction::useRegs` (`src/ir.cpp` lines 227-281). -/
def Instruction.useRegs (i : Instruction) : List Int :=
  match i.opcode with
  | .Alloca => []
  | .Load => match i.ops.head? with
    | some op => if op.isVReg then [op.regId] else []
    | Option.none => []
  | .Store => (i.ops.filter Operand.isVReg).map Operand.regId
  | .Add | .Sub | .Mul | .SDiv | .SRem =>
      (i.ops.filter Operand.isVReg).map Operand.regId
  | .ICmp => (i.ops.filter Operand.isVReg).map Operand.regId
  | .CondBr => match i.ops.head? with
    | some op => if op.isVReg then [op.regId] else []
    | Option.none => []
  | .Br => []
  | .Ret => match i.ops.head? with
    | some op => if op.isVReg then [op.regId] else []
    | Option.none => []
  | .RetVoid => []
  | .Call => (i.ops.filter Operand.isVReg).map Operand.regId

/-- `Instruction::isTerminator`. -/
def Instruction.isTerminator (i : Instruction) : Bool :=
  match i.opcode with
  | .Br | .CondBr | .Ret | .RetVoid => true
  | _ => false

/-- `Instruction::branchTargets` (`src/ir.cpp` lines 294-311). -/
def Instruction.branchTargets (i : Instruction) : List String :=
  match i.opcode with
  | .Br => match i.ops.head? with
    | some op => if op.isLabel then [op.labelName] else []
    | Option.none => []
  | .CondBr =>
      (match i.ops.getD 1 Operand.none with
        | Operand.label n => [n]
        | _ => []) ++
      (match i.ops.getD 2 Operand.none with
        | Operand.label n => [n]
        | _ => [])
  | _ => []

/-- `Instruction::makeAlloca`. -/
def makeAlloca (defOp : Operand) (type : String) (align : Int := 4) :
    Instruction :=
  { opcode := .Alloca, defOp := defOp, type := type, align := align }

/-- `Instruction::makeLoad`. -/
def makeLoad (defOp : Operand) (type : String) (ptr : Operand)
    (align : Int := 4) : Instruction :=
  { opcode := .Load, defOp := defOp, type := type, ops := [ptr], align := align }

/-- `Instruction::makeStore`. -/
def makeStore (type : String) (value ptr : Operand) (align : Int := 4) :
    Instruction :=
  { opcode := .Store, type := type, ops := [value, ptr], align := align }

/-- `Instruction::makeBinOp`. -/
def makeBinOp (op : Opcode) (defOp : Operand) (type : String)
    (lhs rhs : Operand) : Instruction :=
  { opcode := op, defOp := defOp, type := type, ops := [lhs, rhs], nsw := true }

/-- `Instruction::makeICmp`. -/
def makeICmp (pred : CmpPred) (defOp : Operand) (type : String)
    (lhs rhs : Operand) : Instruction :=
  { opcode := .ICmp, defOp := defOp, type := type, ops := [lhs, rhs],
    cmpPred := pred }

/-- `Instruction::makeBr`. -/
def makeBr (target : Operand) : Instruction :=
  { opcode := .Br, ops := [target] }

/-- `Instruction::makeCondBr`. -/
def makeCondBr (cond trueTarget falseTarget : Operand) : Instruction :=
  { opcode := .CondBr, ops := [cond, trueTarget, falseTarget] }

/-- `Instruction::makeRet`. -/
def makeRet (type : String) (value : Operand) : Instruction :=
  { opcode := .Ret, type := type, ops := [value] }

/-- `Instruction::makeRetVoid`. -/
def makeRetVoid : Instruction :=
  { opcode := .RetVoid, type := "void" }

/-- `Instruction::makeCall`. -/
def makeCall (defOp : Operand) (retType callee : String)
    (args : List Operand) : Instruction :=
  { opcode := .Call, defOp := defOp, type := retType, callee := callee,
    ops := args }

/-! ## RISC-V code generator (`riscv_codegen.cpp`), per-instruction parts -/

/-- `RISCVCodeGen::CmpInfo`: cached compare for branch fusion. -/
structure CmpInfo where
  pred : CmpPred
  lhsReg : String
  rhsReg : String
deriving DecidableEq, Repr

/-- Association-list lookup for the fusion map. -/
def clookup (m : List (Int × CmpInfo)) (k : Int) : Option CmpInfo :=
  (m.find? (fun kv => kv.1 == k)).map (·.2)

/-- Association-list update for the fusion map. -/
def cset (m : List (Int × CmpInfo)) (k : Int) (v : CmpInfo) :
    List (Int × CmpInfo) :=
  if (m.find? (fun kv => kv.1 == k)).isSome then
    m.map (fun kv => if kv.1 == k then (k, v) else kv)
  else m ++ [(k, v)]

/-- Association-list erase for the fusion map. -/
def cerase (m : List (Int × CmpInfo)) (k : Int) : List (Int × CmpInfo) :=
  m.filter (fun kv => kv.1 != k)

/-- Per-function mutable state of `RISCVCodeGen` used by the
per-instruction generators. -/
structure CGState where
  currentFunction : String
  vregToPhys : List (Int × Int)
  vregToStack : List (Int × Int)
  allocaOffsets : List (Int × Int)
  stackOffset : Int
  frameOverhead : Int
  callArgAreaSize : Int
  callSaveSize : Int
  spillTempCounter : Bool
  lastDefRegName : String
  cmpMap : List (Int × CmpInfo)
  out : List String
deriving Repr

/-- `RISCVCodeGen::emit`. -/
def emit (st : CGState) (line : String) : CGState :=
  { st with out := st.out ++ [line] }

/-- `LinearScanAllocator::allocateSpillTempReg` (the code generator calls it
through the per-function allocator): flip, then t0 when the flag is set. -/
def allocateSpillTempReg (st : CGState) : CGState × Int :=
  ({ st with spillTempCounter := !st.spillTempCounter },
    if !st.spillTempCounter then 5 else 6)

/-- `RISCVCodeGen::spillSlotToSpOffset`. -/
def spillSlotToSpOffset (st : CGState) (slot : Int) : Int :=
  st.callArgAreaSize + st.callSaveSize + ((-slot) - 4)

/-- `RISCVCodeGen::getAllocaOffset`: the recorded offset plus the frame
overhead, or 0 when the vreg is not in the table. -/
def getAllocaOffset (st : CGState) (vreg : Int) : Int :=
  match alookup st.allocaOffsets vreg with
  | some o => o + st.frameOverhead
  | Option.none => 0

/-- `RISCVCodeGen::resolveUse`. -/
def resolveUse (st : CGState) (op : Operand) : CGState × String :=
  match op with
  | .imm v =>
    let p := allocateSpillTempReg st
    let tmpName := getRegName p.2
    (emit p.1 ("li " ++ tmpName ++ ", " ++ toString v), tmpName)
  | .boolLit b =>
    let p := allocateSpillTempReg st
    let tmpName := getRegName p.2
    (emit p.1 ("li " ++ tmpName ++ ", " ++ toString (if b then (1 : Int) else 0)),
      tmpName)
  | .vreg vr =>
    match alookup st.vregToPhys vr with
    | some phys => (st, getRegName phys)
    | Option.none =>
      match alookup st.vregToStack vr with
      | some slot =>
        let p := allocateSpillTempReg st
        let tmpName := getRegName p.2
        if 0 < slot then
          (emit p.1 ("lw " ++ tmpName ++ ", " ++ toString (slot - 4) ++ "(s0)"),
            tmpName)
        else
          (emit p.1 ("lw " ++ tmpName ++ ", " ++
            toString (spillSlotToSpOffset st slot) ++ "(sp)"), tmpName)
      | Option.none => (st, "a0")
  | _ => (st, "zero")

/-- `RISCVCodeGen::resolveDef`. -/
def resolveDef (st : CGState) (op : Operand) : CGState × String :=
  match op with
  | .vreg vr =>
    (match alookup st.vregToPhys vr with
    | some phys => ({ st with lastDefRegName := getRegName phys }, getRegName phys)
    | Option.none =>
      let p := allocateSpillTempReg st
      ({ p.1 with lastDefRegName := getRegName p.2 }, getRegName p.2))
  | _ => ({ st with lastDefRegName := "a0" }, "a0")

/-- `RISCVCodeGen::spillDefIfNeeded`. -/
def spillDefIfNeeded (st : CGState) (inst : Instruction) : CGState :=
  if inst.defReg < 0 then st
  else
    match alookup st.vregToStack inst.defReg with
    | some slot =>
      if slot < 0 ∧ (alookup st.allocaOffsets inst.defReg).isNone then
        emit st ("sw " ++ st.lastDefRegName ++ ", " ++
          toString (spillSlotToSpOffset st slot) ++ "(sp)")
      else st
    | Option.none => st

/-- `RISCVCodeGen::genAlloca`. -/
def genAlloca (st : CGState) (inst : Instruction) : CGState :=
  let size : Int := if inst.type == "i1" then 1 else 4
  let so := st.stackOffset + size
  let so2 := if so % 4 != 0 then so + (4 - so % 4) else so
  { st with
    stackOffset := so2
    allocaOffsets := aset st.allocaOffsets inst.defReg so2 }

/-- `RISCVCodeGen::genStore`. -/
def genStore (st : CGState) (inst : Instruction) : CGState :=
  let r := resolveUse st (inst.ops.getD 0 Operand.none)
  let ptrVreg := (inst.ops.getD 1 Operand.none).regId
  let offset := getAllocaOffset r.1 ptrVreg
  if inst.type == "i1" then
    emit r.1 ("sb " ++ r.2 ++ ", -" ++ toString offset ++ "(s0)")
  else
    emit r.1 ("sw " ++ r.2 ++ ", -" ++ toString offset ++ "(s0)")

/-- `RISCVCodeGen::genLoad`. -/
def genLoad (st : CGState) (inst : Instruction) : CGState :=
  let d := resolveDef st inst.defOp
  let ptrVreg := (inst.ops.getD 0 Operand.none).regId
  let offset := getAllocaOffset d.1 ptrVreg
  let st2 :=
    if inst.type == "i1" then
      emit d.1 ("lb " ++ d.2 ++ ", -" ++ toString offset ++ "(s0)")
    else
      emit d.1 ("lw " ++ d.2 ++ ", -" ++ toString offset ++ "(s0)")
  spillDefIfNeeded st2 inst

/-- `RISCVCodeGen::genICmp`. -/
def genICmp (st : CGState) (inst : Instruction) : CGState :=
  let l := resolveUse st (inst.ops.getD 0 Operand.none)
  let r := resolveUse l.1 (inst.ops.getD 1 Operand.none)
  let d := resolveDef r.1 inst.defOp
  let st3 := { d.1 with
    cmpMap := cset d.1.cmpMap inst.defReg ⟨inst.cmpPred, l.2, r.2⟩ }
  let st4 :=
    match inst.cmpPred with
    | .EQ => emit (emit st3 ("sub " ++ d.2 ++ ", " ++ l.2 ++ ", " ++ r.2))
        ("seqz " ++ d.2 ++ ", " ++ d.2)
    | .NE => emit (emit st3 ("sub " ++ d.2 ++ ", " ++ l.2 ++ ", " ++ r.2))
        ("snez " ++ d.2 ++ ", " ++ d.2)
    | .SLT => emit st3 ("slt " ++ d.2 ++ ", " ++ l.2 ++ ", " ++ r.2)
    | .SGT => emit st3 ("slt " ++ d.2 ++ ", " ++ r.2 ++ ", " ++ l.2)
    | .SLE => emit (emit st3 ("slt " ++ d.2 ++ ", " ++ r.2 ++ ", " ++ l.2))
        ("xori " ++ d.2 ++ ", " ++ d.2 ++ ", 1")
    | .SGE => emit (emit st3 ("slt " ++ d.2 ++ ", " ++ l.2 ++ ", " ++ r.2))
        ("xori " ++ d.2 ++ ", " ++ d.2 ++ ", 1")
  spillDefIfNeeded st4 inst

/-- `RISCVCodeGen::genCondBr`. -/
def genCondBr (st : CGState) (inst : Instruction) : CGState :=
  let trueLabel := "." ++ st.currentFunction ++ "_" ++
    (inst.ops.getD 1 Operand.none).labelName
  let falseLabel := "." ++ st.currentFunction ++ "_" ++
    (inst.ops.getD 2 Operand.none).labelName
  let condVreg := if (inst.ops.getD 0 Operand.none).isVReg then
    (inst.ops.getD 0 Operand.none).regId else -1
  match clookup st.cmpMap condVreg with
  | some cmp =>
    let brOp :=
      match cmp.pred with
      | .EQ => "beq" | .NE => "bne" | .SLT => "blt"
      | .SGT => "bgt" | .SLE => "ble" | .SGE => "bge"
    { emit (emit st (brOp ++ " " ++ cmp.lhsReg ++ ", " ++ cmp.rhsReg ++ ", " ++
        trueLabel)) ("j " ++ falseLabel) with
      cmpMap := cerase st.cmpMap condVreg }
  | Option.none =>
    let c := resolveUse st (inst.ops.getD 0 Operand.none)
    emit (emit c.1 ("bnez " ++ c.2 ++ ", " ++ trueLabel)) ("j " ++ falseLabel)

/-! ### Preservation lemmas for the operand resolvers -/

lemma emit_fields (st : CGState) (line : String) :
    (emit st line).cmpMap = st.cmpMap ∧ (emit st line).out = st.out ++ [line] :=
  ⟨rfl, rfl⟩

lemma resolveUse_pres (st : CGState) (op : Operand) :
    (resolveUse st op).1.cmpMap = st.cmpMap ∧
    (resolveUse st op).1.vregToPhys = st.vregToPhys ∧
    (resolveUse st op).1.vregToStack = st.vregToStack ∧
    (resolveUse st op).1.allocaOffsets = st.allocaOffsets ∧
    (resolveUse st op).1.frameOverhead = st.frameOverhead ∧
    (resolveUse st op).1.lastDefRegName = st.lastDefRegName ∧
    (resolveUse st op).1.currentFunction = st.currentFunction ∧
    ∃ d : List String, (resolveUse st op).1.out = st.out ++ d := by
  unfold resolveUse
  cases op with
  | none => exact ⟨rfl, rfl, rfl, rfl, rfl, rfl, rfl, [], by simp⟩
  | imm v =>
    exact ⟨rfl, rfl, rfl, rfl, rfl, rfl, rfl, _, rfl⟩
  | boolLit b =>
    exact ⟨rfl, rfl, rfl, rfl, rfl, rfl, rfl, _, rfl⟩
  | label n => exact ⟨rfl, rfl, rfl, rfl, rfl, rfl, rfl, [], by simp⟩
  | vreg w =>
    dsimp only
    split
    · exact ⟨rfl, rfl, rfl, rfl, rfl, rfl, rfl, [], by simp⟩
    · split
      · split
        · exact ⟨rfl, rfl, rfl, rfl, rfl, rfl, rfl, _, rfl⟩
        · exact ⟨rfl, rfl, rfl, rfl, rfl, rfl, rfl, _, rfl⟩
      · exact ⟨rfl, rfl, rfl, rfl, rfl, rfl, rfl, [], by simp⟩

lemma resolveDef_pres (st : CGState) (op : Operand) :
    (resolveDef st op).1.cmpMap = st.cmpMap ∧
    (resolveDef st op).1.vregToPhys = st.vregToPhys ∧
    (resolveDef st op).1.vregToStack = st.vregToStack ∧
    (resolveDef st op).1.allocaOffsets = st.allocaOffsets ∧
    (resolveDef st op).1.frameOverhead = st.frameOverhead ∧
    (resolveDef st op).1.out = st.out := by
  unfold resolveDef
  cases op with
  | vreg w =>
    dsimp only
    split
    · exact ⟨rfl, rfl, rfl, rfl, rfl, rfl⟩
    · exact ⟨rfl, rfl, rfl, rfl, rfl, rfl⟩
  | none => exact ⟨rfl, rfl, rfl, rfl, rfl, rfl⟩
  | imm v => exact ⟨rfl, rfl, rfl, rfl, rfl, rfl⟩
  | label n => exact ⟨rfl, rfl, rfl, rfl, rfl, rfl⟩
  | boolLit b => exact ⟨rfl, rfl, rfl, rfl, rfl, rfl⟩

lemma spillDef_out (st : CGState) (inst : Instruction) :
    ∃ wb : List String, (spillDefIfNeeded st inst).out = st.out ++ wb ∧
      wb.length ≤ 1 ∧ (spillDefIfNeeded st inst).cmpMap = st.cmpMap := by
  unfold spillDefIfNeeded
  split
  · exact ⟨[], by simp, by simp, rfl⟩
  · split
    · split
      · exact ⟨[_], rfl, by simp, rfl⟩
      · exact ⟨[], by simp, by simp, rfl⟩
    · exact ⟨[], by simp, by simp, rfl⟩

/-! ### C6: compare synthesis and branch fusion -/

/-- Following the spec's words for C6: the value-producing compare sequence
(EQ: sub;seqz — NE: sub;snez — SLT: slt — SGT: slt swapped — SLE/SGE:
slt + xori 1). -/
def specIcmpValueLines (pred : CmpPred) (d l r : String) : List String :=
  match pred with
  | .EQ => ["sub " ++ d ++ ", " ++ l ++ ", " ++ r, "seqz " ++ d ++ ", " ++ d]
  | .NE => ["sub " ++ d ++ ", " ++ l ++ ", " ++ r, "snez " ++ d ++ ", " ++ d]
  | .SLT => ["slt " ++ d ++ ", " ++ l ++ ", " ++ r]
  | .SGT => ["slt " ++ d ++ ", " ++ r ++ ", " ++ l]
  | .SLE => ["slt " ++ d ++ ", " ++ r ++ ", " ++ l,
      "xori " ++ d ++ ", " ++ d ++ ", 1"]
  | .SGE => ["slt " ++ d ++ ", " ++ l ++ ", " ++ r,
      "xori " ++ d ++ ", " ++ d ++ ", 1"]

/-- Following the spec's words for C6: the direct branch mnemonic for each
predicate. -/
def specFusedBranchOp : CmpPred → String
  | .EQ => "beq" | .NE => "bne" | .SLT => "blt"
  | .SGT => "bgt" | .SLE => "ble" | .SGE => "bge"

/-- C6: `genICmp` emits the full value-producing compare with the resolved
registers and records `(pred, lhsReg, rhsReg)` in the fusion map keyed by
the def VReg (followed by at most one spill write-back line); `genCondBr`
with a fused condition emits the single matching direct branch to the true
label then `j` to the false label and removes the map entry; any other
`CondBr` emits `bnez` on the resolved condition register then `j` to the
false label, leaving the fusion map unchanged. -/
theorem C6_icmp_condbr_fusion :
    (∀ (st : CGState) (inst : Instruction),
      (genICmp st inst).cmpMap =
        cset st.cmpMap inst.defReg
          ⟨inst.cmpPred, (resolveUse st (inst.ops.getD 0 Operand.none)).2,
            (resolveUse (resolveUse st (inst.ops.getD 0 Operand.none)).1
              (inst.ops.getD 1 Operand.none)).2⟩ ∧
      ∃ wb : List String,
        (genICmp st inst).out =
          (resolveDef (resolveUse (resolveUse st
              (inst.ops.getD 0 Operand.none)).1
              (inst.ops.getD 1 Operand.none)).1 inst.defOp).1.out ++
            specIcmpValueLines inst.cmpPred
              (resolveDef (resolveUse (resolveUse st
                  (inst.ops.getD 0 Operand.none)).1
                  (inst.ops.getD 1 Operand.none)).1 inst.defOp).2
              (resolveUse st (inst.ops.getD 0 Operand.none)).2
              (resolveUse (resolveUse st (inst.ops.getD 0 Operand.none)).1
                (inst.ops.getD 1 Operand.none)).2 ++ wb ∧
          wb.length ≤ 1) ∧
    (∀ (st : CGState) (inst : Instruction) (cmp : CmpInfo),
      clookup st.cmpMap (if (inst.ops.getD 0 Operand.none).isVReg then
          (inst.ops.getD 0 Operand.none).regId else -1) = some cmp →
      (genCondBr st inst).out = st.out ++
        [specFusedBranchOp cmp.pred ++ " " ++ cmp.lhsReg ++ ", " ++
          cmp.rhsReg ++ ", " ++ "." ++ st.currentFunction ++ "_" ++
          (inst.ops.getD 1 Operand.none).labelName,
         "j " ++ "." ++ st.currentFunction ++ "_" ++
          (inst.ops.getD 2 Operand.none).labelName] ∧
      (genCondBr st inst).cmpMap =
        cerase st.cmpMap (if (inst.ops.getD 0 Operand.none).isVReg then
          (inst.ops.getD 0 Operand.none).regId else -1)) ∧
    (∀ (st : CGState) (inst : Instruction),
      clookup st.cmpMap (if (inst.ops.getD 0 Operand.none).isVReg then
          (inst.ops.getD 0 Operand.none).regId else -1) = Option.none →
      (genCondBr st inst).out =
        (resolveUse st (inst.ops.getD 0 Operand.none)).1.out ++
        ["bnez " ++ (resolveUse st (inst.ops.getD 0 Operand.none)).2 ++
          ", " ++ "." ++ st.currentFunction ++ "_" ++
          (inst.ops.getD 1 Operand.none).labelName,
         "j " ++ "." ++ st.currentFunction ++ "_" ++
          (inst.ops.getD 2 Operand.none).labelName] ∧
      (genCondBr st inst).cmpMap = st.cmpMap) := by
  refine ⟨?_, ?_, ?_⟩
  · intro st inst
    obtain ⟨hc1, _, _, _, _, _, _, d1, ho1⟩ :=
      resolveUse_pres st (inst.ops.getD 0 Operand.none)
    obtain ⟨hc2, _, _, _, _, _, _, d2, ho2⟩ :=
      resolveUse_pres (resolveUse st (inst.ops.getD 0 Operand.none)).1
        (inst.ops.getD 1 Operand.none)
    obtain ⟨hc3, _, _, _, _, ho3⟩ :=
      resolveDef_pres (resolveUse (resolveUse st
        (inst.ops.getD 0 Operand.none)).1 (inst.ops.getD 1 Operand.none)).1
        inst.defOp
    unfold genICmp
    dsimp only
    cases hp : inst.cmpPred <;>
      (obtain ⟨wb, hwb, hlen, hcm⟩ := spillDef_out _ inst) <;>
      refine ⟨by rw [hcm]; dsimp only [emit]; rw [hc3, hc2, hc1], wb, ?_, hlen⟩ <;>
      (rw [hwb]; simp [emit, specIcmpValueLines, hp])
  · intro st inst cmp hlk
    unfold genCondBr
    dsimp only
    rw [hlk]
    refine ⟨?_, rfl⟩
    cases hcp : cmp.pred <;>
      simp [emit, specFusedBranchOp, hcp, ← String.append_assoc]
  · intro st inst hlk
    unfold genCondBr
    dsimp only
    rw [hlk]
    obtain ⟨hc1, _, _, _, _, _, _, d1, ho1⟩ :=
      resolveUse_pres st (inst.ops.getD 0 Operand.none)
    exact ⟨by simp [emit, ← String.append_assoc], by dsimp only [emit]; exact hc1⟩

/-- Concrete code-generator state for the C6 witness: the fusion map caches
vreg 7 ↦ (SLT, a0, a1). -/
def cgDemo : CGState :=
  { currentFunction := "f", vregToPhys := [], vregToStack := [],
    allocaOffsets := [], stackOffset := 0, frameOverhead := 0,
    callArgAreaSize := 0, callSaveSize := 0, spillTempCounter := false,
    lastDefRegName := "", cmpMap := [(7, ⟨CmpPred.SLT, "a0", "a1"⟩)],
    out := [] }

/-- Concrete `CondBr` on vreg 7 for the C6 witness. -/
def condbrDemo : Instruction :=
  makeCondBr (Operand.vreg 7) (Operand.label "T") (Operand.label "F")

/-- Witness for C6: the fused case at a concrete state and instruction. -/
theorem C6_icmp_condbr_fusion_witness :
    clookup cgDemo.cmpMap (if (condbrDemo.ops.getD 0 Operand.none).isVReg then
      (condbrDemo.ops.getD 0 Operand.none).regId else -1) =
        some ⟨CmpPred.SLT, "a0", "a1"⟩ ∧
    (genCondBr cgDemo condbrDemo).out = cgDemo.out ++
      [specFusedBranchOp CmpPred.SLT ++ " " ++ "a0" ++ ", " ++ "a1" ++ ", " ++
        "." ++ cgDemo.currentFunction ++ "_" ++
        (condbrDemo.ops.getD 1 Operand.none).labelName,
       "j " ++ "." ++ cgDemo.currentFunction ++ "_" ++
        (condbrDemo.ops.getD 2 Operand.none).labelName] ∧
    (genCondBr cgDemo condbrDemo).cmpMap = cerase cgDemo.cmpMap
      (if (condbrDemo.ops.getD 0 Operand.none).isVReg then
        (condbrDemo.ops.getD 0 Operand.none).regId else -1) := by
  refine ⟨by decide, ?_, ?_⟩
  · exact (C6_icmp_condbr_fusion.2.1 cgDemo condbrDemo
      ⟨CmpPred.SLT, "a0", "a1"⟩ (by decide)).1
  · exact (C6_icmp_condbr_fusion.2.1 cgDemo condbrDemo
      ⟨CmpPred.SLT, "a0", "a1"⟩ (by decide)).2

/-! ### C10: loads/stores address memory only via the alloca table -/

/-- `resolveUse` consults the allocation maps only at the operand's own
vreg: replacing both maps by any maps that agree there leaves the emitted
lines and the returned register name unchanged. -/
lemma resolveUse_mapsIndep (st : CGState) (P S : List (Int × Int))
    (v : Operand)
    (hv : ∀ w, v = Operand.vreg w →
      alookup P w = alookup st.vregToPhys w ∧
      alookup S w = alookup st.vregToStack w) :
    (resolveUse { st with vregToPhys := P, vregToStack := S } v).1.out =
      (resolveUse st v).1.out ∧
    (resolveUse { st with vregToPhys := P, vregToStack := S } v).2 =
      (resolveUse st v).2 := by
  cases v with
  | none => exact ⟨rfl, rfl⟩
  | imm x => exact ⟨rfl, rfl⟩
  | boolLit b => exact ⟨rfl, rfl⟩
  | label n => exact ⟨rfl, rfl⟩
  | vreg w =>
    obtain ⟨h1, h2⟩ := hv w rfl
    unfold resolveUse
    dsimp only
    rw [h1, h2]
    cases alookup st.vregToPhys w with
    | some phys => exact ⟨rfl, rfl⟩
    | none =>
      cases alookup st.vregToStack w with
      | some slot =>
        dsimp only
        constructor <;> (split <;> rfl)
      | none => exact ⟨rfl, rfl⟩

/-- C10: `genStore`/`genLoad` address memory exclusively through the
frame-pointer-relative offset recorded in `allocaOffsets` for the pointer
vreg: the emitted access is always `-(offset)(s0)` with the offset taken
from the code generator's own table; the allocator's decision for the
pointer vreg is never consulted (replacing both allocation maps at the
pointer changes nothing); and `spillDefIfNeeded` never writes back a def
vreg recorded in the alloca table, even when the allocator gave it a
negative spill slot. -/
theorem C10_memory_via_alloca_table :
    (∀ (st : CGState) (inst : Instruction) (v : Operand) (ptr : Int),
      inst.ops = [v, Operand.vreg ptr] →
      (genStore st inst).out = (resolveUse st v).1.out ++
        [(if inst.type == "i1" then "sb " else "sw ") ++ (resolveUse st v).2 ++
          ", -" ++ toString (getAllocaOffset st ptr) ++ "(s0)"]) ∧
    (∀ (st : CGState) (inst : Instruction) (ptr : Int),
      inst.ops = [Operand.vreg ptr] →
      ∃ wb : List String, wb.length ≤ 1 ∧
      (genLoad st inst).out = st.out ++
        [(if inst.type == "i1" then "lb " else "lw ") ++
          (resolveDef st inst.defOp).2 ++
          ", -" ++ toString (getAllocaOffset st ptr) ++ "(s0)"] ++ wb) ∧
    (∀ (st : CGState) (P S : List (Int × Int)) (inst : Instruction)
        (v : Operand) (ptr : Int),
      inst.ops = [v, Operand.vreg ptr] →
      (∀ w, v = Operand.vreg w → w ≠ ptr) →
      (∀ k, k ≠ ptr → alookup P k = alookup st.vregToPhys k) →
      (∀ k, k ≠ ptr → alookup S k = alookup st.vregToStack k) →
      (genStore { st with vregToPhys := P, vregToStack := S } inst).out =
        (genStore st inst).out) ∧
    (∀ (st : CGState) (inst : Instruction),
      (alookup st.allocaOffsets inst.defReg).isSome →
      spillDefIfNeeded st inst = st) := by
  refine ⟨?_, ?_, ?_, ?_⟩
  · intro st inst v ptr hops
    obtain ⟨_, _, _, hA, hF, _, _, d1, ho1⟩ := resolveUse_pres st v
    unfold genStore
    rw [hops]
    simp only [List.getD_cons_zero, List.getD_cons_succ, Operand.regId]
    have hoff : getAllocaOffset (resolveUse st v).1 ptr =
        getAllocaOffset st ptr := by
      unfold getAllocaOffset
      rw [hA, hF]
    rw [hoff]
    split
    · next hty => simp only [hty, emit, if_pos]
    · next hty => simp only [emit]
  · intro st inst ptr hops
    obtain ⟨_, _, _, hA, hF, ho⟩ := resolveDef_pres st inst.defOp
    unfold genLoad
    rw [hops]
    simp only [List.getD_cons_zero, List.getD_cons_succ, Operand.regId]
    have hoff : getAllocaOffset (resolveDef st inst.defOp).1 ptr =
        getAllocaOffset st ptr := by
      unfold getAllocaOffset
      rw [hA, hF]
    rw [hoff]
    split
    · next hty =>
      obtain ⟨wb, hwb, hlen, _⟩ := spillDef_out _ inst
      refine ⟨wb, hlen, ?_⟩
      rw [hwb]
      simp only [emit, ho, hty, if_pos, List.append_assoc]
    · next hty =>
      obtain ⟨wb, hwb, hlen, _⟩ := spillDef_out _ inst
      refine ⟨wb, hlen, ?_⟩
      rw [hwb]
      simp only [emit, ho, List.append_assoc]
  · intro st P S inst v ptr hops hv hP hS
    have hres := resolveUse_mapsIndep st P S v (by
      intro w hw
      exact ⟨hP w (hv w hw), hS w (hv w hw)⟩)
    obtain ⟨_, _, _, hA, hF, _, _, d1, ho1⟩ :=
      resolveUse_pres { st with vregToPhys := P, vregToStack := S } v
    obtain ⟨_, _, _, hA2, hF2, _, _, d2, ho2⟩ := resolveUse_pres st v
    unfold genStore
    rw [hops]
    simp only [List.getD_cons_zero, List.getD_cons_succ, Operand.regId]
    have hoff : getAllocaOffset
        (resolveUse { st with vregToPhys := P, vregToStack := S } v).1 ptr =
        getAllocaOffset (resolveUse st v).1 ptr := by
      unfold getAllocaOffset
      rw [hA, hF, hA2, hF2]
    split
    · simp only [emit, hres.1, hres.2, hoff]
    · simp only [emit, hres.1, hres.2, hoff]
  · intro st inst hsome
    unfold spillDefIfNeeded
    split
    · rfl
    · split
      · split
        · next hcond =>
          exfalso
          rw [Option.isNone_iff_eq_none] at hcond
          rw [hcond.2] at hsome
          simp at hsome
        · rfl
      · rfl

/-- Concrete state for the C10 witness: vreg 3 is an alloca slot at offset
4 and the allocator (spuriously) also gave it spill slot -4. -/
def cgDemo2 : CGState :=
  { currentFunction := "g", vregToPhys := [], vregToStack := [(3, -4)],
    allocaOffsets := [(3, 4)], stackOffset := 4, frameOverhead := 8,
    callArgAreaSize := 0, callSaveSize := 0, spillTempCounter := false,
    lastDefRegName := "", cmpMap := [], out := [] }

/-- `store i32 5, ptr %3` for the C10 witness. -/
def storeDemo : Instruction := makeStore "i32" (Operand.imm 5) (Operand.vreg 3)

/-- `%3 = load i32, ptr %2` for the C10 witness (def vreg 3 is in the
alloca table). -/
def loadDemo : Instruction := makeLoad (Operand.vreg 3) "i32" (Operand.vreg 2)

/-- Witness for C10 at concrete state and instructions. -/
theorem C10_memory_via_alloca_table_witness :
    storeDemo.ops = [Operand.imm 5, Operand.vreg 3] ∧
    (genStore cgDemo2 storeDemo).out =
      (resolveUse cgDemo2 (Operand.imm 5)).1.out ++
      [(if storeDemo.type == "i1" then "sb " else "sw ") ++
        (resolveUse cgDemo2 (Operand.imm 5)).2 ++
        ", -" ++ toString (getAllocaOffset cgDemo2 3) ++ "(s0)"] ∧
    (alookup cgDemo2.allocaOffsets loadDemo.defReg).isSome ∧
    spillDefIfNeeded cgDemo2 loadDemo = cgDemo2 := by
  refine ⟨rfl, ?_, by decide, ?_⟩
  · exact C10_memory_via_alloca_table.1 cgDemo2 storeDemo (Operand.imm 5) 3 rfl
  · exact C10_memory_via_alloca_table.2.2.2 cgDemo2 loadDemo (by decide)

/-! ## AST (`ast.h`) and the IR builder (`ir_builder.cpp`) -/

/-- ToyC expressions (`ast.h`). -/
inductive Expr
  | num (value : Int)
  | ident (name : String)
  | binary (op : String) (lhs rhs : Expr)
  | unary (op : String) (e : Expr)
  | call (callee : String) (args : List Expr)
deriving Repr

/-- ToyC statements (`ast.h`); `ifS`'s else branch may be absent. -/
inductive Stmt
  | assign (name : String) (e : Expr)
  | decl (name : String) (e : Expr)
  | ifS (cond : Expr) (thenS : Stmt) (elseS : Option Stmt)
  | whileS (cond : Expr) (body : Stmt)
  | ret (e : Option Expr)
  | brk
  | cont
  | block (stmts : List Stmt)
  | exprS (e : Expr)
deriving Repr

/-- A ToyC function definition (`ast.h` `FuncDef`): the body is the
statement list of its `BlockStmt`. -/
structure FuncDef where
  name : String
  retType : String
  params : List String
  body : List Stmt
deriving Repr

/-- `ir::BasicBlock` as the builder fills it. -/
structure BBlock where
  id : Int
  name : String
  insts : List Instruction
deriving DecidableEq, Repr

instance : Inhabited BBlock := ⟨⟨0, "", []⟩⟩

/-- The mutable per-function state of `IRBuilder`.  The head of
`scopeStack` is the innermost scope; the head of the label stacks is the
C++ `back()`. -/
structure BState where
  vregCounter : Int
  labelCounter : Int
  scopeStack : List (List (String × Operand))
  loadedValues : List (String × Operand)
  breakLabels : List String
  continueLabels : List String
  hasReturn : Bool
  blocks : List BBlock
  cur : Nat
deriving Repr

/-- String-keyed association lookup (`std::map<std::string, …>::find`). -/
def slookup (m : List (String × Operand)) (k : String) : Option Operand :=
  (m.find? (fun kv => kv.1 == k)).map (·.2)

/-- String-keyed association update. -/
def sset (m : List (String × Operand)) (k : String) (v : Operand) :
    List (String × Operand) :=
  if (m.find? (fun kv => kv.1 == k)).isSome then
    m.map (fun kv => if kv.1 == k then (k, v) else kv)
  else m ++ [(k, v)]

/-- String-keyed association erase. -/
def sdel (m : List (String × Operand)) (k : String) :
    List (String × Operand) :=
  m.filter (fun kv => kv.1 != k)

/-- `IRBuilder::newVReg`: `Operand::vreg(++vregCounter_)`. -/
def newVReg (st : BState) : Operand × BState :=
  (Operand.vreg (st.vregCounter + 1), { st with vregCounter := st.vregCounter + 1 })

/-- `IRBuilder::newLabel` (no counter increment). -/
def newLabel (st : BState) (base : String) : String :=
  base ++ "_" ++ toString st.labelCounter

/-- `IRBuilder::createBlock`: append a block, return its index. -/
def createBlock (st : BState) (name : String) : Nat × BState :=
  (st.blocks.length,
    { st with blocks := st.blocks ++
        [⟨Int.ofNat st.blocks.length, name, []⟩] })

/-- `IRBuilder::setInsertBlock`. -/
def setInsert (st : BState) (idx : Nat) : BState := { st with cur := idx }

/-- `IRBuilder::emit`: append an instruction to the current block. -/
def emitB (st : BState) (inst : Instruction) : BState :=
  { st with blocks := st.blocks.map (fun b =>
      if b.id == Int.ofNat st.cur then { b with insts := b.insts ++ [inst] }
      else b) }

/-- `IRBuilder::enterScope`. -/
def enterScope (st : BState) : BState :=
  { st with scopeStack := [] :: st.scopeStack }

/-- `IRBuilder::exitScope`. -/
def exitScope (st : BState) : BState :=
  { st with scopeStack := st.scopeStack.tail }

/-- `IRBuilder::addVariable` (into the innermost scope). -/
def addVariable (st : BState) (name : String) (allocaReg : Operand) : BState :=
  match st.scopeStack with
  | [] => st
  | s :: rest => { st with scopeStack := sset s name allocaReg :: rest }

/-- `IRBuilder::findVariable`: innermost scope outwards. -/
def findVariable (st : BState) (name : String) : Option Operand :=
  let rec go : List (List (String × Operand)) → Option Operand
    | [] => Option.none
    | s :: rest =>
      match slookup s name with
      | some v => some v
      | Option.none => go rest
  go st.scopeStack

/-- Decimal parse of an all-digit identifier (C++ `std::stoi`). -/
def natOfDigits (s : String) : Int :=
  Int.ofNat (s.foldl (fun acc c => acc * 10 + (c.toNat - 48)) 0)

lemma expr_sizeOf_pos (e : Expr) : 0 < sizeOf e := by
  cases e <;> simp_arith

mutual

/-- `IRBuilder::buildExpr` (`src/ir_builder.cpp` lines 327-360). -/
def buildExpr : Expr → BState → Operand × BState
  | .num v, st => (Operand.imm v, st)
  | .ident name, st =>
    (match findVariable st name with
    | some varOp =>
      match slookup st.loadedValues name with
      | some cached => (cached, st)
      | Option.none =>
        let p := newVReg st
        let st2 := emitB p.2 (makeLoad p.1 "i32" varOp)
        (p.1, { st2 with loadedValues := sset st2.loadedValues name p.1 })
    | Option.none =>
      if !name.isEmpty && name.toList.all Char.isDigit then
        (Operand.vreg (natOfDigits name), st)
      else (Operand.imm 0, st))
  | .binary op l r, st =>
    if op == "&&" || op == "||" then buildLogicalOp op l r st
    else if op == "==" || op == "!=" || op == "<" || op == ">" ||
        op == "<=" || op == ">=" then buildComparison op l r st
    else
      let pl := buildExpr l st
      let pr := buildExpr r pl.2
      let pv := newVReg pr.2
      let opc : Opcode :=
        if op == "+" then .Add
        else if op == "-" then .Sub
        else if op == "*" then .Mul
        else if op == "/" then .SDiv
        else .SRem
      (pv.1, emitB pv.2 (makeBinOp opc pv.1 "i32" pl.1 pr.1))
  | .unary op e, st =>
    if op == "-" then
      match e with
      | .num v => (Operand.imm (-v), st)
      | e2 =>
        let pi2 := buildExpr e2 st
        let pv := newVReg pi2.2
        (pv.1, emitB pv.2 (makeBinOp .Sub pv.1 "i32" (Operand.imm 0) pi2.1))
    else if op == "!" then
      let pi2 := buildExpr e st
      let pv := newVReg pi2.2
      (pv.1, emitB pv.2 (makeICmp .EQ pv.1 "i32" pi2.1 (Operand.imm 0)))
    else buildExpr e st
  | .call callee args, st =>
    let pa := buildArgs args st
    let pv := newVReg pa.2
    (pv.1, emitB pv.2 (makeCall pv.1 "i32" callee pa.1))
termination_by e st => sizeOf e
decreasing_by all_goals simp_wf <;> omega

/-- Left-to-right evaluation of call arguments. -/
def buildArgs : List Expr → BState → List Operand × BState
  | [], st => ([], st)
  | a :: rest, st =>
    let pa := buildExpr a st
    let pr := buildArgs rest pa.2
    (pa.1 :: pr.1, pr.2)
termination_by as st => sizeOf as
decreasing_by all_goals simp_wf <;> omega

/-- `IRBuilder::buildComparison`. -/
def buildComparison (op : String) (l r : Expr) (st : BState) :
    Operand × BState :=
  let pl := buildExpr l st
  let pr := buildExpr r pl.2
  let pv := newVReg pr.2
  let pred : CmpPred :=
    if op == "==" then .EQ
    else if op == "!=" then .NE
    else if op == "<" then .SLT
    else if op == ">" then .SGT
    else if op == "<=" then .SLE
    else .SGE
  (pv.1, emitB pv.2 (makeICmp pred pv.1 "i32" pl.1 pr.1))
termination_by sizeOf l + sizeOf r
decreasing_by
  all_goals simp_wf
  · have h2 := expr_sizeOf_pos r; omega
  · have h1 := expr_sizeOf_pos l; omega

/-- `IRBuilder::buildLogicalOp` (`src/ir_builder.cpp` lines 440-500);
note: no `loadedValues_` clearing anywhere in this function. -/
def buildLogicalOp (op : String) (l r : Expr) (st : BState) :
    Operand × BState :=
  let pv := newVReg st
  let st1 := emitB pv.2 (makeAlloca pv.1 "i1" 1)
  let pl := buildExpr l st1
  if op == "&&" then
    let rhsName := newLabel pl.2 "land_rhs"
    let falseName := newLabel pl.2 "land_false"
    let endName := newLabel pl.2 "land_end"
    let st2 := { pl.2 with labelCounter := pl.2.labelCounter + 1 }
    let st3 := emitB st2 (makeCondBr pl.1 (Operand.label rhsName)
      (Operand.label falseName))
    let cb := createBlock st3 falseName
    let st4 := setInsert cb.2 cb.1
    let st5 := emitB st4 (makeStore "i1" (Operand.boolLit false) pv.1 1)
    let st6 := emitB st5 (makeBr (Operand.label endName))
    let cb2 := createBlock st6 rhsName
    let st7 := setInsert cb2.2 cb2.1
    let pr := buildExpr r st7
    let st8 := emitB pr.2 (makeStore "i1" pr.1 pv.1 1)
    let st9 := emitB st8 (makeBr (Operand.label endName))
    let cb3 := createBlock st9 endName
    let st10 := setInsert cb3.2 cb3.1
    let pres := newVReg st10
    (pres.1, emitB pres.2 (makeLoad pres.1 "i1" pv.1 1))
  else
    let trueName := newLabel pl.2 "lor_true"
    let rhsName := newLabel pl.2 "lor_rhs"
    let endName := newLabel pl.2 "lor_end"
    let st2 := { pl.2 with labelCounter := pl.2.labelCounter + 1 }
    let st3 := emitB st2 (makeCondBr pl.1 (Operand.label trueName)
      (Operand.label rhsName))
    let cb := createBlock st3 trueName
    let st4 := setInsert cb.2 cb.1
    let st5 := emitB st4 (makeStore "i1" (Operand.boolLit true) pv.1 1)
    let st6 := emitB st5 (makeBr (Operand.label endName))
    let cb2 := createBlock st6 rhsName
    let st7 := setInsert cb2.2 cb2.1
    let pr := buildExpr r st7
    let st8 := emitB pr.2 (makeStore "i1" pr.1 pv.1 1)
    let st9 := emitB st8 (makeBr (Operand.label endName))
    let cb3 := createBlock st9 endName
    let st10 := setInsert cb3.2 cb3.1
    let pres := newVReg st10
    (pres.1, emitB pres.2 (makeLoad pres.1 "i1" pv.1 1))
termination_by sizeOf l + sizeOf r
decreasing_by
  all_goals simp_wf
  all_goals first
    | (have h2 := expr_sizeOf_pos r; omega)
    | (have h1 := expr_sizeOf_pos l; omega)

end

mutual

/-- `IRBuilder::buildStmt` dispatch plus the per-statement builders
(`src/ir_builder.cpp` lines 166-321). -/
def buildStmt : Stmt → BState → BState
  | .assign name e, st =>
    let pv := buildExpr e st
    (match findVariable pv.2 name with
    | some varOp =>
      let st2 := emitB pv.2 (makeStore "i32" pv.1 varOp)
      { st2 with loadedValues := sdel st2.loadedValues name }
    | Option.none => pv.2)
  | .decl name e, st =>
    let pv := buildExpr e st
    let slot := newVReg pv.2
    let st2 := emitB slot.2 (makeAlloca slot.1 "i32")
    let st3 := addVariable st2 name slot.1
    let st4 := emitB st3 (makeStore "i32" pv.1 slot.1)
    { st4 with loadedValues := sdel st4.loadedValues name }
  | .ifS cond t e, st =>
    let st0 := { st with loadedValues := [] }
    let pc := buildExpr cond st0
    let thenName := newLabel pc.2 "then"
    let elseName := newLabel pc.2 "else"
    let endName := newLabel pc.2 "endif"
    let st1 := { pc.2 with labelCounter := pc.2.labelCounter + 1 }
    let st2 := emitB st1 (makeCondBr pc.1 (Operand.label thenName)
      (Operand.label elseName))
    let cb := createBlock st2 thenName
    let st3 := { setInsert cb.2 cb.1 with loadedValues := [] }
    let st4 := buildStmt t st3
    let st5 := emitB st4 (makeBr (Operand.label endName))
    let cb2 := createBlock st5 elseName
    let st6 := { setInsert cb2.2 cb2.1 with loadedValues := [] }
    let st7 := buildStmtOpt e st6
    let st8 := emitB st7 (makeBr (Operand.label endName))
    let cb3 := createBlock st8 endName
    { setInsert cb3.2 cb3.1 with loadedValues := [] }
  | .whileS cond body, st =>
    let condName := newLabel st "while_cond"
    let bodyName := newLabel st "while_body"
    let endName := newLabel st "while_end"
    let st1 := { st with
      labelCounter := st.labelCounter + 1
      breakLabels := endName :: st.breakLabels
      continueLabels := condName :: st.continueLabels }
    let st2 := emitB st1 (makeBr (Operand.label condName))
    let cb := createBlock st2 condName
    let st3 := { setInsert cb.2 cb.1 with loadedValues := [] }
    let pc := buildExpr cond st3
    let st4 := emitB pc.2 (makeCondBr pc.1 (Operand.label bodyName)
      (Operand.label endName))
    let cb2 := createBlock st4 bodyName
    let st5 := { setInsert cb2.2 cb2.1 with loadedValues := [] }
    let st6 := buildStmt body st5
    let st7 := emitB st6 (makeBr (Operand.label condName))
    let cb3 := createBlock st7 endName
    let st8 := setInsert cb3.2 cb3.1
    { st8 with
      breakLabels := st8.breakLabels.tail
      continueLabels := st8.continueLabels.tail }
  | .ret oe, st =>
    (match oe with
    | some e =>
      let pv := buildExpr e st
      { emitB pv.2 (makeRet "i32" pv.1) with hasReturn := true }
    | Option.none => { emitB st makeRetVoid with hasReturn := true })
  | .brk, st =>
    (match st.breakLabels with
    | [] => st
    | lbl :: _ => emitB st (makeBr (Operand.label lbl)))
  | .cont, st =>
    (match st.continueLabels with
    | [] => st
    | lbl :: _ => emitB st (makeBr (Operand.label lbl)))
  | .block ss, st => exitScope (buildStmtList ss (enterScope st))
  | .exprS e, st => (buildExpr e st).2
termination_by s st => sizeOf s
decreasing_by all_goals simp_wf <;> omega

/-- `IRBuilder::buildBlock` body loop. -/
def buildStmtList : List Stmt → BState → BState
  | [], st => st
  | s :: rest, st => buildStmtList rest (buildStmt s st)
termination_by ss st => sizeOf ss
decreasing_by all_goals simp_wf <;> omega

/-- Dispatch on a nullable statement (C++ `buildStmt(nullptr)` returns). -/
def buildStmtOpt : Option Stmt → BState → BState
  | Option.none, st => st
  | some s, st => buildStmt s st
termination_by os st => sizeOf os
decreasing_by all_goals simp_wf <;> omega

end

/-- Parameter prologue loop of `IRBuilder::buildFunction`: alloca + store
for each parameter, registering both the canonical index name and the
original name. -/
def buildParams : List String → Nat → BState → BState
  | [], _, st => st
  | orig :: rest, i, st =>
    let slot := newVReg st
    let st1 := emitB slot.2 (makeAlloca slot.1 "i32")
    let st2 := emitB st1 (makeStore "i32" (Operand.vreg (Int.ofNat i)) slot.1)
    let st3 := addVariable st2 (toString i) slot.1
    let st4 := addVariable st3 orig slot.1
    buildParams rest (i + 1) st4

/-- The builder state at the start of `IRBuilder::buildFunction`, after the
counters are reset: the vreg counter starts at the parameter count. -/
def buildInitState (fd : FuncDef) : BState :=
  { vregCounter := Int.ofNat fd.params.length, labelCounter := 0,
    scopeStack := [[]], loadedValues := [], breakLabels := [],
    continueLabels := [], hasReturn := false, blocks := [], cur := 0 }

/-- `ir::Function` as produced by the builder. -/
structure IRFunction where
  name : String
  returnType : String
  params : List String
  paramVregs : List Int
  blocks : List BBlock
  maxVregId : Int
deriving Repr

/-- `IRBuilder::buildFunction` (`src/ir_builder.cpp` lines 86-153). -/
def buildFunction (fd : FuncDef) : IRFunction :=
  let st0 := buildInitState fd
  let cb := createBlock st0 "entry"
  let st1 := setInsert cb.2 cb.1
  let st2 :=
    if fd.name == "main" then
      let rv := newVReg st1
      let sta := addVariable rv.2 (fd.name ++ "_ret") rv.1
      emitB (emitB sta (makeAlloca rv.1 "i32"))
        (makeStore "i32" (Operand.imm 0) rv.1)
    else st1
  let st3 := buildParams fd.params 0 st2
  let st4 := buildStmt (.block fd.body) st3
  let st5 :=
    if st4.hasReturn then st4
    else if fd.retType == "int" then emitB st4 (makeRet "i32" (Operand.imm 0))
    else emitB st4 makeRetVoid
  { name := fd.name, returnType := fd.retType, params := fd.params,
    paramVregs := (List.range fd.params.length).map Int.ofNat,
    blocks := st5.blocks, maxVregId := st5.vregCounter }

/-! ## C5: parameter vreg ids and the first fresh vreg -/

/-- `int f(int a) { return a; }` as an AST. -/
def fdC5 : FuncDef :=
  { name := "f", retType := "int", params := ["a"],
    body := [.ret (some (.ident "a"))] }

/-- C5 counterexample: the spec says the first freshly allocated VReg of an
`n`-parameter function has id `n`.  For `int f(int a) { return a; }`
(`n = 1`), `newVReg` pre-increments the counter that `buildFunction` reset
to `n`, so the first fresh VReg is 2, and the built function contains no
instruction defining VReg 1 at all: id `n` is skipped. -/
theorem C5_first_fresh_vreg_counterexample :
    fdC5.params.length = 1 ∧
    (newVReg (buildInitState fdC5)).1 = Operand.vreg 2 ∧
    buildFunction fdC5 =
      { name := "f", returnType := "int", params := ["a"],
        paramVregs := [0],
        blocks := [⟨0, "entry",
          [makeAlloca (Operand.vreg 2) "i32",
           makeStore "i32" (Operand.vreg 0) (Operand.vreg 2),
           makeLoad (Operand.vreg 3) "i32" (Operand.vreg 2),
           makeRet "i32" (Operand.vreg 3)]⟩],
        maxVregId := 3 } := by
  refine ⟨rfl, rfl, ?_⟩
  have h0 : (toString (0 : Nat)) = "0" := rfl
  simp [fdC5, buildFunction, buildInitState, createBlock, setInsert,
    buildParams, buildStmt, buildStmtList, buildStmtOpt, buildExpr, newVReg,
    emitB, addVariable, findVariable, findVariable.go, enterScope, exitScope,
    slookup, sset, sdel, makeAlloca, makeStore, makeLoad, makeRet,
    List.range_succ, h0]

/-- C5 (amended): for every lowered function the parameter VReg ids are
exactly `0 … n-1` in order, the builder resets the vreg counter to `n`, and
`newVReg` pre-increments, so the first freshly allocated VReg has id
`n + 1` and each later fresh VReg is one larger than the counter before the
call; id `n` itself is never produced as a fresh VReg. -/
theorem C5_param_ids_and_fresh_start (fd : FuncDef) (st : BState) :
    (buildFunction fd).paramVregs =
      (List.range fd.params.length).map Int.ofNat ∧
    (buildInitState fd).vregCounter = Int.ofNat fd.params.length ∧
    (newVReg st).1 = Operand.vreg (st.vregCounter + 1) ∧
    (newVReg st).2.vregCounter = st.vregCounter + 1 :=
  ⟨rfl, rfl, rfl, rfl⟩

/-! ## C8: the load cache across the while loop-exit boundary -/

/-- `int main() { int x = 1; while (x < 0) { int y = x; } return x; }` -/
def fdC8 : FuncDef :=
  { name := "main", retType := "int", params := [],
    body := [.decl "x" (.num 1),
             .whileS (.binary "<" (.ident "x") (.num 0))
               (.block [.decl "y" (.ident "x")]),
             .ret (some (.ident "x"))] }

/-- C8: the `loadedValues_` cache is NOT cleared when the builder switches
to the `while_end` block, so the `return x` lowered into the loop-exit
block reuses VReg 5 — whose only definition is the Load emitted inside the
loop body block — instead of emitting a fresh Load.  The loop-exit block
contains no Load at all, and its Ret consumes a VReg defined in a block
that is skipped entirely when the loop runs zero iterations. -/
theorem C8_stale_cache_in_loop_exit :
    (buildFunction fdC8).blocks =
      [⟨0, "entry",
        [makeAlloca (Operand.vreg 1) "i32",
         makeStore "i32" (Operand.imm 0) (Operand.vreg 1),
         makeAlloca (Operand.vreg 2) "i32",
         makeStore "i32" (Operand.imm 1) (Operand.vreg 2),
         makeBr (Operand.label "while_cond_0")]⟩,
       ⟨1, "while_cond_0",
        [makeLoad (Operand.vreg 3) "i32" (Operand.vreg 2),
         makeICmp .SLT (Operand.vreg 4) "i32" (Operand.vreg 3)
           (Operand.imm 0),
         makeCondBr (Operand.vreg 4) (Operand.label "while_body_0")
           (Operand.label "while_end_0")]⟩,
       ⟨2, "while_body_0",
        [makeLoad (Operand.vreg 5) "i32" (Operand.vreg 2),
         makeAlloca (Operand.vreg 6) "i32",
         makeStore "i32" (Operand.vreg 5) (Operand.vreg 6),
         makeBr (Operand.label "while_cond_0")]⟩,
       ⟨3, "while_end_0", [makeRet "i32" (Operand.vreg 5)]⟩] ∧
    (((buildFunction fdC8).blocks.getD 3 default).insts.all
      fun i => !(i.opcode == Opcode.Load)) = true ∧
    (((buildFunction fdC8).blocks.getD 2 default).insts.contains
      (makeLoad (Operand.vreg 5) "i32" (Operand.vreg 2))) = true := by
  have h0 : (toString (0 : Nat)) = "0" := rfl
  have h0i : (toString (0 : Int)) = "0" := rfl
  have heval : (buildFunction fdC8).blocks =
      [⟨0, "entry",
        [makeAlloca (Operand.vreg 1) "i32",
         makeStore "i32" (Operand.imm 0) (Operand.vreg 1),
         makeAlloca (Operand.vreg 2) "i32",
         makeStore "i32" (Operand.imm 1) (Operand.vreg 2),
         makeBr (Operand.label "while_cond_0")]⟩,
       ⟨1, "while_cond_0",
        [makeLoad (Operand.vreg 3) "i32" (Operand.vreg 2),
         makeICmp .SLT (Operand.vreg 4) "i32" (Operand.vreg 3)
           (Operand.imm 0),
         makeCondBr (Operand.vreg 4) (Operand.label "while_body_0")
           (Operand.label "while_end_0")]⟩,
       ⟨2, "while_body_0",
        [makeLoad (Operand.vreg 5) "i32" (Operand.vreg 2),
         makeAlloca (Operand.vreg 6) "i32",
         makeStore "i32" (Operand.vreg 5) (Operand.vreg 6),
         makeBr (Operand.label "while_cond_0")]⟩,
       ⟨3, "while_end_0", [makeRet "i32" (Operand.vreg 5)]⟩] := by
    simp [fdC8, buildFunction, buildInitState, createBlock, setInsert,
      buildParams, buildStmt, buildStmtList, buildStmtOpt, buildExpr,
      buildComparison, newVReg, newLabel, emitB, addVariable, findVariable,
      findVariable.go, enterScope, exitScope, slookup, sset, sdel,
      makeAlloca, makeStore, makeLoad, makeRet, makeBr, makeCondBr,
      makeICmp, h0, h0i]
  refine ⟨heval, ?_, ?_⟩ <;> rw [heval] <;> decide

/-! ## C9: CFG construction and unresolvable branch labels -/

/-- `Function::blockMap` lookup: `createBlock` does `blockMap[name] = ptr`
for each created block, so the map sends a name to the LAST block created
with it (here: its index). -/
def blockMapFind (blocks : List BBlock) (target : String) : Option Nat :=
  ((blocks.enum.filter (fun p => p.2.name == target)).getLast?).map (·.1)

/-- Successor computation of `Function::buildCFG` (`src/ir.cpp` lines
389-418) for the block at index `i`: branch targets are looked up in
`blockMap` and a target that is NOT found is simply skipped; a block whose
last instruction is not a terminator falls through to block `i + 1`. -/
def cfgSuccsOf (blocks : List BBlock) (i : Nat) : List Nat :=
  match blocks.get? i with
  | Option.none => []
  | some b =>
    match b.insts.getLast? with
    | Option.none => []
    | some last =>
      if last.isTerminator then
        last.branchTargets.filterMap (blockMapFind blocks)
      else if i + 1 < blocks.length then [i + 1] else []

/-- `Function::buildCFG`: the successor lists of all blocks, in order.
The C++ function returns `void` and has no error path: it cannot
signal anything. -/
def buildCFG (blocks : List BBlock) : List (List Nat) :=
  (List.range blocks.length).map (cfgSuccsOf blocks)

/-- Predecessors of block `j` as `buildCFG` pushes them: one entry per
matching successor edge, in source-block order. -/
def cfgPredsOf (blocks : List BBlock) (j : Nat) : List Nat :=
  (List.range blocks.length).flatMap
    (fun i => ((cfgSuccsOf blocks i).filter (fun s => s == j)).map
      (fun _ => i))

/-- A one-block function whose terminator branches to a label that no
block carries. -/
def fnC9 : List BBlock :=
  [⟨0, "entry", [makeBr (Operand.label "nowhere")]⟩]

/-- C9 counterexample: the claim says an unresolvable branch label aborts
compilation with a MalformedIR diagnostic.  In fact `Function::buildCFG`
looks the target up in `blockMap` and, when `find` misses, silently skips
it: for a function whose only block ends in `br "nowhere"` (a label no
block carries), CFG construction completes normally with an empty
successor list and empty predecessor lists — no error of any kind (the
identifier `MalformedIR` does not even occur in the code base). -/
theorem C9_unknown_label_counterexample :
    (fnC9.all fun b => !(b.name == "nowhere")) = true ∧
    blockMapFind fnC9 "nowhere" = Option.none ∧
    buildCFG fnC9 = [[]] ∧
    cfgPredsOf fnC9 0 = [] := by decide

/-- C9 (amended): for every block whose last instruction is a terminator,
`buildCFG` records as successors exactly those branch targets that resolve
in the block map, in order; an unresolvable target is dropped silently,
and `buildCFG` always returns a full-length successor table (it has no
failure path). -/
theorem C9_buildCFG_silently_skips (blocks : List BBlock) (i : Nat)
    (b : BBlock) (last : Instruction)
    (hb : blocks.get? i = some b)
    (hl : b.insts.getLast? = some last)
    (ht : last.isTerminator = true) :
    (buildCFG blocks).get? i =
      some (last.branchTargets.filterMap (blockMapFind blocks)) ∧
    (buildCFG blocks).length = blocks.length := by
  have hi : i < blocks.length := by
    have := List.get?_eq_some.mp hb
    exact this.1
  constructor
  · have hb2 : blocks[i]? = some b := by
      rw [← List.get?_eq_getElem?]; exact hb
    rw [buildCFG, List.get?_map, List.get?_range hi]
    simp [cfgSuccsOf, hb, hb2, hl, ht]
  · simp [buildCFG]

/-- The amended C9 theorem applied to the concrete one-block function. -/
theorem C9_buildCFG_silently_skips_witness :
    (buildCFG fnC9).get? 0 =
      some (((makeBr (Operand.label "nowhere")).branchTargets).filterMap
        (blockMapFind fnC9)) ∧
    (buildCFG fnC9).length = fnC9.length :=
  C9_buildCFG_silently_skips fnC9 0
    ⟨0, "entry", [makeBr (Operand.label "nowhere")]⟩
    (makeBr (Operand.label "nowhere")) rfl rfl rfl

/-! ## C2: terminator placement in built blocks -/

/-- A block whose last instruction exists and is a terminator. -/
def closedB (b : BBlock) : Bool :=
  (b.insts.getLast?.map Instruction.isTerminator).getD false

/-- Builder-state well-formedness: the insertion point is the last block,
block ids equal block indices, and every block before the insertion point
ends with a terminator. -/
def InvP (st : BState) : Prop :=
  st.cur + 1 = st.blocks.length ∧
  (∀ j (h : j < st.blocks.length), (st.blocks[j]).id = Int.ofNat j) ∧
  ∀ j (h : j < st.blocks.length), j + 1 < st.blocks.length →
    closedB (st.blocks[j]) = true

/-- The current block ends with a terminator (holds right after a
`Br`/`CondBr`/`Ret` is emitted, just before a new block is opened). -/
def lastClosed (st : BState) : Prop :=
  closedB (st.blocks.getD st.cur default) = true

lemma emit_keep_id (b : BBlock) (c : Int) (i : Instruction) :
    (if b.id == c then { b with insts := b.insts ++ [i] } else b).id = b.id := by
  split <;> rfl

lemma invP_of_eq {st st' : BState} (h1 : st'.blocks = st.blocks)
    (h2 : st'.cur = st.cur) (h : InvP st) : InvP st' := by
  rw [InvP, h1, h2]; exact h

lemma invP_emitB {st : BState} (i : Instruction) (h : InvP st) :
    InvP (emitB st i) := by
  obtain ⟨hc, hid, hcl⟩ := h
  refine ⟨by simpa [emitB] using hc, ?_, ?_⟩
  · intro j hj
    simp only [emitB, List.getElem_map]
    rw [emit_keep_id]
    exact hid j (by simpa [emitB] using hj)
  · intro j hj hlt
    simp only [emitB, List.length_map] at hj hlt
    simp only [emitB, List.getElem_map]
    have hne : ((st.blocks[j]).id == Int.ofNat st.cur) = false := by
      rw [hid j hj]
      have : j ≠ st.cur := by omega
      simpa using fun hEq => this (Int.ofNat.inj hEq)
    rw [if_neg (by simpa using hne)]
    exact hcl j hj hlt

lemma lastClosed_emitB_term {st : BState} (i : Instruction)
    (h : InvP st) (ht : i.isTerminator = true) : lastClosed (emitB st i) := by
  obtain ⟨hc, hid, _⟩ := h
  have hcur : st.cur < st.blocks.length := by omega
  rw [lastClosed]
  have hgd : (emitB st i).blocks.getD (emitB st i).cur default =
      { st.blocks[st.cur] with
          insts := (st.blocks[st.cur]).insts ++ [i] } := by
    simp only [emitB]
    rw [List.getD_eq_getElem?_getD, List.getElem?_map,
      List.getElem?_eq_getElem hcur]
    simp [hid st.cur hcur]
  rw [hgd, closedB]
  simp [ht]

lemma invP_createOpen {st : BState} (n : String)
    (h : InvP st) (hl : lastClosed st) :
    InvP (setInsert (createBlock st n).2 (createBlock st n).1) := by
  obtain ⟨hc, hid, hcl⟩ := h
  refine ⟨by simp [createBlock, setInsert], ?_, ?_⟩
  · intro j hj
    simp only [createBlock, setInsert, List.length_append,
      List.length_singleton] at hj ⊢
    by_cases hjl : j < st.blocks.length
    · rw [List.getElem_append_left hjl]
      exact hid j hjl
    · have : j = st.blocks.length := by omega
      subst this
      simp
  · intro j hj hlt
    simp only [createBlock, setInsert, List.length_append,
      List.length_singleton] at hj hlt ⊢
    have hjl : j < st.blocks.length := by omega
    rw [List.getElem_append_left hjl]
    by_cases hin : j + 1 < st.blocks.length
    · exact hcl j hjl hin
    · have hj2 : j = st.cur := by omega
      subst hj2
      rw [lastClosed] at hl
      have : st.blocks.getD st.cur default = st.blocks[st.cur] := by
        rw [List.getD_eq_getElem?_getD, List.getElem?_eq_getElem hjl]
        rfl
      rwa [this] at hl

lemma invP_newVReg2 {st : BState} (h : InvP st) : InvP (newVReg st).2 :=
  invP_of_eq rfl rfl h

lemma buildExpr_invP_mut :
    (∀ e st, InvP st → InvP (buildExpr e st).2) ∧
    (∀ as st, InvP st → InvP (buildArgs as st).2) ∧
    (∀ op l r st, InvP st → InvP (buildComparison op l r st).2) ∧
    (∀ op l r st, InvP st → InvP (buildLogicalOp op l r st).2) := by
  apply buildExpr.mutual_induct
  case case1 => intro v st h; simpa [buildExpr] using h
  case case2 =>
    intro name st varOp hfv cached hsl h
    simpa [buildExpr, hfv, hsl] using h
  case case3 =>
    intro name st varOp hfv hsl h
    simp only [buildExpr, hfv, hsl]
    exact invP_of_eq rfl rfl (invP_emitB _ (invP_newVReg2 h))
  case case4 =>
    intro name st hfv hd h
    simp only [buildExpr, hfv]
    rw [if_pos hd]
    exact h
  case case5 =>
    intro name st hfv hd h
    simp only [buildExpr, hfv]
    rw [if_neg hd]
    exact h
  case case6 =>
    intro op l r st hop ih h
    simp only [buildExpr]
    rw [if_pos hop]
    exact ih h
  case case7 =>
    intro op l r st hop1 hop2 ih h
    simp only [buildExpr]
    rw [if_neg hop1, if_pos hop2]
    exact ih h
  case case8 =>
    intro op l r st hop1 hop2 pl ih1 ih2 h
    simp only [buildExpr]
    rw [if_neg hop1, if_neg hop2]
    exact invP_emitB _ (invP_newVReg2 (ih2 (ih1 h)))
  case case9 =>
    intro op st hop v h
    rw [buildExpr.eq_def]
    dsimp only
    rw [if_pos hop]
    exact h
  case case10 =>
    intro op st hop e2 hne ih h
    rw [buildExpr.eq_def]
    dsimp only
    rw [if_pos hop]
    cases e2 with
    | num v => exact (hne v rfl).elim
    | ident name =>
      exact invP_emitB _ (invP_newVReg2 (ih h))
    | binary o a b =>
      exact invP_emitB _ (invP_newVReg2 (ih h))
    | unary o a =>
      exact invP_emitB _ (invP_newVReg2 (ih h))
    | call c as =>
      exact invP_emitB _ (invP_newVReg2 (ih h))
  case case11 =>
    intro op e st hop1 hop2 ih h
    rw [buildExpr.eq_def]
    dsimp only
    rw [if_neg hop1, if_pos hop2]
    exact invP_emitB _ (invP_newVReg2 (ih h))
  case case12 =>
    intro op e st hop1 hop2 ih h
    rw [buildExpr.eq_def]
    dsimp only
    rw [if_neg hop1, if_neg hop2]
    exact ih h
  case case13 =>
    intro callee args st ih h
    simp only [buildExpr]
    exact invP_emitB _ (invP_newVReg2 (ih h))
  case case14 => intro st h; simpa [buildArgs] using h
  case case15 =>
    intro a rest st pa ih1 ih2 h
    simp only [buildArgs]
    exact ih2 (ih1 h)
  case case16 =>
    intro op l r st pl ih1 ih2 h
    simp only [buildComparison]
    exact invP_emitB _ (invP_newVReg2 (ih2 (ih1 h)))
  case case17 =>
    intro op l r st pv st1 pl hop rhsName falseName endName st2 st3 cb st4
      st5 st6 cb2 st7 ih1 ih1x ih3 h
    simp only [buildLogicalOp]
    rw [if_pos hop]
    have h1 : InvP st1 := invP_emitB _ (invP_newVReg2 h)
    have hpl : InvP pl.2 := ih1 h1
    have h2 : InvP st2 := invP_of_eq rfl rfl hpl
    have h3 : InvP st3 := invP_emitB _ h2
    have h4 : InvP st4 := invP_createOpen _ h3 (lastClosed_emitB_term _ h2 rfl)
    have h5 : InvP st5 := invP_emitB _ h4
    have h6 : InvP st6 := invP_emitB _ h5
    have h7 : InvP st7 := invP_createOpen _ h6 (lastClosed_emitB_term _ h5 rfl)
    have hpr : InvP (buildExpr r st7).2 := ih3 h7
    have h8 : InvP (emitB (buildExpr r st7).2
        (makeStore "i1" (buildExpr r st7).1 pv.1 1)) := invP_emitB _ hpr
    have h9 : InvP (emitB (emitB (buildExpr r st7).2
        (makeStore "i1" (buildExpr r st7).1 pv.1 1))
        (makeBr (Operand.label endName))) := invP_emitB _ h8
    have h10 := invP_createOpen endName h9 (lastClosed_emitB_term _ h8 rfl)
    exact invP_emitB _ (invP_newVReg2 h10)
  case case18 =>
    intro op l r st pv st1 pl hop trueName rhsName endName st2 st3 cb st4
      st5 st6 cb2 st7 ih1 ih1x ih3 h
    simp only [buildLogicalOp]
    rw [if_neg hop]
    have h1 : InvP st1 := invP_emitB _ (invP_newVReg2 h)
    have hpl : InvP pl.2 := ih1 h1
    have h2 : InvP st2 := invP_of_eq rfl rfl hpl
    have h3 : InvP st3 := invP_emitB _ h2
    have h4 : InvP st4 := invP_createOpen _ h3 (lastClosed_emitB_term _ h2 rfl)
    have h5 : InvP st5 := invP_emitB _ h4
    have h6 : InvP st6 := invP_emitB _ h5
    have h7 : InvP st7 := invP_createOpen _ h6 (lastClosed_emitB_term _ h5 rfl)
    have hpr : InvP (buildExpr r st7).2 := ih3 h7
    have h8 : InvP (emitB (buildExpr r st7).2
        (makeStore "i1" (buildExpr r st7).1 pv.1 1)) := invP_emitB _ hpr
    have h9 : InvP (emitB (emitB (buildExpr r st7).2
        (makeStore "i1" (buildExpr r st7).1 pv.1 1))
        (makeBr (Operand.label endName))) := invP_emitB _ h8
    have h10 := invP_createOpen endName h9 (lastClosed_emitB_term _ h8 rfl)
    exact invP_emitB _ (invP_newVReg2 h10)

/-- `buildExpr` preserves the block-structure invariant. -/
lemma invP_buildExpr (e : Expr) (st : BState) (h : InvP st) :
    InvP (buildExpr e st).2 := buildExpr_invP_mut.1 e st h

lemma invP_addVariable {st : BState} (n : String) (v : Operand)
    (h : InvP st) : InvP (addVariable st n v) := by
  unfold addVariable
  split
  · exact h
  · exact invP_of_eq rfl rfl h

lemma buildStmt_invP_mut :
    (∀ s st, InvP st → InvP (buildStmt s st)) ∧
    (∀ ss st, InvP st → InvP (buildStmtList ss st)) ∧
    (∀ os st, InvP st → InvP (buildStmtOpt os st)) := by
  apply buildStmt.mutual_induct
  case case1 =>
    intro name e st pv varOp hfv h
    simp only [buildStmt, hfv]
    exact invP_of_eq rfl rfl (invP_emitB _ (invP_buildExpr e st h))
  case case2 =>
    intro name e st pv hfv h
    simp only [buildStmt, hfv]
    exact invP_buildExpr e st h
  case case3 =>
    intro name e st h
    simp only [buildStmt]
    exact invP_of_eq rfl rfl (invP_emitB _ (invP_addVariable _ _
      (invP_emitB _ (invP_newVReg2 (invP_buildExpr e st h)))))
  case case4 =>
    intro cond t e st st0 pc thenName elseName endName st1 st2 cb st3 st4
      st5 cb2 st6 ih1 ih1x ih2 h
    simp only [buildStmt]
    have h0 : InvP st0 := invP_of_eq rfl rfl h
    have hpc : InvP pc.2 := invP_buildExpr _ _ h0
    have h1 : InvP st1 := invP_of_eq rfl rfl hpc
    have h2 : InvP st2 := invP_emitB _ h1
    have h3 : InvP st3 := invP_of_eq rfl rfl
      (invP_createOpen _ h2 (lastClosed_emitB_term _ h1 rfl))
    have h4 : InvP st4 := ih1 h3
    have h5 : InvP st5 := invP_emitB _ h4
    have h6 : InvP st6 := invP_of_eq rfl rfl
      (invP_createOpen _ h5 (lastClosed_emitB_term _ h4 rfl))
    have h7 : InvP (buildStmtOpt e st6) := ih2 h6
    have h8 : InvP (emitB (buildStmtOpt e st6)
        (makeBr (Operand.label endName))) := invP_emitB _ h7
    exact invP_of_eq rfl rfl
      (invP_createOpen endName h8 (lastClosed_emitB_term _ h7 rfl))
  case case5 =>
    intro cond body st condName bodyName endName st1 st2 cb st3 pc st4
      cb2 st5 ih h
    simp only [buildStmt]
    have h1 : InvP st1 := invP_of_eq rfl rfl h
    have h2 : InvP st2 := invP_emitB _ h1
    have h3 : InvP st3 := invP_of_eq rfl rfl
      (invP_createOpen _ h2 (lastClosed_emitB_term _ h1 rfl))
    have hpc : InvP pc.2 := invP_buildExpr _ _ h3
    have h4 : InvP st4 := invP_emitB _ hpc
    have h5 : InvP st5 := invP_of_eq rfl rfl
      (invP_createOpen _ h4 (lastClosed_emitB_term _ hpc rfl))
    have h6 : InvP (buildStmt body st5) := ih h5
    have h7 : InvP (emitB (buildStmt body st5)
        (makeBr (Operand.label condName))) := invP_emitB _ h6
    exact invP_of_eq rfl rfl
      (invP_createOpen endName h7 (lastClosed_emitB_term _ h6 rfl))
  case case6 =>
    intro st e h
    simp only [buildStmt]
    exact invP_of_eq rfl rfl (invP_emitB _ (invP_buildExpr e st h))
  case case7 =>
    intro st h
    simp only [buildStmt]
    exact invP_of_eq rfl rfl (invP_emitB _ h)
  case case8 =>
    intro st hbl h
    simp only [buildStmt, hbl]
    exact h
  case case9 =>
    intro st lbl tail hbl h
    simp only [buildStmt, hbl]
    exact invP_emitB _ h
  case case10 =>
    intro st hcl h
    simp only [buildStmt, hcl]
    exact h
  case case11 =>
    intro st lbl tail hcl h
    simp only [buildStmt, hcl]
    exact invP_emitB _ h
  case case12 =>
    intro ss st ih h
    simp only [buildStmt]
    exact invP_of_eq rfl rfl (ih (invP_of_eq rfl rfl h))
  case case13 =>
    intro e st h
    simp only [buildStmt]
    exact invP_buildExpr e st h
  case case14 => intro st h; simpa [buildStmtList] using h
  case case15 =>
    intro s rest st ih1 ih2 h
    simp only [buildStmtList]
    exact ih2 (ih1 h)
  case case16 => intro st h; simpa [buildStmtOpt] using h
  case case17 =>
    intro s st ih h
    simp only [buildStmtOpt]
    exact ih h

lemma invP_buildParams :
    ∀ (ps : List String) (i : Nat) (st : BState), InvP st →
      InvP (buildParams ps i st) := by
  intro ps
  induction ps with
  | nil => intro i st h; simpa [buildParams] using h
  | cons p rest ih =>
    intro i st h
    simp only [buildParams]
    exact ih _ _ (invP_addVariable _ _ (invP_addVariable _ _
      (invP_emitB _ (invP_emitB _ (invP_newVReg2 h)))))

/-- The builder state at the end of `buildFunction` (the record the
function packages into the returned `IRFunction`). -/
def buildFunctionState (fd : FuncDef) : BState :=
  let st0 := buildInitState fd
  let cb := createBlock st0 "entry"
  let st1 := setInsert cb.2 cb.1
  let st2 :=
    if fd.name == "main" then
      let rv := newVReg st1
      let sta := addVariable rv.2 (fd.name ++ "_ret") rv.1
      emitB (emitB sta (makeAlloca rv.1 "i32"))
        (makeStore "i32" (Operand.imm 0) rv.1)
    else st1
  let st3 := buildParams fd.params 0 st2
  let st4 := buildStmt (.block fd.body) st3
  if st4.hasReturn then st4
  else if fd.retType == "int" then emitB st4 (makeRet "i32" (Operand.imm 0))
  else emitB st4 makeRetVoid

lemma buildFunction_blocks (fd : FuncDef) :
    (buildFunction fd).blocks = (buildFunctionState fd).blocks := rfl

lemma invP_mainProl {fd : FuncDef} {st : BState} (h : InvP st) :
    InvP (if fd.name == "main" then
      let rv := newVReg st
      let sta := addVariable rv.2 (fd.name ++ "_ret") rv.1
      emitB (emitB sta (makeAlloca rv.1 "i32"))
        (makeStore "i32" (Operand.imm 0) rv.1)
    else st) := by
  split
  · exact invP_emitB _ (invP_emitB _ (invP_addVariable _ _ (invP_newVReg2 h)))
  · exact h

lemma invP_finalRet {st : BState} (fd : FuncDef) (h : InvP st) :
    InvP (if st.hasReturn then st
      else if fd.retType == "int" then emitB st (makeRet "i32" (Operand.imm 0))
      else emitB st makeRetVoid) := by
  split
  · exact h
  · split
    · exact invP_emitB _ h
    · exact invP_emitB _ h

lemma invP_entry (fd : FuncDef) :
    InvP (setInsert (createBlock (buildInitState fd) "entry").2
      (createBlock (buildInitState fd) "entry").1) := by
  refine ⟨rfl, ?_, ?_⟩
  · intro j hj
    simp only [buildInitState, createBlock, setInsert, List.nil_append,
      List.length_singleton] at hj ⊢
    have hj0 : j = 0 := by omega
    subst hj0
    rfl
  · intro j hj hlt
    simp only [buildInitState, createBlock, setInsert, List.nil_append,
      List.length_singleton] at hj hlt
    omega

lemma invP_buildFunctionState (fd : FuncDef) :
    InvP (buildFunctionState fd) := by
  rw [buildFunctionState]
  exact invP_finalRet fd (buildStmt_invP_mut.1 _ _
    (invP_buildParams _ _ _ (invP_mainProl (invP_entry fd))))

/-- `int f() { if (1) { return 0; } int x = 0; }` -/
def fdC2 : FuncDef :=
  { name := "f", retType := "int", params := [],
    body := [.ifS (.num 1) (.ret (some (.num 0))) Option.none,
             .decl "x" (.num 0)] }

lemma fdC2_blocks_eval : (buildFunction fdC2).blocks =
    [⟨0, "entry", [makeCondBr (Operand.imm 1) (Operand.label "then_0")
        (Operand.label "else_0")]⟩,
     ⟨1, "then_0", [makeRet "i32" (Operand.imm 0),
        makeBr (Operand.label "endif_0")]⟩,
     ⟨2, "else_0", [makeBr (Operand.label "endif_0")]⟩,
     ⟨3, "endif_0", [makeAlloca (Operand.vreg 1) "i32",
        makeStore "i32" (Operand.imm 0) (Operand.vreg 1)]⟩] := by
  have h0 : (toString (0 : Nat)) = "0" := rfl
  have h0i : (toString (0 : Int)) = "0" := rfl
  simp [fdC2, buildFunction, buildInitState, createBlock, setInsert,
    buildParams, buildStmt, buildStmtList, buildStmtOpt, buildExpr,
    newVReg, newLabel, emitB, addVariable, findVariable, findVariable.go,
    enterScope, exitScope, slookup, sset, sdel, makeAlloca, makeStore,
    makeRet, makeBr, makeCondBr, h0, h0i]

/-- C2 counterexample: the spec says the terminator of every non-empty
block is the block's sole terminator and the last instruction.  For
`int f() { if (1) { return 0; } int x = 0; }` the then-block holds TWO
terminators (the `ret` and the `br` that `buildIf` appends after lowering
the branch body), and the final merge block is non-empty but ends in a
plain `store` with no terminator at all (the early `return` set
`hasReturn_`, so `buildFunction` emits no default return). -/
theorem C2_sole_terminator_counterexample :
    ((buildFunction fdC2).blocks.getD 1 default).insts.countP
        (fun i => i.isTerminator) = 2 ∧
    ((buildFunction fdC2).blocks.getD 3 default).insts ≠ [] ∧
    (((buildFunction fdC2).blocks.getD 3 default).insts.getLast?.map
        Instruction.isTerminator) = some false := by
  refine ⟨?_, ?_, ?_⟩ <;> rw [fdC2_blocks_eval] <;> decide

/-- C2 (amended): in every function produced by the IR builder, every
basic block except possibly the last ends with a terminator (and is in
particular non-empty).  Blocks may contain further terminators before
their last instruction, and the final block may lack one. -/
theorem C2_nonfinal_blocks_end_in_terminator (fd : FuncDef) (b : BBlock)
    (hb : b ∈ (buildFunction fd).blocks.dropLast) : closedB b = true := by
  rw [buildFunction_blocks] at hb
  obtain ⟨_, _, hcl⟩ := invP_buildFunctionState fd
  obtain ⟨j, hj, hbe⟩ := List.mem_iff_getElem.mp hb
  have hj2 : j < ((buildFunctionState fd).blocks).length := by
    have := List.length_dropLast ((buildFunctionState fd).blocks)
    omega
  rw [List.getElem_dropLast] at hbe
  rw [← hbe]
  refine hcl j hj2 ?_
  have := List.length_dropLast ((buildFunctionState fd).blocks)
  omega

/-- The amended C2 theorem applied to the then-block of the concrete
counterexample function. -/
theorem C2_nonfinal_blocks_end_in_terminator_witness :
    closedB ⟨1, "then_0", [makeRet "i32" (Operand.imm 0),
      makeBr (Operand.label "endif_0")]⟩ = true :=
  C2_nonfinal_blocks_end_in_terminator fdC2 _
    (by rw [fdC2_blocks_eval]; decide)

/-! ## C3: liveness analysis (`LivenessAnalysis`) -/

/-- `LivenessAnalysis::computeUseDefSets` per block: upward-exposed uses
(use before any local def) and the set of locally defined vregs. -/
def useDefOfBlock (b : BBlock) : Finset Int × Finset Int :=
  b.insts.foldl (fun acc i =>
    let u := acc.1 ∪ (i.useRegs.filter (fun r => r ∉ acc.2)).toFinset
    if i.defReg ≠ -1 then (u, insert i.defReg acc.2) else (u, acc.2))
    (∅, ∅)

/-- `LivenessAnalysis::computeUseDefSets` over a whole function. -/
def computeUseDefSets (blocks : List BBlock) :
    List (Finset Int) × List (Finset Int) :=
  (blocks.map (fun b => (useDefOfBlock b).1),
   blocks.map (fun b => (useDefOfBlock b).2))

/-- One inner loop iteration of `LivenessAnalysis::buildRPO` (explicit
stack, postorder collection); `fuel` bounds the loop. -/
def rpoLoop (succs : List (List Nat)) :
    Nat → List (Nat × Bool) → List Nat → List Nat → List Nat
  | 0, _, _, order => order.reverse
  | _ + 1, [], _, order => order.reverse
  | fuel + 1, (bb, processed) :: rest, visited, order =>
    if processed then rpoLoop succs fuel rest visited (order ++ [bb])
    else if visited.contains bb then rpoLoop succs fuel rest visited order
    else
      rpoLoop succs fuel
        (((succs.getD bb []).filter
            (fun s => !visited.contains s)).map (fun s => (s, false)) ++
          (bb, true) :: rest)
        (bb :: visited) order

/-- `LivenessAnalysis::buildRPO`. -/
def buildRPO (succs : List (List Nat)) (entry : Nat) (fuel : Nat) :
    List Nat :=
  rpoLoop succs fuel [(entry, false)] [] []

/-- Union of the `liveIn` sets of the listed blocks
(`newLiveOut.insert(succ->liveIn ...)`). -/
def bigU (li : List (Finset Int)) (ss : List Nat) : Finset Int :=
  ss.foldl (fun a s => a ∪ li.getD s ∅) ∅

/-- The body of the inner loop of
`LivenessAnalysis::computeLivenessIteratively` for one block `bi`:
recompute `liveOut`/`liveIn` and update (setting the changed flag) when
they differ from the stored sets. -/
def passStep (useS defS : List (Finset Int)) (succs : List (List Nat))
    (acc : (List (Finset Int) × List (Finset Int)) × Bool) (bi : Nat) :
    (List (Finset Int) × List (Finset Int)) × Bool :=
  let li := acc.1.1
  let lo := acc.1.2
  let newOut := bigU li (succs.getD bi [])
  let newIn := useS.getD bi ∅ ∪ (newOut \ defS.getD bi ∅)
  if newIn = li.getD bi ∅ ∧ newOut = lo.getD bi ∅ then acc
  else ((li.set bi newIn, lo.set bi newOut), true)

/-- One `while(changed)` round: the blocks of `F.rpoOrder` processed from
the back (`for i = size-1 … 0`), starting with `changed = false`. -/
def onePass (useS defS : List (Finset Int)) (succs : List (List Nat))
    (order : List Nat) (li lo : List (Finset Int)) :
    (List (Finset Int) × List (Finset Int)) × Bool :=
  order.reverse.foldl (passStep useS defS succs) ((li, lo), false)

/-- `LivenessAnalysis::computeLivenessIteratively`, fuelled: repeat
passes while something changed; the Bool records whether the `while`
loop exited normally (a full pass without changes) within `fuel` rounds. -/
def computeLivenessIteratively (useS defS : List (Finset Int))
    (succs : List (List Nat)) (order : List Nat) :
    Nat → List (Finset Int) → List (Finset Int) →
    (List (Finset Int) × List (Finset Int)) × Bool
  | 0, li, lo => ((li, lo), false)
  | fuel + 1, li, lo =>
    let p := onePass useS defS succs order li lo
    if p.2 then computeLivenessIteratively useS defS succs order fuel
      p.1.1 p.1.2
    else ((li, lo), true)

/-- The data-flow equations of the spec at block `b`. -/
def liveEqAt (useS defS : List (Finset Int)) (succs : List (List Nat))
    (li lo : List (Finset Int)) (b : Nat) : Prop :=
  lo.getD b ∅ = bigU li (succs.getD b []) ∧
  li.getD b ∅ = useS.getD b ∅ ∪ (lo.getD b ∅ \ defS.getD b ∅)

/-- Gauss-Seidel invariant: each stored set is below its recomputed
right-hand side. -/
def stInv (useS defS : List (Finset Int)) (succs : List (List Nat))
    (li lo : List (Finset Int)) : Prop :=
  ∀ b, lo.getD b ∅ ⊆ bigU li (succs.getD b []) ∧
    li.getD b ∅ ⊆ useS.getD b ∅ ∪ (bigU li (succs.getD b []) \ defS.getD b ∅)

/-- Pointwise containment of liveness tables. -/
def ptLE (li li' : List (Finset Int)) : Prop :=
  ∀ b, li.getD b ∅ ⊆ li'.getD b ∅

/-- Total cardinality of a liveness table. -/
def sizeSum (li : List (Finset Int)) : Nat := (li.map Finset.card).sum

lemma ptLE_refl (li : List (Finset Int)) : ptLE li li := fun _ => le_refl _

lemma ptLE_trans {a b c : List (Finset Int)} (h1 : ptLE a b)
    (h2 : ptLE b c) : ptLE a c := fun x => (h1 x).trans (h2 x)

lemma bigU_mono_acc (ss : List Nat) {li li' : List (Finset Int)}
    (h : ptLE li li') :
    ∀ {a a' : Finset Int}, a ⊆ a' →
      ss.foldl (fun a s => a ∪ li.getD s ∅) a ⊆
      ss.foldl (fun a s => a ∪ li'.getD s ∅) a' := by
  induction ss with
  | nil => intro a a' ha; exact ha
  | cons s rest ih =>
    intro a a' ha
    exact ih (Finset.union_subset_union ha (h s))

lemma bigU_mono {li li' : List (Finset Int)} (h : ptLE li li')
    (ss : List Nat) : bigU li ss ⊆ bigU li' ss :=
  bigU_mono_acc ss h (le_refl _)

lemma bigU_subset_U {U : Finset Int} {li : List (Finset Int)}
    (h : ∀ b, li.getD b ∅ ⊆ U) (ss : List Nat) :
    bigU li ss ⊆ U := by
  rw [bigU]
  suffices h2 : ∀ a : Finset Int, a ⊆ U →
      ss.foldl (fun a s => a ∪ li.getD s ∅) a ⊆ U by
    exact h2 ∅ (Finset.empty_subset U)
  induction ss with
  | nil => intro a ha; exact ha
  | cons s rest ih =>
    intro a ha
    exact ih _ (Finset.union_subset ha (h s))

lemma getD_set_self {l : List (Finset Int)} {i : Nat} (h : i < l.length)
    (v : Finset Int) : (l.set i v).getD i ∅ = v := by
  rw [List.getD_eq_getElem?_getD, List.getElem?_set_self (by omega)]
  rfl

lemma getD_set_ne {l : List (Finset Int)} {i j : Nat} (h : i ≠ j)
    (v : Finset Int) : (l.set i v).getD j ∅ = l.getD j ∅ := by
  rw [List.getD_eq_getElem?_getD, List.getD_eq_getElem?_getD,
    List.getElem?_set_ne h]

lemma sizeSum_set : ∀ (l : List (Finset Int)) (i : Nat) (v : Finset Int),
    i < l.length →
    sizeSum (l.set i v) + (l.getD i ∅).card = sizeSum l + v.card := by
  intro l
  induction l with
  | nil => intro i v h; simp at h
  | cons hd tl ih =>
    intro i v h
    cases i with
    | zero => simp [sizeSum, List.getD]; omega
    | succ i =>
      have := ih i v (by simpa using h)
      simp only [List.set, sizeSum, List.map_cons, List.sum_cons,
        List.getD_cons_succ]
      simp only [sizeSum] at this
      omega

lemma sizeSum_le {U : Finset Int} {l : List (Finset Int)}
    (h : ∀ b, l.getD b ∅ ⊆ U) : sizeSum l ≤ l.length * U.card := by
  induction l with
  | nil => simp [sizeSum]
  | cons hd tl ih =>
    have hhd : hd ⊆ U := h 0
    have htl : ∀ b, tl.getD b ∅ ⊆ U := fun b => h (b + 1)
    have := ih htl
    simp only [sizeSum, List.map_cons, List.sum_cons, List.length_cons]
    have hc : hd.card ≤ U.card := Finset.card_le_card hhd
    simp only [sizeSum] at this
    calc hd.card + (tl.map Finset.card).sum ≤ U.card + tl.length * U.card :=
          Nat.add_le_add hc this
      _ = (tl.length + 1) * U.card := by ring

/-- Everything preserved by the solver: the Gauss-Seidel invariant,
table lengths, and the universe bound. -/
def GoodS (useS defS : List (Finset Int)) (succs : List (List Nat))
    (n : Nat) (U : Finset Int)
    (s : (List (Finset Int) × List (Finset Int)) × Bool) : Prop :=
  stInv useS defS succs s.1.1 s.1.2 ∧ s.1.1.length = n ∧
  s.1.2.length = n ∧ (∀ b, s.1.1.getD b ∅ ⊆ U) ∧
  (∀ b, s.1.2.getD b ∅ ⊆ U)

lemma passStep_flag_mono (useS defS : List (Finset Int))
    (succs : List (List Nat))
    (acc : (List (Finset Int) × List (Finset Int)) × Bool) (bi : Nat)
    (h : acc.2 = true) : (passStep useS defS succs acc bi).2 = true := by
  rw [passStep]
  split
  · exact h
  · rfl

lemma passStep_main {useS defS : List (Finset Int)}
    {succs : List (List Nat)} {n : Nat} {U : Finset Int}
    (hU : ∀ b, useS.getD b ∅ ⊆ U)
    (acc : (List (Finset Int) × List (Finset Int)) × Bool) (bi : Nat)
    (hbi : bi < n) (hg : GoodS useS defS succs n U acc) :
    GoodS useS defS succs n U (passStep useS defS succs acc bi) ∧
    ptLE acc.1.1 (passStep useS defS succs acc bi).1.1 ∧
    ptLE acc.1.2 (passStep useS defS succs acc bi).1.2 ∧
    (passStep useS defS succs acc bi = acc ∨
      ((passStep useS defS succs acc bi).2 = true ∧
        sizeSum acc.1.1 + sizeSum acc.1.2 <
          sizeSum (passStep useS defS succs acc bi).1.1 +
          sizeSum (passStep useS defS succs acc bi).1.2)) := by
  obtain ⟨hinv, hl1, hl2, hu1, hu2⟩ := hg
  rw [passStep]
  split
  · exact ⟨⟨hinv, hl1, hl2, hu1, hu2⟩, ptLE_refl _, ptLE_refl _, Or.inl rfl⟩
  · rename_i hch
    have hbl1 : bi < acc.1.1.length := by omega
    have hbl2 : bi < acc.1.2.length := by omega
    have hOutGe : acc.1.2.getD bi ∅ ⊆
        bigU acc.1.1 (succs.getD bi []) := (hinv bi).1
    have hInGe : acc.1.1.getD bi ∅ ⊆
        useS.getD bi ∅ ∪
          (bigU acc.1.1 (succs.getD bi []) \ defS.getD bi ∅) := (hinv bi).2
    have hle1 : ptLE acc.1.1 (acc.1.1.set bi
        (useS.getD bi ∅ ∪
          (bigU acc.1.1 (succs.getD bi []) \ defS.getD bi ∅))) := by
      intro b
      by_cases hbb : bi = b
      · subst hbb
        rw [getD_set_self hbl1]
        exact hInGe
      · rw [getD_set_ne hbb]
    have hle2 : ptLE acc.1.2 (acc.1.2.set bi
        (bigU acc.1.1 (succs.getD bi []))) := by
      intro b
      by_cases hbb : bi = b
      · subst hbb
        rw [getD_set_self hbl2]
        exact hOutGe
      · rw [getD_set_ne hbb]
    have hmono := bigU_mono hle1
    refine ⟨⟨?_, ?_, ?_, ?_, ?_⟩, hle1, hle2, ?_⟩
    · intro b
      by_cases hbb : bi = b
      · subst hbb
        constructor
        · rw [getD_set_self hbl2]
          exact (bigU_mono hle1 _)
        · rw [getD_set_self hbl1]
          exact Finset.union_subset_union (le_refl _)
            (Finset.sdiff_subset_sdiff (bigU_mono hle1 _) (le_refl _))
      · constructor
        · rw [getD_set_ne hbb]
          exact (hinv b).1.trans (bigU_mono hle1 _)
        · rw [getD_set_ne hbb]
          exact (hinv b).2.trans (Finset.union_subset_union (le_refl _)
            (Finset.sdiff_subset_sdiff (bigU_mono hle1 _) (le_refl _)))
    · simpa using hl1
    · simpa using hl2
    · intro b
      by_cases hbb : bi = b
      · subst hbb
        rw [getD_set_self hbl1]
        exact Finset.union_subset (hU bi)
          ((Finset.sdiff_subset).trans (bigU_subset_U hu1 _))
      · rw [getD_set_ne hbb]
        exact hu1 b
    · intro b
      by_cases hbb : bi = b
      · subst hbb
        rw [getD_set_self hbl2]
        exact bigU_subset_U hu1 _
      · rw [getD_set_ne hbb]
        exact hu2 b
    · refine Or.inr ⟨rfl, ?_⟩
      have heq1 := sizeSum_set acc.1.1 bi
        (useS.getD bi ∅ ∪
          (bigU acc.1.1 (succs.getD bi []) \ defS.getD bi ∅)) hbl1
      have heq2 := sizeSum_set acc.1.2 bi
        (bigU acc.1.1 (succs.getD bi [])) hbl2
      have hc1 : (acc.1.1.getD bi ∅).card ≤
          (useS.getD bi ∅ ∪
            (bigU acc.1.1 (succs.getD bi []) \ defS.getD bi ∅)).card :=
        Finset.card_le_card hInGe
      have hc2 : (acc.1.2.getD bi ∅).card ≤
          (bigU acc.1.1 (succs.getD bi [])).card :=
        Finset.card_le_card hOutGe
      have hstrict : (acc.1.1.getD bi ∅).card <
          (useS.getD bi ∅ ∪
            (bigU acc.1.1 (succs.getD bi []) \ defS.getD bi ∅)).card ∨
          (acc.1.2.getD bi ∅).card <
          (bigU acc.1.1 (succs.getD bi [])).card := by
        rcases not_and_or.mp hch with hne | hne
        · exact Or.inl (Finset.card_lt_card
            (HasSubset.Subset.ssubset_of_ne hInGe (fun hEq => hne hEq.symm)))
        · exact Or.inr (Finset.card_lt_card
            (HasSubset.Subset.ssubset_of_ne hOutGe (fun hEq => hne hEq.symm)))
      dsimp only
      omega

lemma foldl_flag_mono (useS defS : List (Finset Int))
    (succs : List (List Nat)) (os : List Nat) :
    ∀ s, s.2 = true →
      (os.foldl (passStep useS defS succs) s).2 = true := by
  induction os with
  | nil => intro s h; exact h
  | cons b os ih =>
    intro s h
    rw [List.foldl_cons]
    exact ih _ (passStep_flag_mono useS defS succs s b h)

lemma foldl_pass_main {useS defS : List (Finset Int)}
    {succs : List (List Nat)} {n : Nat} {U : Finset Int}
    (hU : ∀ b, useS.getD b ∅ ⊆ U) :
    ∀ (os : List Nat), (∀ b ∈ os, b < n) →
    ∀ s, GoodS useS defS succs n U s →
    GoodS useS defS succs n U (os.foldl (passStep useS defS succs) s) ∧
    ptLE s.1.1 (os.foldl (passStep useS defS succs) s).1.1 ∧
    ptLE s.1.2 (os.foldl (passStep useS defS succs) s).1.2 ∧
    (os.foldl (passStep useS defS succs) s = s ∨
      ((os.foldl (passStep useS defS succs) s).2 = true ∧
        sizeSum s.1.1 + sizeSum s.1.2 <
          sizeSum (os.foldl (passStep useS defS succs) s).1.1 +
          sizeSum (os.foldl (passStep useS defS succs) s).1.2)) := by
  intro os
  induction os with
  | nil => intro _ s hg; exact ⟨hg, ptLE_refl _, ptLE_refl _, Or.inl rfl⟩
  | cons b os ih =>
    intro hos s hg
    have hb : b < n := hos b (List.mem_cons_self b os)
    obtain ⟨Gt, le1, le2, disj⟩ := passStep_main hU s b hb hg
    obtain ⟨Gf, le1f, le2f, disjf⟩ :=
      ih (fun x hx => hos x (List.mem_cons_of_mem _ hx)) _ Gt
    rw [List.foldl_cons]
    refine ⟨Gf, ptLE_trans le1 le1f, ptLE_trans le2 le2f, ?_⟩
    rcases disj with heq | ⟨hfl, hlt⟩
    · rw [heq] at disjf ⊢
      exact disjf
    · rcases disjf with heq2 | ⟨hfl2, hlt2⟩
      · rw [heq2]
        exact Or.inr ⟨hfl, hlt⟩
      · exact Or.inr ⟨hfl2, hlt.trans hlt2⟩

lemma pass_false_eq (useS defS : List (Finset Int))
    (succs : List (List Nat)) (os : List Nat) :
    ∀ li lo,
      (os.foldl (passStep useS defS succs) ((li, lo), false)).2 = false →
      ∀ b ∈ os, liveEqAt useS defS succs li lo b := by
  induction os with
  | nil => intro li lo _ b hb; exact absurd hb (List.not_mem_nil b)
  | cons b os ih =>
    intro li lo hfl
    rw [List.foldl_cons] at hfl
    by_cases hch : useS.getD b ∅ ∪
        (bigU li (succs.getD b []) \ defS.getD b ∅) = li.getD b ∅ ∧
        bigU li (succs.getD b []) = lo.getD b ∅
    · have hstep : passStep useS defS succs ((li, lo), false) b =
          ((li, lo), false) := by
        rw [passStep]
        exact if_pos hch
      rw [hstep] at hfl
      intro x hx
      rcases List.mem_cons.mp hx with rfl | hx2
      · refine ⟨hch.2.symm, ?_⟩
        rw [← hch.1, hch.2]
      · exact ih li lo hfl x hx2
    · have hstep : (passStep useS defS succs ((li, lo), false) b).2 =
          true := by
        rw [passStep]
        rw [if_neg hch]
      rw [foldl_flag_mono useS defS succs os _ hstep] at hfl
      exact Bool.noConfusion hfl

lemma solve_eq_of_flag {useS defS : List (Finset Int)}
    {succs : List (List Nat)} {order : List Nat} {n : Nat} {U : Finset Int}
    (hU : ∀ b, useS.getD b ∅ ⊆ U) (horder : ∀ b ∈ order, b < n) :
    ∀ (fuel : Nat) (li lo : List (Finset Int)),
      GoodS useS defS succs n U ((li, lo), false) →
      (computeLivenessIteratively useS defS succs order fuel li lo).2 =
        true →
      ∀ b ∈ order,
        liveEqAt useS defS succs
          (computeLivenessIteratively useS defS succs order fuel li lo).1.1
          (computeLivenessIteratively useS defS succs order fuel li lo).1.2
          b := by
  intro fuel
  induction fuel with
  | zero =>
    intro li lo _ hfl
    exact Bool.noConfusion hfl
  | succ fuel ih =>
    intro li lo hg hfl
    rw [computeLivenessIteratively] at hfl ⊢
    by_cases hp : (onePass useS defS succs order li lo).2 = true
    · rw [if_pos hp] at hfl ⊢
      obtain ⟨Gf, _, _, _⟩ := foldl_pass_main hU order.reverse
        (fun x hx => horder x (List.mem_reverse.mp hx)) ((li, lo), false) hg
      exact ih _ _ Gf hfl
    · rw [if_neg hp] at hfl ⊢
      have heqs := pass_false_eq useS defS succs order.reverse li lo
        (Bool.not_eq_true _ ▸ hp)
      intro b hb
      exact heqs b (List.mem_reverse.mpr hb)

lemma solve_flag_true {useS defS : List (Finset Int)}
    {succs : List (List Nat)} {order : List Nat} {n : Nat} {U : Finset Int}
    (hU : ∀ b, useS.getD b ∅ ⊆ U) (horder : ∀ b ∈ order, b < n) :
    ∀ (fuel : Nat) (li lo : List (Finset Int)),
      GoodS useS defS succs n U ((li, lo), false) →
      2 * n * U.card + 1 ≤ fuel + (sizeSum li + sizeSum lo) →
      (computeLivenessIteratively useS defS succs order fuel li lo).2 =
        true := by
  intro fuel
  induction fuel with
  | zero =>
    intro li lo hg hb
    obtain ⟨_, hl1, hl2, hu1, hu2⟩ := hg
    have hn1 : li.length = n := hl1
    have hn2 : lo.length = n := hl2
    have b1 : sizeSum li ≤ li.length * U.card := sizeSum_le hu1
    have b2 : sizeSum lo ≤ lo.length * U.card := sizeSum_le hu2
    rw [hn1] at b1
    rw [hn2] at b2
    have h2 : 2 * n * U.card = 2 * (n * U.card) := by ring
    omega
  | succ fuel ih =>
    intro li lo hg hb
    rw [computeLivenessIteratively]
    by_cases hp : (onePass useS defS succs order li lo).2 = true
    · rw [if_pos hp]
      obtain ⟨Gf, _, _, disj⟩ := foldl_pass_main hU order.reverse
        (fun x hx => horder x (List.mem_reverse.mp hx)) ((li, lo), false) hg
      rcases disj with heq | ⟨_, hlt⟩
      · have hp2 : (order.reverse.foldl (passStep useS defS succs)
            ((li, lo), false)).2 = true := hp
        rw [heq] at hp2
        exact Bool.noConfusion hp2
      · refine ih _ _ Gf ?_
        have hlt2 : sizeSum li + sizeSum lo <
            sizeSum (onePass useS defS succs order li lo).1.1 +
            sizeSum (onePass useS defS succs order li lo).1.2 := hlt
        omega
    · rw [if_neg hp]

lemma foldl_union_acc_subset :
    ∀ (l : List (Finset Int)) (acc : Finset Int),
      acc ⊆ l.foldl (· ∪ ·) acc := by
  intro l
  induction l with
  | nil => intro acc; exact subset_rfl
  | cons hd tl ih =>
    intro acc
    exact (Finset.subset_union_left).trans (ih (acc ∪ hd))

lemma foldl_union_mono :
    ∀ (l : List (Finset Int)) {a a' : Finset Int}, a ⊆ a' →
      l.foldl (· ∪ ·) a ⊆ l.foldl (· ∪ ·) a' := by
  intro l
  induction l with
  | nil => intro a a' h; exact h
  | cons hd tl ih =>
    intro a a' h
    exact ih (Finset.union_subset_union h (le_refl _))

lemma getD_subset_foldl_union :
    ∀ (l : List (Finset Int)) (b : Nat),
      l.getD b ∅ ⊆ l.foldl (· ∪ ·) ∅ := by
  intro l
  induction l with
  | nil => intro b; simp [List.getD]
  | cons hd tl ih =>
    intro b
    cases b with
    | zero =>
      rw [List.getD_cons_zero]
      exact (Finset.subset_union_right).trans
        (foldl_union_acc_subset tl (∅ ∪ hd))
    | succ b =>
      rw [List.getD_cons_succ]
      exact (ih b).trans (foldl_union_mono tl (Finset.empty_subset _))

lemma GoodS_init (useS defS : List (Finset Int)) (succs : List (List Nat))
    (n : Nat) (U : Finset Int) :
    GoodS useS defS succs n U
      ((List.replicate n ∅, List.replicate n ∅), false) := by
  have hget : ∀ b : Nat, (List.replicate n (∅ : Finset Int)).getD b ∅ = ∅ := by
    intro b
    rw [List.getD_eq_getElem?_getD, List.getElem?_replicate]
    split <;> rfl
  refine ⟨?_, by simp, by simp, ?_, ?_⟩
  · intro b
    constructor
    · rw [hget b]
      exact Finset.empty_subset _
    · rw [hget b]
      exact Finset.empty_subset _
  · intro b
    rw [hget b]
    exact Finset.empty_subset _
  · intro b
    rw [hget b]
    exact Finset.empty_subset _

/-- The complete iterative solve as `LivenessAnalysis::run` performs it
after CFG construction: use/def sets from `computeUseDefSets`, successors
from `buildCFG`, empty initial tables, and enough `while(changed)` rounds
for the (proved) convergence bound `2·n·|U| + 1`. -/
def livenessRun (blocks : List BBlock) (order : List Nat) :
    (List (Finset Int) × List (Finset Int)) × Bool :=
  computeLivenessIteratively (computeUseDefSets blocks).1
    (computeUseDefSets blocks).2 (buildCFG blocks) order
    (2 * blocks.length *
      ((computeUseDefSets blocks).1.foldl (· ∪ ·) ∅).card + 1)
    (List.replicate blocks.length ∅) (List.replicate blocks.length ∅)

/-- C3 (amended): for any block order whose entries are valid block
indices (as `F.rpoOrder` is), the iterative solver terminates — a full
pass without changes occurs within `2·n·|U| + 1` rounds — and at exit the
data-flow equations `liveOut = ⋃ liveIn(succ)` and
`liveIn = use ∪ (liveOut \ def)` hold for every block IN THE PROCESSED
ORDER.  Blocks outside the order (unreachable from the entry) keep the
empty sets they were initialised with, where the `liveIn` equation can
fail. -/
theorem C3_liveness_fixpoint_on_order (blocks : List BBlock)
    (order : List Nat) (horder : ∀ b ∈ order, b < blocks.length) :
    (livenessRun blocks order).2 = true ∧
    ∀ b ∈ order,
      liveEqAt (computeUseDefSets blocks).1 (computeUseDefSets blocks).2
        (buildCFG blocks) (livenessRun blocks order).1.1
        (livenessRun blocks order).1.2 b := by
  have hU : ∀ b, ((computeUseDefSets blocks).1).getD b ∅ ⊆
      (computeUseDefSets blocks).1.foldl (· ∪ ·) ∅ :=
    fun b => getD_subset_foldl_union _ b
  have hg := GoodS_init (computeUseDefSets blocks).1
    (computeUseDefSets blocks).2 (buildCFG blocks) blocks.length
    ((computeUseDefSets blocks).1.foldl (· ∪ ·) ∅)
  have hflag := solve_flag_true hU horder
    (2 * blocks.length *
      ((computeUseDefSets blocks).1.foldl (· ∪ ·) ∅).card + 1)
    (List.replicate blocks.length ∅) (List.replicate blocks.length ∅) hg
    (Nat.le_add_right _ _)
  exact ⟨hflag, solve_eq_of_flag hU horder _ _ _ hg hflag⟩

/-- Two blocks, the second unreachable from the entry:
`entry: ret 0` and `dead: ret %7`. -/
def fnC3 : List BBlock :=
  [⟨0, "entry", [makeRet "i32" (Operand.imm 0)]⟩,
   ⟨1, "dead", [makeRet "i32" (Operand.vreg 7)]⟩]

/-- C3 counterexample: the claim asserts the equations for EVERY block of
the function, but `computeLivenessIteratively` only visits the blocks of
`F.rpoOrder` — those reachable from the entry.  For a function with an
unreachable block that uses vreg 7, the solver converges with
`liveIn(dead) = ∅` although `useSet(dead) = {7}`, so the `liveIn`
equation fails on the unreachable block. -/
theorem C3_unreachable_block_counterexample :
    buildRPO (buildCFG fnC3) 0 10 = [0] ∧
    (livenessRun fnC3 [0]).2 = true ∧
    (computeUseDefSets fnC3).1.getD 1 ∅ = {7} ∧
    (livenessRun fnC3 [0]).1.1.getD 1 ∅ = ∅ ∧
    ¬ liveEqAt (computeUseDefSets fnC3).1 (computeUseDefSets fnC3).2
      (buildCFG fnC3) (livenessRun fnC3 [0]).1.1
      (livenessRun fnC3 [0]).1.2 1 := by
  refine ⟨by decide, by decide, by decide, by decide, ?_⟩
  intro h
  have h2 := h.2
  revert h2
  decide

/-- The amended C3 theorem applied to the two-block function with the
concrete RPO `[0]`. -/
theorem C3_liveness_fixpoint_on_order_witness :
    (livenessRun fnC3 [0]).2 = true ∧
    ∀ b ∈ [0],
      liveEqAt (computeUseDefSets fnC3).1 (computeUseDefSets fnC3).2
        (buildCFG fnC3) (livenessRun fnC3 [0]).1.1
        (livenessRun fnC3 [0]).1.2 b :=
  C3_liveness_fixpoint_on_order fnC3 [0] (by decide)

/-! ## C1: allocation exclusivity -/

/-- 22 intervals that exhaust the 22 registers left free after two
parameters take `a0`/`a1` (24 allocatable registers in total). -/
def c1Fillers : List Interval :=
  (List.range 22).map (fun k => ⟨2 + Int.ofNat k, [⟨2 + Int.ofNat k, 100⟩]⟩)

/-- Parameters `%0 [0,300]`, `%1 [1,299]`, the 22 fillers, then
`%24 [50,210]` and `%25 [51,200]` which must spill-steal. -/
def c1Sorted : List Interval :=
  ⟨0, [⟨0, 300⟩]⟩ :: ⟨1, [⟨1, 299⟩]⟩ :: c1Fillers ++
    [⟨24, [⟨50, 210⟩]⟩, ⟨25, [⟨51, 200⟩]⟩]

/-- C1 counterexample: parameter intervals enter `active_` with their
`physReg` field still at the default `-1` (`processParameters` fills
`result_.vregToPhys` but never the interval), so when `spillAtInterval`
victimises a parameter interval it transfers `-1` into the new interval's
`vregToPhys` entry.  With both parameters victimised, the overlapping
vregs 24 and 25 are BOTH mapped to `-1` in the returned `vregToPhys` —
equal values for two simultaneously live, non-parameter vregs, violating
the claimed exclusivity. -/
theorem C1_exclusivity_counterexample :
    alookup (runLinearScan (processParameters initState [0, 1])
      c1Sorted).vregToPhys 24 = some (-1) ∧
    alookup (runLinearScan (processParameters initState [0, 1])
      c1Sorted).vregToPhys 25 = some (-1) ∧
    alookup (runLinearScan (processParameters initState [0, 1])
      c1Sorted).vregToPhys 0 = Option.none ∧
    alookup (runLinearScan (processParameters initState [0, 1])
      c1Sorted).vregToPhys 1 = Option.none ∧
    (Interval.containsPos ⟨24, [⟨50, 210⟩]⟩ 60 = true ∧
     Interval.containsPos ⟨25, [⟨51, 200⟩]⟩ 60 = true) ∧
    ((24 : Int) ∉ ([0, 1] : List Int) ∧ (25 : Int) ∉ ([0, 1] : List Int)) := by
  decide

lemma find?_map_aset_self (k v : Int) :
    ∀ m : List (Int × Int),
      (m.find? (fun kv => kv.1 == k)).isSome = true →
      (m.map (fun kv => if kv.1 == k then (k, v) else kv)).find?
        (fun kv => kv.1 == k) = some (k, v) := by
  intro m
  induction m with
  | nil => intro h; simp at h
  | cons a rest ih =>
    intro h
    by_cases hak : (a.1 == k) = true
    · simp only [List.map_cons, if_pos hak]
      simp [List.find?_cons]
    · have hak' : (a.1 == k) = false := by simpa using hak
      simp only [List.find?_cons, hak'] at h
      simp only [List.map_cons, if_neg hak]
      simp only [List.find?_cons, hak']
      exact ih h

lemma find?_map_aset_ne (k v k' : Int) (h : k' ≠ k) :
    ∀ m : List (Int × Int),
      (m.map (fun kv => if kv.1 == k then (k, v) else kv)).find?
        (fun kv => kv.1 == k') = m.find? (fun kv => kv.1 == k') := by
  intro m
  induction m with
  | nil => rfl
  | cons a rest ih =>
    simp only [List.map_cons]
    by_cases hak : (a.1 == k) = true
    · have hk : a.1 = k := by simpa using hak
      have h1 : ((k : Int) == k') = false :=
        beq_eq_false_iff_ne.mpr (fun hh => h hh.symm)
      have h2 : (a.1 == k') = false := by rw [hk]; exact h1
      simp only [if_pos hak, List.find?_cons, h1, h2]
      exact ih
    · rw [if_neg hak]
      by_cases hk' : (a.1 == k') = true
      · simp only [List.find?_cons, hk']
      · have hk2 : (a.1 == k') = false := by simpa using hk'
        simp only [List.find?_cons, hk2]
        exact ih

lemma alookup_aset_self (m : List (Int × Int)) (k v : Int) :
    alookup (aset m k v) k = some v := by
  rw [aset]
  split
  · rename_i h
    rw [alookup, find?_map_aset_self k v m h]
    rfl
  · rename_i h
    rw [alookup, List.find?_append]
    rw [Option.not_isSome_iff_eq_none] at h
    rw [h]
    simp [List.find?_cons]

lemma alookup_aset_ne (m : List (Int × Int)) {k k' : Int} (v : Int)
    (h : k' ≠ k) : alookup (aset m k v) k' = alookup m k' := by
  rw [aset]
  split
  · rw [alookup, alookup, find?_map_aset_ne k v k' h]
  · rw [alookup, alookup, List.find?_append]
    have hkk : ((k : Int) == k') = false :=
      beq_eq_false_iff_ne.mpr (fun hh => h hh.symm)
    have h1 : ([(k, v)].find? (fun kv => kv.1 == k')) = Option.none := by
      simp only [List.find?_cons, hkk]
      rfl
    rw [h1]
    cases m.find? (fun kv => kv.1 == k') <;> rfl

lemma alookup_aerase_ne (m : List (Int × Int)) {k k' : Int}
    (h : k' ≠ k) : alookup (aerase m k) k' = alookup m k' := by
  rw [alookup, alookup, aerase]
  congr 1
  induction m with
  | nil => rfl
  | cons a rest ih =>
    by_cases hak : (a.1 != k) = true
    · have hfil : List.filter (fun kv => kv.1 != k) (a :: rest) =
          a :: List.filter (fun kv => kv.1 != k) rest := by
        simp [List.filter_cons, hak]
      rw [hfil]
      by_cases hk' : (a.1 == k') = true
      · simp only [List.find?_cons, hk']
      · have hk2 : (a.1 == k') = false := by simpa using hk'
        simp only [List.find?_cons, hk2]
        exact ih
    · have hak' : (a.1 != k) = false := by simpa using hak
      have hfil : List.filter (fun kv => kv.1 != k) (a :: rest) =
          List.filter (fun kv => kv.1 != k) rest := by
        simp [List.filter_cons, hak']
      rw [hfil]
      have hk : a.1 = k := by simpa using hak'
      have hk2 : (a.1 == k') = false := by
        rw [hk]
        exact beq_eq_false_iff_ne.mpr (fun hh => h hh.symm)
      simp only [List.find?_cons, hk2]
      exact ih

lemma alookup_aerase_self (m : List (Int × Int)) (k : Int) :
    alookup (aerase m k) k = Option.none := by
  rw [alookup, aerase]
  have h1 : (m.filter (fun kv => kv.1 != k)).find?
      (fun kv => kv.1 == k) = Option.none := by
    rw [List.find?_eq_none]
    intro kv hkv
    have := List.of_mem_filter hkv
    simpa using this
  rw [h1]
  rfl

/-- Parameter `v` is bound (by `processParameters`) to register `10 + i`. -/
def ParamB (ps : List Int) (v r : Int) : Prop :=
  ∃ i : Nat, i < 8 ∧ ps.get? i = some v ∧ r = 10 + Int.ofNat i

/-- `r` is one of the argument registers handed to a parameter. -/
def paramRegsP (ps : List Int) (r : Int) : Prop :=
  ∃ i : Nat, i < 8 ∧ i < ps.length ∧ r = 10 + Int.ofNat i

lemma not_overlap_of_before {a b : Interval}
    (ha : ∀ r ∈ a.ranges, r.endp ≤ a.endp)
    (hb : ∀ r ∈ b.ranges, b.start ≤ r.start)
    (h : a.endp < b.start) :
    ¬ ∃ p : Int, a.containsPos p = true ∧ b.containsPos p = true := by
  rintro ⟨p, hpa, hpb⟩
  rw [Interval.containsPos, List.any_eq_true] at hpa hpb
  obtain ⟨ra, hra, hpa2⟩ := hpa
  obtain ⟨rb, hrb, hpb2⟩ := hpb
  simp only [Bool.and_eq_true, decide_eq_true_eq] at hpa2 hpb2
  have h1 := ha ra hra
  have h2 := hb rb hrb
  omega

/-- The register-distinctness relation among active entries. -/
def QReg (e1 e2 : Interval × Int) : Prop :=
  e1.2 = -1 ∨ e2.2 = -1 ∨ e1.2 ≠ e2.2

lemma QReg_symm {e1 e2 : Interval × Int} (h : QReg e1 e2) : QReg e2 e1 := by
  rcases h with h | h | h
  · exact Or.inr (Or.inl h)
  · exact Or.inl h
  · exact Or.inr (Or.inr (fun hEq => h hEq.symm))

lemma pairwise_insertActive {l : List (Interval × Int)} {e : Interval × Int}
    (hl : List.Pairwise QReg l) (he : ∀ x ∈ l, QReg e x) :
    List.Pairwise QReg (insertActiveInterval l e) := by
  induction l with
  | nil => simpa [insertActiveInterval] using List.pairwise_singleton QReg e
  | cons a rest ih =>
    rw [insertActiveInterval]
    obtain ⟨hahd, harest⟩ := List.pairwise_cons.mp hl
    split
    · refine List.pairwise_cons.mpr ⟨?_, ih harest
        (fun x hx => he x (List.mem_cons_of_mem _ hx))⟩
      intro x hx
      rcases mem_insertActiveInterval hx with hx | rfl
      · exact hahd x hx
      · exact QReg_symm (he a (List.mem_cons_self _ _))
    · exact List.pairwise_cons.mpr ⟨he, hl⟩

lemma getD_mem_active {l : List (Interval × Int)} {idx : Nat}
    (h : idx < l.length) (d : Interval × Int) : l.getD idx d ∈ l := by
  rw [List.getD_eq_getElem?_getD, List.getElem?_eq_getElem h]
  exact List.getElem_mem _

lemma pairwise_victim {l : List (Interval × Int)} :
    ∀ {idx : Nat}, idx < l.length → List.Pairwise QReg l →
      ∀ x ∈ l.eraseIdx idx, QReg (l.getD idx (⟨-1, []⟩, -1)) x := by
  induction l with
  | nil => intro idx h; simp at h
  | cons a rest ih =>
    intro idx h hp x hx
    obtain ⟨hahd, harest⟩ := List.pairwise_cons.mp hp
    cases idx with
    | zero =>
      simp only [List.eraseIdx_cons_zero] at hx
      exact hahd x hx
    | succ idx =>
      simp only [List.eraseIdx_cons_succ] at hx
      rw [List.getD_cons_succ]
      rcases List.mem_cons.mp hx with rfl | hx2
      · exact QReg_symm (hahd _ (getD_mem_active (by simpa using h) _))
      · exact ih (by simpa using h) harest x hx2

lemma maxEndIdx_go_lt :
    ∀ (xs : List (Interval × Int)) (curMax : Int) (best pos : Nat),
      best < pos → maxEndIdx.go xs curMax best pos < pos + xs.length := by
  intro xs
  induction xs with
  | nil => intro curMax best pos h; simpa [maxEndIdx.go] using h
  | cons x rest ih =>
    intro curMax best pos h
    rw [maxEndIdx.go]
    split
    · have := ih x.1.endp pos (pos + 1) (Nat.lt_succ_self pos)
      simpa [Nat.add_assoc, Nat.add_comm, Nat.add_left_comm] using this
    · have := ih curMax best (pos + 1) (Nat.lt_succ_of_lt h)
      simpa [Nat.add_assoc, Nat.add_comm, Nat.add_left_comm] using this

lemma maxEndIdx_lt {l : List (Interval × Int)} (h : l ≠ []) :
    maxEndIdx l < l.length := by
  cases l with
  | nil => exact absurd rfl h
  | cons e rest =>
    rw [maxEndIdx]
    have := maxEndIdx_go_lt rest e.1.endp 0 1 Nat.one_pos
    simpa [Nat.add_comm] using this

lemma mem_insertActive_self (l : List (Interval × Int))
    (e : Interval × Int) : e ∈ insertActiveInterval l e := by
  induction l with
  | nil => simp [insertActiveInterval]
  | cons a rest ih =>
    rw [insertActiveInterval]
    split
    · exact List.mem_cons_of_mem _ ih
    · exact List.mem_cons_self _ _

lemma mem_insertActive_of_mem {l : List (Interval × Int)}
    {x : Interval × Int} (e : Interval × Int) (h : x ∈ l) :
    x ∈ insertActiveInterval l e := by
  induction l with
  | nil => simp at h
  | cons a rest ih =>
    rw [insertActiveInterval]
    split
    · rcases List.mem_cons.mp h with rfl | h2
      · exact List.mem_cons_self _ _
      · exact List.mem_cons_of_mem _ (ih h2)
    · exact List.mem_cons_of_mem _ h

lemma pairwise_insertActive_gen {R : Interval × Int → Interval × Int → Prop}
    (hsymm : ∀ {a b}, R a b → R b a) {l : List (Interval × Int)}
    {e : Interval × Int} (hl : List.Pairwise R l)
    (he : ∀ x ∈ l, R e x) :
    List.Pairwise R (insertActiveInterval l e) := by
  induction l with
  | nil => simpa [insertActiveInterval] using List.pairwise_singleton R e
  | cons a rest ih =>
    rw [insertActiveInterval]
    obtain ⟨hahd, harest⟩ := List.pairwise_cons.mp hl
    split
    · refine List.pairwise_cons.mpr ⟨?_, ih harest
        (fun x hx => he x (List.mem_cons_of_mem _ hx))⟩
      intro x hx
      rcases mem_insertActiveInterval hx with hx | rfl
      · exact hahd x hx
      · exact hsymm (he a (List.mem_cons_self _ _))
    · exact List.pairwise_cons.mpr ⟨he, hl⟩

lemma pairwise_victim_gen {R : Interval × Int → Interval × Int → Prop}
    (hsymm : ∀ {a b}, R a b → R b a) :
    ∀ {l : List (Interval × Int)} {idx : Nat}, idx < l.length →
      List.Pairwise R l →
      ∀ x ∈ l.eraseIdx idx, R (l.getD idx (⟨-1, []⟩, -1)) x := by
  intro l
  induction l with
  | nil => intro idx h; simp at h
  | cons a rest ih =>
    intro idx h hp x hx
    obtain ⟨hahd, harest⟩ := List.pairwise_cons.mp hp
    cases idx with
    | zero =>
      simp only [List.eraseIdx_cons_zero] at hx
      exact hahd x hx
    | succ idx =>
      simp only [List.eraseIdx_cons_succ] at hx
      rw [List.getD_cons_succ]
      rcases List.mem_cons.mp hx with rfl | hx2
      · exact hsymm (hahd _ (getD_mem_active (by simpa using h) _))
      · exact ih (by simpa using h) harest x hx2

lemma mem_of_mem_eraseIdx_g :
    ∀ {l : List (Interval × Int)} {idx : Nat} {x : Interval × Int},
      x ∈ l.eraseIdx idx → x ∈ l := by
  intro l
  induction l with
  | nil => intro idx x h; simp [List.eraseIdx] at h
  | cons a rest ih =>
    intro idx x h
    cases idx with
    | zero =>
      simp only [List.eraseIdx_cons_zero] at h
      exact List.mem_cons_of_mem _ h
    | succ idx =>
      simp only [List.eraseIdx_cons_succ] at h
      rcases List.mem_cons.mp h with rfl | h2
      · exact List.mem_cons_self _ _
      · exact List.mem_cons_of_mem _ (ih h2)

lemma mem_eraseIdx_of_ne :
    ∀ {l : List (Interval × Int)} {idx : Nat}
      {x d : Interval × Int}, idx < l.length → x ∈ l →
      x ≠ l.getD idx d → x ∈ l.eraseIdx idx := by
  intro l
  induction l with
  | nil => intro idx x d h; simp at h
  | cons a rest ih =>
    intro idx x d h hx hne
    cases idx with
    | zero =>
      rw [List.getD_cons_zero] at hne
      simp only [List.eraseIdx_cons_zero]
      rcases List.mem_cons.mp hx with rfl | hx2
      · exact absurd rfl hne
      · exact hx2
    | succ idx =>
      rw [List.getD_cons_succ] at hne
      simp only [List.eraseIdx_cons_succ]
      rcases List.mem_cons.mp hx with rfl | hx2
      · exact List.mem_cons_self _ _
      · exact List.mem_cons_of_mem _ (ih (by simpa using h) hx2 hne)

lemma not_mem_serase_self (l : List Int) (x : Int) : x ∉ serase l x := by
  rw [serase]
  intro h
  have := List.of_mem_filter h
  simp at this

/-- The linear-scan exclusivity invariant.  `ps` are the parameter vregs,
`done` the intervals already processed, `s` a lower bound on the start of
every unprocessed interval. -/
structure AInv (ps : List Int) (st : AllocState) (done : List Interval)
    (s : Int) : Prop where
  hA : ∀ e ∈ st.active, e.1 ∈ done ∧
    (e.2 = -1 ∨ (alookup st.vregToPhys e.1.vreg = some e.2 ∧
      ¬ paramRegsP ps e.2 ∧ e.1.vreg ∉ ps))
  hB : List.Pairwise QReg st.active
  hC : ∀ e ∈ st.active, e.2 ≠ -1 → e.2 ∉ st.freePhysRegs
  hP : ∀ r ∈ st.freePhysRegs, ¬ paramRegsP ps r ∧ 0 ≤ r
  hD1 : ∀ v r, alookup st.vregToPhys v = some r → r ≠ -1 → v ∈ ps →
    ParamB ps v r
  hD2 : ∀ v r, alookup st.vregToPhys v = some r → r ≠ -1 → v ∉ ps →
    ¬ paramRegsP ps r ∧
    ((∃ e ∈ st.active, e.2 = r ∧ e.1.vreg = v) ∨
     (∃ iv ∈ done, iv.vreg = v ∧ iv.endp < s))
  hI : ∀ v ∈ ps, v ∈ st.allocatedVregs
  hN : ∀ v ∈ st.allocatedVregs, v ∈ ps ∨ v ∈ done.map Interval.vreg
  hAv : List.Pairwise (fun x y : Interval × Int => x.1.vreg ≠ y.1.vreg)
    st.active
  hDom : ∀ v r, alookup st.vregToPhys v = some r →
    v ∈ ps ∨ v ∈ done.map Interval.vreg
  hF : ∀ iu ∈ done, ∀ iv ∈ done, iu.vreg ≠ iv.vreg → ∀ r : Int, r ≠ -1 →
    alookup st.vregToPhys iu.vreg = some r →
    alookup st.vregToPhys iv.vreg = some r →
    ¬ ∃ p : Int, iu.containsPos p = true ∧ iv.containsPos p = true

lemma AInv_mono_s {ps st done} {s s' : Int} (h : AInv ps st done s)
    (hs : s ≤ s') : AInv ps st done s' := by
  refine ⟨h.hA, h.hB, h.hC, h.hP, h.hD1, ?_, h.hI, h.hN, h.hAv, h.hDom,
    h.hF⟩
  intro v r hv hr hp
  obtain ⟨h1, h2⟩ := h.hD2 v r hv hr hp
  refine ⟨h1, ?_⟩
  rcases h2 with h2 | ⟨iv, hiv, hv2, he⟩
  · exact Or.inl h2
  · exact Or.inr ⟨iv, hiv, hv2, by omega⟩

lemma AInv_done_grow {ps st done} {s : Int} (h : AInv ps st done s)
    (cur : Interval)
    (hFnew : ∀ iv ∈ done, cur.vreg ≠ iv.vreg → ∀ r : Int, r ≠ -1 →
      alookup st.vregToPhys cur.vreg = some r →
      alookup st.vregToPhys iv.vreg = some r →
      ¬ ∃ p : Int, cur.containsPos p = true ∧ iv.containsPos p = true) :
    AInv ps st (done ++ [cur]) s := by
  refine ⟨?_, h.hB, h.hC, h.hP, h.hD1, ?_, h.hI, ?_, h.hAv, ?_, ?_⟩
  · intro e he
    obtain ⟨h1, h2⟩ := h.hA e he
    exact ⟨List.mem_append_left _ h1, h2⟩
  · intro v r hv hr hp
    obtain ⟨h1, h2⟩ := h.hD2 v r hv hr hp
    refine ⟨h1, ?_⟩
    rcases h2 with h2 | ⟨iv, hiv, hv2, he⟩
    · exact Or.inl h2
    · exact Or.inr ⟨iv, List.mem_append_left _ hiv, hv2, he⟩
  · intro v hv
    rcases h.hN v hv with h1 | h1
    · exact Or.inl h1
    · right
      rw [List.map_append]
      exact List.mem_append_left _ h1
  · intro v r hv
    rcases h.hDom v r hv with h1 | h1
    · exact Or.inl h1
    · right
      rw [List.map_append]
      exact List.mem_append_left _ h1
  · intro iu hiu iv hiv hne r hr hlu hlv
    rcases List.mem_append.mp hiu with hiu1 | hiu1
    · rcases List.mem_append.mp hiv with hiv1 | hiv1
      · exact h.hF iu hiu1 iv hiv1 hne r hr hlu hlv
      · have hcur : iv = cur := by simpa using hiv1
        rw [hcur] at hne hlv
        rintro ⟨p, hp1, hp2⟩
        rw [hcur] at hp2
        exact hFnew iu hiu1 (fun hh => hne hh.symm) r hr hlv hlu ⟨p, hp2, hp1⟩
    · have hcur : iu = cur := by simpa using hiu1
      rw [hcur] at hne hlu
      rcases List.mem_append.mp hiv with hiv1 | hiv1
      · rintro ⟨p, hp1, hp2⟩
        rw [hcur] at hp1
        exact hFnew iv hiv1 hne r hr hlu hlv ⟨p, hp1, hp2⟩
      · have hcur2 : iv = cur := by simpa using hiv1
        rw [hcur2] at hne
        exact absurd rfl hne

lemma AInv_pop_active {ps st done} {s : Int} {e : Interval × Int}
    {rest : List (Interval × Int)}
    (h : AInv ps st done s) (hact : st.active = e :: rest)
    (hend : e.1.endp < s) :
    AInv ps (freePhysReg { st with active := rest } e.2) done s := by
  have hmem_e : e ∈ st.active := by rw [hact]; exact List.mem_cons_self _ _
  have hApop := h.hA e hmem_e
  obtain ⟨hQhead, hQrest⟩ := List.pairwise_cons.mp (hact ▸ h.hB)
  have hsub : ∀ x ∈ rest, x ∈ st.active := by
    intro x hx
    rw [hact]
    exact List.mem_cons_of_mem _ hx
  have hpool : (freePhysReg { st with active := rest } e.2).freePhysRegs =
      st.freePhysRegs ∨
      ((freePhysReg { st with active := rest } e.2).freePhysRegs =
        sinsert st.freePhysRegs e.2 ∧ e.2 ≠ -1 ∧ 0 ≤ e.2) := by
    rw [freePhysReg]
    split
    · rename_i hc
      right
      exact ⟨rfl, by omega, hc.1⟩
    · exact Or.inl rfl
  have hactive : (freePhysReg { st with active := rest } e.2).active =
      rest := by
    rw [freePhysReg]
    split <;> rfl
  have hmap : (freePhysReg { st with active := rest } e.2).vregToPhys =
      st.vregToPhys := by
    rw [freePhysReg]
    split <;> rfl
  have halloc : (freePhysReg { st with active := rest } e.2).allocatedVregs =
      st.allocatedVregs := by
    rw [freePhysReg]
    split <;> rfl
  obtain ⟨_, hAvrest⟩ := List.pairwise_cons.mp (hact ▸ h.hAv)
  refine ⟨?_, ?_, ?_, ?_, ?_, ?_, ?_, ?_, ?_, ?_, ?_⟩
  · intro x hx
    rw [hactive] at hx
    rw [hmap]
    exact h.hA x (hsub x hx)
  · rw [hactive]
    exact hQrest
  · intro x hx hxr
    rw [hactive] at hx
    have hold := h.hC x (hsub x hx) hxr
    rcases hpool with hp | ⟨hp, he2, _⟩
    · rw [hp]; exact hold
    · rw [hp]
      intro hmemx
      rcases mem_sinsert hmemx with heq | hmemx2
      · rcases hQhead x hx with hq | hq | hq
        · exact he2 hq
        · exact hxr hq
        · exact hq heq.symm
      · exact hold hmemx2
  · intro r hr
    rcases hpool with hp | ⟨hp, he2, _⟩
    · rw [hp] at hr; exact h.hP r hr
    · rw [hp] at hr
      rcases mem_sinsert hr with rfl | hr2
      · rcases hApop.2 with hq | ⟨_, hq2, _⟩
        · exact absurd hq he2
        · have h0 : (0 : Int) ≤ e.2 := by
            rw [freePhysReg] at hp
            by_cases hc : 0 ≤ e.2 ∧ ¬ isReserved e.2
            · exact hc.1
            · rw [if_neg hc] at hp
              exact absurd (hp ▸ (by
                  have : e.2 ∈ sinsert st.freePhysRegs e.2 := by
                    rw [sinsert]; split
                    · assumption
                    · exact List.mem_cons_self _ _
                  exact this)) (fun hmm => (h.hC e hmem_e he2) hmm)
          exact ⟨hq2, h0⟩
      · exact h.hP r hr2
  · intro v r hv hr hp2
    rw [hmap] at hv
    exact h.hD1 v r hv hr hp2
  · intro v r hv hr hp2
    rw [hmap] at hv
    obtain ⟨h1, h2⟩ := h.hD2 v r hv hr hp2
    refine ⟨h1, ?_⟩
    rcases h2 with ⟨x, hx, hx2, hx3⟩ | h2
    · rw [hact] at hx
      rcases List.mem_cons.mp hx with rfl | hx
      · exact Or.inr ⟨x.1, hApop.1, hx3, hend⟩
      · rw [hactive]
        exact Or.inl ⟨x, hx, hx2, hx3⟩
    · exact Or.inr h2
  · intro v hv
    rw [halloc]
    exact h.hI v hv
  · intro v hv
    rw [halloc] at hv
    exact h.hN v hv
  · rw [hactive]
    exact hAvrest
  · intro v r hv
    rw [hmap] at hv
    exact h.hDom v r hv
  · intro iu hiu iv hiv hne r hr hlu hlv
    rw [hmap] at hlu hlv
    exact h.hF iu hiu iv hiv hne r hr hlu hlv

lemma AInv_expireAux {ps done} {s : Int} :
    ∀ (l : List (Interval × Int)) (st : AllocState),
      l = st.active → AInv ps st done s →
      AInv ps (expireAux s l st) done s := by
  intro l
  induction l with
  | nil => intro st _ h; rw [expireAux]; exact h
  | cons e rest ih =>
    intro st hact h
    rw [expireAux]
    split
    · rename_i hend
      refine ih _ ?_ (AInv_pop_active h hact.symm hend)
      rw [freePhysReg]
      split <;> rfl
    · exact h

lemma AInv_expire {ps st done} {s s' : Int} (h : AInv ps st done s)
    (hs : s ≤ s') : AInv ps (expireOldIntervals st s') done s' :=
  AInv_expireAux st.active st rfl (AInv_mono_s h hs)

lemma AInv_of_eq {ps done} {s : Int} {st st' : AllocState}
    (h1 : st'.active = st.active)
    (h2 : st'.freePhysRegs = st.freePhysRegs)
    (h3 : st'.vregToPhys = st.vregToPhys)
    (h4 : st'.allocatedVregs = st.allocatedVregs)
    (h : AInv ps st done s) : AInv ps st' done s := by
  refine ⟨?_, ?_, ?_, ?_, ?_, ?_, ?_, ?_, ?_, ?_, ?_⟩ <;>
    simp only [h1, h2, h3, h4] <;>
    first
      | exact h.hA
      | exact h.hB
      | exact h.hC
      | exact h.hP
      | exact h.hD1
      | exact h.hD2
      | exact h.hI
      | exact h.hN
      | exact h.hAv
      | exact h.hDom
      | exact h.hF

/-- Inserting a pre-allocated (parameter) interval into `active_` with its
uninitialised `physReg = -1` field. -/
lemma AInv_preallocInsert {ps st done} {s : Int} (h : AInv ps st done s)
    (cur : Interval) (hcur : cur ∈ done)
    (hfresh : ∀ e ∈ st.active, e.1.vreg ≠ cur.vreg) :
    AInv ps { st with active := insertActiveInterval st.active (cur, -1) }
      done s := by
  refine ⟨?_, ?_, ?_, h.hP, h.hD1, ?_, h.hI, h.hN, ?_, h.hDom, h.hF⟩
  · intro e he
    rcases mem_insertActiveInterval he with he2 | rfl
    · exact h.hA e he2
    · exact ⟨hcur, Or.inl rfl⟩
  · exact pairwise_insertActive_gen (fun hab => QReg_symm hab) h.hB
      (fun x _ => Or.inl rfl)
  · intro e he her
    rcases mem_insertActiveInterval he with he2 | rfl
    · exact h.hC e he2 her
    · exact absurd rfl her
  · intro v r hv hr hp2
    obtain ⟨h1, h2⟩ := h.hD2 v r hv hr hp2
    refine ⟨h1, ?_⟩
    rcases h2 with ⟨e, he, he2, he3⟩ | h2
    · exact Or.inl ⟨e, mem_insertActive_of_mem _ he, he2, he3⟩
    · exact Or.inr h2
  · refine pairwise_insertActive_gen (fun hab => fun hh => hab hh.symm)
      h.hAv ?_
    intro x hx
    exact fun hh => hfresh x hx hh.symm

lemma poolMin_ne_none {l : List Int} (h : l ≠ []) :
    ∃ reg, poolMin l = some reg := by
  cases l with
  | nil => exact absurd rfl h
  | cons x rest =>
    rw [poolMin]
    cases poolMin rest with
    | none => exact ⟨x, rfl⟩
    | some m => exact ⟨if physRegLt m x then m else x, rfl⟩

lemma mem_sinsert_of_mem {l : List Int} {x y : Int} (h : y ∈ l) :
    y ∈ sinsert l x := by
  rw [sinsert]
  split
  · exact h
  · exact List.mem_cons_of_mem _ h

lemma ParamB_paramRegsP {ps : List Int} {v r : Int} (h : ParamB ps v r) :
    paramRegsP ps r := by
  obtain ⟨i, hi8, hget, hr⟩ := h
  exact ⟨i, hi8, (List.get?_eq_some.mp hget).1, hr⟩

/-- The `allocatePhysicalReg` branch of the main loop (free pool
non-empty, vreg not pre-allocated). -/
lemma AInv_allocBranch {ps : List Int} {st : AllocState}
    {done : List Interval} {s : Int} (cur : Interval)
    (h : AInv ps st done s)
    (hpool : st.freePhysRegs ≠ [])
    (hps : cur.vreg ∉ ps)
    (hfr : cur.vreg ∉ done.map Interval.vreg)
    (hs : s ≤ cur.start)
    (hndl : (done.map Interval.vreg).Nodup)
    (hwf : ∀ iv ∈ done ++ [cur], ∀ rg ∈ iv.ranges,
      iv.start ≤ rg.start ∧ rg.endp ≤ iv.endp) :
    AInv ps { allocatePhysicalReg st cur with
        allocatedVregs :=
          sinsert (allocatePhysicalReg st cur).allocatedVregs cur.vreg }
      (done ++ [cur]) s := by
  obtain ⟨reg, hreg⟩ := poolMin_ne_none hpool
  have hregmem : reg ∈ st.freePhysRegs := poolMin_mem hreg
  obtain ⟨hregnp, hregnn⟩ := h.hP reg hregmem
  have hregne : reg ≠ -1 := by omega
  have hfa : ∀ e ∈ st.active, e.1.vreg ≠ cur.vreg := by
    intro e he hv
    exact hfr (hv ▸ List.mem_map_of_mem Interval.vreg (h.hA e he).1)
  rw [allocatePhysicalReg, allocatePhysReg, hreg]
  dsimp only
  refine ⟨?_, ?_, ?_, ?_, ?_, ?_, ?_, ?_, ?_, ?_, ?_⟩
  · intro e he
    rcases mem_insertActiveInterval he with he2 | rfl
    · obtain ⟨h1, h2⟩ := h.hA e he2
      refine ⟨List.mem_append_left _ h1, ?_⟩
      rcases h2 with h2 | ⟨h2, h3, h4⟩
      · exact Or.inl h2
      · exact Or.inr ⟨by rw [alookup_aset_ne _ _ (hfa e he2)]; exact h2,
          h3, h4⟩
    · exact ⟨List.mem_append_right _ (List.mem_singleton.mpr rfl),
        Or.inr ⟨alookup_aset_self _ _ _, hregnp, hps⟩⟩
  · refine pairwise_insertActive_gen (fun hab => QReg_symm hab) h.hB ?_
    intro x hx
    by_cases hxr : x.2 = -1
    · exact Or.inr (Or.inl hxr)
    · refine Or.inr (Or.inr fun hEq => ?_)
      exact h.hC x hx hxr (hEq ▸ hregmem)
  · intro e he her
    rcases mem_insertActiveInterval he with he2 | rfl
    · intro hmem
      exact h.hC e he2 her (mem_serase hmem)
    · exact not_mem_serase_self _ _
  · intro r hr
    exact h.hP r (mem_serase hr)
  · intro v r hv hr hvp
    have hvne : v ≠ cur.vreg := fun hh => hps (hh ▸ hvp)
    rw [alookup_aset_ne _ _ hvne] at hv
    exact h.hD1 v r hv hr hvp
  · intro v r hv hr hvp
    by_cases hvc : v = cur.vreg
    · subst hvc
      rw [alookup_aset_self] at hv
      have hrr : r = reg := by simpa using hv.symm
      subst hrr
      exact ⟨hregnp, Or.inl ⟨(cur, r), mem_insertActive_self _ _, rfl, rfl⟩⟩
    · rw [alookup_aset_ne _ _ hvc] at hv
      obtain ⟨h1, h2⟩ := h.hD2 v r hv hr hvp
      refine ⟨h1, ?_⟩
      rcases h2 with ⟨e, he, he2, he3⟩ | ⟨iv, hiv, hiv2, hiv3⟩
      · exact Or.inl ⟨e, mem_insertActive_of_mem _ he, he2, he3⟩
      · exact Or.inr ⟨iv, List.mem_append_left _ hiv, hiv2, hiv3⟩
  · intro v hv
    exact mem_sinsert_of_mem (h.hI v hv)
  · intro v hv
    rcases mem_sinsert hv with rfl | hv2
    · right
      simp
    · rcases h.hN v hv2 with h1 | h1
      · exact Or.inl h1
      · right
        rw [List.map_append]
        exact List.mem_append_left _ h1
  · refine pairwise_insertActive_gen (fun hab hh => hab hh.symm) h.hAv ?_
    intro x hx hh
    exact hfa x hx hh.symm
  · intro v r hv
    by_cases hvc : v = cur.vreg
    · right
      rw [hvc]
      simp
    · rw [alookup_aset_ne _ _ hvc] at hv
      rcases h.hDom v r hv with h1 | h1
      · exact Or.inl h1
      · right
        rw [List.map_append]
        exact List.mem_append_left _ h1
  · intro iu hiu iv hiv hne r hr hlu hlv
    have key : ∀ w ∈ done, alookup st.vregToPhys w.vreg = some reg →
        ¬ ∃ p : Int, w.containsPos p = true ∧ cur.containsPos p = true := by
      intro w hw hlw
      by_cases hwp : w.vreg ∈ ps
      · exact absurd (ParamB_paramRegsP (h.hD1 _ _ hlw hregne hwp))
          hregnp
      · obtain ⟨_, hcls⟩ := h.hD2 _ _ hlw hregne hwp
        rcases hcls with ⟨e, he, he2, he3⟩ | ⟨w2, hw2, hw2v, hw2e⟩
        · exact absurd hregmem (he2 ▸ h.hC e he (he2 ▸ hregne))
        · have hw2w : w2 = w := List.inj_on_of_nodup_map hndl hw2 hw hw2v
          subst hw2w
          refine not_overlap_of_before ?_ ?_ (by omega)
          · intro rg hrg
            exact (hwf w2 (List.mem_append_left _ hw2) rg hrg).2
          · intro rg hrg
            exact (hwf cur (List.mem_append_right _
              (List.mem_singleton.mpr rfl)) rg hrg).1
    by_cases hucur : iu.vreg = cur.vreg
    · have hiu2 : iu = cur := by
        rcases List.mem_append.mp hiu with h1 | h1
        · exact absurd (hucur ▸ List.mem_map_of_mem Interval.vreg h1) hfr
        · simpa using h1
      have hivd : iv ∈ done := by
        rcases List.mem_append.mp hiv with h1 | h1
        · exact h1
        · have : iv = cur := by simpa using h1
          rw [hiu2, this] at hne
          exact absurd rfl hne
      rw [hucur, alookup_aset_self] at hlu
      have hrr : r = reg := by simpa using hlu.symm
      have hvne : iv.vreg ≠ cur.vreg := fun hh => hne (hucur ▸ hh.symm ▸ rfl)
      rw [alookup_aset_ne _ _ hvne] at hlv
      rintro ⟨p, hp1, hp2⟩
      rw [hiu2] at hp1
      exact key iv hivd (hrr ▸ hlv) ⟨p, hp2, hp1⟩
    · by_cases hvcur : iv.vreg = cur.vreg
      · have hiv2 : iv = cur := by
          rcases List.mem_append.mp hiv with h1 | h1
          · exact absurd (hvcur ▸ List.mem_map_of_mem Interval.vreg h1) hfr
          · simpa using h1
        have hiud : iu ∈ done := by
          rcases List.mem_append.mp hiu with h1 | h1
          · exact h1
          · have : iu = cur := by simpa using h1
            rw [this, hiv2] at hne
            exact absurd rfl hne
        rw [hvcur, alookup_aset_self] at hlv
        have hrr : r = reg := by simpa using hlv.symm
        rw [alookup_aset_ne _ _ hucur] at hlu
        rintro ⟨p, hp1, hp2⟩
        rw [hiv2] at hp2
        exact key iu hiud (hrr ▸ hlu) ⟨p, hp1, hp2⟩
      · have hiud : iu ∈ done := by
          rcases List.mem_append.mp hiu with h1 | h1
          · exact h1
          · have h2 : iu = cur := by simpa using h1
            rw [h2] at hucur
            exact absurd rfl hucur
        have hivd : iv ∈ done := by
          rcases List.mem_append.mp hiv with h1 | h1
          · exact h1
          · have h2 : iv = cur := by simpa using h1
            rw [h2] at hvcur
            exact absurd rfl hvcur
        rw [alookup_aset_ne _ _ hucur] at hlu
        rw [alookup_aset_ne _ _ hvcur] at hlv
        exact h.hF iu hiud iv hivd hne r hr hlu hlv

/-- The spill-with-steal branch of `spillAtInterval`: the victim's stored
`physReg` field (possibly the uninitialised `-1` of a parameter interval)
is transferred to the current interval, and the victim is erased from
`vregToPhys`. -/
lemma AInv_stealBranch {ps : List Int} {st : AllocState}
    {done : List Interval} {s : Int} (cur : Interval) (idx : Nat)
    (spill : Interval × Int)
    (hidx : idx < st.active.length)
    (hspill : st.active.getD idx (⟨-1, []⟩, -1) = spill)
    (h : AInv ps st done s)
    (hps : cur.vreg ∉ ps)
    (hfr : cur.vreg ∉ done.map Interval.vreg)
    (hs : s ≤ cur.start)
    (hndl : (done.map Interval.vreg).Nodup)
    (hwf : ∀ iv ∈ done ++ [cur], ∀ rg ∈ iv.ranges,
      iv.start ≤ rg.start ∧ rg.endp ≤ iv.endp) :
    AInv ps { st with
        nextSpillSlot := st.nextSpillSlot + 1
        vregToPhys := aset (aerase st.vregToPhys spill.1.vreg)
          cur.vreg spill.2
        vregToStack := aset st.vregToStack spill.1.vreg
          (-(st.nextSpillSlot + 1) * 4)
        active := insertActiveInterval (st.active.eraseIdx idx)
          (cur, spill.2) }
      (done ++ [cur]) s := by
  have hspmem : spill ∈ st.active := hspill ▸ getD_mem_active hidx _
  have hAspill := h.hA spill hspmem
  have hQvict : ∀ x ∈ st.active.eraseIdx idx, QReg spill x :=
    hspill ▸ pairwise_victim_gen (fun hab => QReg_symm hab) hidx h.hB
  have hVvict : ∀ x ∈ st.active.eraseIdx idx, spill.1.vreg ≠ x.1.vreg :=
    hspill ▸ pairwise_victim_gen (fun hab hh => hab hh.symm) hidx h.hAv
  have hfa : ∀ e ∈ st.active, e.1.vreg ≠ cur.vreg := by
    intro e he hv
    exact hfr (hv ▸ List.mem_map_of_mem Interval.vreg (h.hA e he).1)
  have hcsp : spill.1.vreg ≠ cur.vreg := hfa spill hspmem
  have hspnp : spill.2 ≠ -1 → ¬ paramRegsP ps spill.2 := by
    intro hne
    rcases hAspill.2 with hm | ⟨_, hnp, _⟩
    · exact absurd hm hne
    · exact hnp
  have Lcur : alookup (aset (aerase st.vregToPhys spill.1.vreg)
      cur.vreg spill.2) cur.vreg = some spill.2 := alookup_aset_self _ _ _
  have Lspill : alookup (aset (aerase st.vregToPhys spill.1.vreg)
      cur.vreg spill.2) spill.1.vreg = Option.none := by
    rw [alookup_aset_ne _ _ hcsp, alookup_aerase_self]
  have Lsp : ∀ v, v ≠ cur.vreg → v ≠ spill.1.vreg →
      alookup (aset (aerase st.vregToPhys spill.1.vreg)
        cur.vreg spill.2) v = alookup st.vregToPhys v := by
    intro v h1 h2
    rw [alookup_aset_ne _ _ h1, alookup_aerase_ne _ h2]
  refine ⟨?_, ?_, ?_, h.hP, ?_, ?_, h.hI, ?_, ?_, ?_, ?_⟩
  · intro e he
    rcases mem_insertActiveInterval he with he2 | rfl
    · have hea := mem_of_mem_eraseIdx_g he2
      obtain ⟨h1, h2⟩ := h.hA e hea
      refine ⟨List.mem_append_left _ h1, ?_⟩
      rcases h2 with h2 | ⟨h2, h3, h4⟩
      · exact Or.inl h2
      · refine Or.inr ⟨?_, h3, h4⟩
        rw [Lsp _ (hfa e hea) (fun hh => hVvict e he2 hh.symm)]
        exact h2
    · by_cases hm : spill.2 = -1
      · exact ⟨List.mem_append_right _ (List.mem_singleton.mpr rfl),
          Or.inl hm⟩
      · exact ⟨List.mem_append_right _ (List.mem_singleton.mpr rfl),
          Or.inr ⟨Lcur, hspnp hm, hps⟩⟩
  · refine pairwise_insertActive_gen (fun hab => QReg_symm hab)
      (h.hB.sublist (List.eraseIdx_sublist _ _)) ?_
    intro x hx
    rcases hQvict x hx with h1 | h1 | h1
    · exact Or.inl h1
    · exact Or.inr (Or.inl h1)
    · exact Or.inr (Or.inr h1)
  · intro e he her
    rcases mem_insertActiveInterval he with he2 | rfl
    · exact h.hC e (mem_of_mem_eraseIdx_g he2) her
    · rcases hAspill.2 with hm | _
      · exact absurd hm her
      · exact h.hC spill hspmem her
  · intro v r hv hr hvp
    have h1 : v ≠ cur.vreg := fun hh => hps (hh ▸ hvp)
    by_cases h2 : v = spill.1.vreg
    · rw [h2, Lspill] at hv
      exact absurd hv (by simp)
    · rw [Lsp v h1 h2] at hv
      exact h.hD1 v r hv hr hvp
  · intro v r hv hr hvp
    by_cases h1 : v = cur.vreg
    · subst h1
      rw [Lcur] at hv
      have hrr : r = spill.2 := by simpa using hv.symm
      rw [hrr]
      exact ⟨hspnp (hrr ▸ hr), Or.inl ⟨(cur, spill.2),
        mem_insertActive_self _ _, rfl, rfl⟩⟩
    · by_cases h2 : v = spill.1.vreg
      · rw [h2, Lspill] at hv
        exact absurd hv (by simp)
      · rw [Lsp v h1 h2] at hv
        obtain ⟨hnp, hcls⟩ := h.hD2 v r hv hr hvp
        refine ⟨hnp, ?_⟩
        rcases hcls with ⟨e, he, he2, he3⟩ | ⟨iv, hiv, hiv2, hiv3⟩
        · have hesp : e ≠ spill := by
            intro hh
            rw [hh] at he3
            exact h2 he3.symm
          refine Or.inl ⟨e, mem_insertActive_of_mem _
            (mem_eraseIdx_of_ne hidx he (fun hh => hesp (hh.trans hspill)))
            , he2, he3⟩
        · exact Or.inr ⟨iv, List.mem_append_left _ hiv, hiv2, hiv3⟩
  · intro v hv
    rcases h.hN v hv with h1 | h1
    · exact Or.inl h1
    · right
      rw [List.map_append]
      exact List.mem_append_left _ h1
  · refine pairwise_insertActive_gen (fun hab hh => hab hh.symm)
      (h.hAv.sublist (List.eraseIdx_sublist _ _)) ?_
    intro x hx hh
    exact hfa x (mem_of_mem_eraseIdx_g hx) hh.symm
  · intro v r hv
    by_cases h1 : v = cur.vreg
    · right
      rw [h1]
      simp
    · by_cases h2 : v = spill.1.vreg
      · rw [h2, Lspill] at hv
        exact absurd hv (by simp)
      · rw [Lsp v h1 h2] at hv
        rcases h.hDom v r hv with h3 | h3
        · exact Or.inl h3
        · right
          rw [List.map_append]
          exact List.mem_append_left _ h3
  · intro iu hiu iv hiv hne r hr hlu hlv
    have key : ∀ w ∈ done, w.vreg ≠ spill.1.vreg → w.vreg ≠ cur.vreg →
        alookup st.vregToPhys w.vreg = some spill.2 → spill.2 ≠ -1 →
        ¬ ∃ p : Int, w.containsPos p = true ∧ cur.containsPos p = true := by
      intro w hw hwsp hwc hlw hrne
      by_cases hwp : w.vreg ∈ ps
      · exact absurd (ParamB_paramRegsP (h.hD1 _ _ hlw hrne hwp))
          (hspnp hrne)
      · obtain ⟨_, hcls⟩ := h.hD2 _ _ hlw hrne hwp
        rcases hcls with ⟨e, he, he2, he3⟩ | ⟨w2, hw2, hw2v, hw2e⟩
        · have hesp : e ≠ spill := by
            intro hh
            rw [hh] at he3
            exact hwsp he3.symm
          have he4 : e ∈ st.active.eraseIdx idx :=
            mem_eraseIdx_of_ne hidx he (fun hh => hesp (hh.trans hspill))
          rcases hQvict e he4 with h1 | h1 | h1
          · exact absurd h1 hrne
          · exact absurd (he2.symm.trans h1) hrne
          · exact absurd he2.symm h1
        · have hw2w : w2 = w := List.inj_on_of_nodup_map hndl hw2 hw hw2v
          subst hw2w
          refine not_overlap_of_before ?_ ?_ (by omega)
          · intro rg hrg
            exact (hwf w2 (List.mem_append_left _ hw2) rg hrg).2
          · intro rg hrg
            exact (hwf cur (List.mem_append_right _
              (List.mem_singleton.mpr rfl)) rg hrg).1
    by_cases hucur : iu.vreg = cur.vreg
    · have hiu2 : iu = cur := by
        rcases List.mem_append.mp hiu with h1 | h1
        · exact absurd (hucur ▸ List.mem_map_of_mem Interval.vreg h1) hfr
        · simpa using h1
      have hivd : iv ∈ done := by
        rcases List.mem_append.mp hiv with h1 | h1
        · exact h1
        · have h2 : iv = cur := by simpa using h1
          rw [hiu2, h2] at hne
          exact absurd rfl hne
      have hvne : iv.vreg ≠ cur.vreg := fun hh => hne (hucur ▸ hh.symm ▸ rfl)
      rw [hucur, Lcur] at hlu
      have hrr : r = spill.2 := by simpa using hlu.symm
      by_cases hvsp : iv.vreg = spill.1.vreg
      · rw [hvsp, Lspill] at hlv
        exact absurd hlv (by simp)
      · rw [Lsp _ hvne hvsp] at hlv
        rintro ⟨p, hp1, hp2⟩
        rw [hiu2] at hp1
        exact key iv hivd hvsp hvne (hrr ▸ hlv) (hrr ▸ hr) ⟨p, hp2, hp1⟩
    · by_cases hvcur : iv.vreg = cur.vreg
      · have hiv2 : iv = cur := by
          rcases List.mem_append.mp hiv with h1 | h1
          · exact absurd (hvcur ▸ List.mem_map_of_mem Interval.vreg h1) hfr
          · simpa using h1
        have hiud : iu ∈ done := by
          rcases List.mem_append.mp hiu with h1 | h1
          · exact h1
          · have h2 : iu = cur := by simpa using h1
            rw [h2, hiv2] at hne
            exact absurd rfl hne
        rw [hvcur, Lcur] at hlv
        have hrr : r = spill.2 := by simpa using hlv.symm
        by_cases husp : iu.vreg = spill.1.vreg
        · rw [husp, Lspill] at hlu
          exact absurd hlu (by simp)
        · rw [Lsp _ hucur husp] at hlu
          rintro ⟨p, hp1, hp2⟩
          rw [hiv2] at hp2
          exact key iu hiud husp hucur (hrr ▸ hlu) (hrr ▸ hr) ⟨p, hp1, hp2⟩
      · have hiud : iu ∈ done := by
          rcases List.mem_append.mp hiu with h1 | h1
          · exact h1
          · have h2 : iu = cur := by simpa using h1
            rw [h2] at hucur
            exact absurd rfl hucur
        have hivd : iv ∈ done := by
          rcases List.mem_append.mp hiv with h1 | h1
          · exact h1
          · have h2 : iv = cur := by simpa using h1
            rw [h2] at hvcur
            exact absurd rfl hvcur
        by_cases husp : iu.vreg = spill.1.vreg
        · rw [husp, Lspill] at hlu
          exact absurd hlu (by simp)
        · by_cases hvsp : iv.vreg = spill.1.vreg
          · rw [hvsp, Lspill] at hlv
            exact absurd hlv (by simp)
          · rw [Lsp _ hucur husp] at hlu
            rw [Lsp _ hvcur hvsp] at hlv
            exact h.hF iu hiud iv hivd hne r hr hlu hlv

lemma mem_sinsert_self (l : List Int) (x : Int) : x ∈ sinsert l x := by
  rw [sinsert]
  split
  · assumption
  · exact List.mem_cons_self _ _

lemma pp_post :
    ∀ (l : List Int) (n : Nat) (st : AllocState),
      ((List.enumFrom n l).foldl
          (fun s p => processOneParam s p.1 p.2) st).active = st.active ∧
      (∀ r ∈ ((List.enumFrom n l).foldl
          (fun s p => processOneParam s p.1 p.2) st).freePhysRegs,
        r ∈ st.freePhysRegs) ∧
      (∀ i : Nat, n ≤ i → i < n + l.length → i < 8 →
        (10 + Int.ofNat i) ∉ ((List.enumFrom n l).foldl
          (fun s p => processOneParam s p.1 p.2) st).freePhysRegs) ∧
      (∀ v r, alookup ((List.enumFrom n l).foldl
          (fun s p => processOneParam s p.1 p.2) st).vregToPhys v = some r →
        alookup st.vregToPhys v = some r ∨
        ∃ i : Nat, n ≤ i ∧ i < 8 ∧ l.get? (i - n) = some v ∧
          r = 10 + Int.ofNat i) ∧
      (∀ v ∈ ((List.enumFrom n l).foldl
          (fun s p => processOneParam s p.1 p.2) st).allocatedVregs,
        v ∈ st.allocatedVregs ∨ v ∈ l) ∧
      (∀ v ∈ l, v ∈ ((List.enumFrom n l).foldl
          (fun s p => processOneParam s p.1 p.2) st).allocatedVregs) ∧
      (∀ v ∈ st.allocatedVregs, v ∈ ((List.enumFrom n l).foldl
          (fun s p => processOneParam s p.1 p.2) st).allocatedVregs) := by
  intro l
  induction l with
  | nil =>
    intro n st
    refine ⟨rfl, fun r hr => hr, ?_, fun v r hv => Or.inl hv,
      fun v hv => Or.inl hv, ?_, fun v hv => hv⟩
    · intro i h1 h2
      simp at h2
      omega
    · intro v hv
      simp at hv
  | cons v0 lrest ih =>
    intro n st
    rw [List.enumFrom_cons, List.foldl_cons]
    obtain ⟨ih1, ih2, ih3, ih4, ih5, ih6, ih7⟩ :=
      ih (n + 1) (processOneParam st n v0)
    have hact : (processOneParam st n v0).active = st.active := by
      rw [processOneParam]
      split <;> rfl
    have halloc : (processOneParam st n v0).allocatedVregs =
        sinsert st.allocatedVregs v0 := by
      rw [processOneParam]
      split <;> rfl
    refine ⟨ih1.trans hact, ?_, ?_, ?_, ?_, ?_, ?_⟩
    · intro r hr
      have h2 := ih2 r hr
      rw [processOneParam] at h2
      by_cases hn : n < 8
      · rw [if_pos hn] at h2
        exact mem_serase h2
      · rw [if_neg hn] at h2
        exact h2
    · intro i h1 h2 h3
      by_cases hi : n + 1 ≤ i
      · exact ih3 i hi (by simpa [Nat.add_assoc, Nat.add_comm,
          Nat.add_left_comm] using h2) h3
      · have hin : i = n := by omega
        subst hin
        intro hmem
        have h4 := ih2 _ hmem
        rw [processOneParam, if_pos h3] at h4
        exact not_mem_serase_self _ _ h4
    · intro v r hv
      rcases ih4 v r hv with h1 | ⟨i, hi1, hi2, hi3, hi4⟩
      · rw [processOneParam] at h1
        by_cases hn : n < 8
        · rw [if_pos hn] at h1
          by_cases hvv : v = v0
          · subst hvv
            rw [alookup_aset_self] at h1
            right
            refine ⟨n, le_refl _, hn, ?_, by simpa using h1.symm⟩
            simp
          · rw [alookup_aset_ne _ _ hvv] at h1
            exact Or.inl h1
        · rw [if_neg hn] at h1
          exact Or.inl h1
      · right
        refine ⟨i, by omega, hi2, ?_, hi4⟩
        have hsub : i - n = (i - (n + 1)) + 1 := by omega
        rw [hsub, List.get?_cons_succ]
        exact hi3
    · intro v hv
      rcases ih5 v hv with h1 | h1
      · rw [halloc] at h1
        rcases mem_sinsert h1 with rfl | h2
        · exact Or.inr (List.mem_cons_self _ _)
        · exact Or.inl h2
      · exact Or.inr (List.mem_cons_of_mem _ h1)
    · intro v hv
      rcases List.mem_cons.mp hv with rfl | h1
      · refine ih7 v ?_
        rw [halloc]
        exact mem_sinsert_self _ _
      · exact ih6 v h1
    · intro v hv
      refine ih7 v ?_
      rw [halloc]
      exact mem_sinsert_of_mem hv

/-- `processParameters` from the fresh allocator state establishes the
invariant with nothing processed. -/
lemma AInv_init (ps : List Int) (s : Int) :
    AInv ps (processParameters initState ps) [] s := by
  rw [processParameters]
  have hpp := pp_post ps 0 initState
  obtain ⟨h1, h2, h3, h4, h5, h6, h7⟩ := hpp
  have hact : ((List.enum ps).foldl
      (fun s p => processOneParam s p.1 p.2) initState).active = [] := by
    rw [List.enum]
    rw [h1]
    rfl
  have hlook : ∀ v r, alookup ((List.enum ps).foldl
      (fun s p => processOneParam s p.1 p.2) initState).vregToPhys v =
      some r → ∃ i : Nat, i < 8 ∧ ps.get? i = some v ∧
        r = 10 + Int.ofNat i := by
    intro v r hv
    rw [List.enum] at hv
    rcases h4 v r hv with hc | ⟨i, _, hi2, hi3, hi4⟩
    · rw [show initState.vregToPhys = [] from rfl] at hc
      simp [alookup] at hc
    · exact ⟨i, hi2, by simpa using hi3, hi4⟩
  refine ⟨?_, ?_, ?_, ?_, ?_, ?_, ?_, ?_, ?_, ?_, ?_⟩
  · intro e he
    rw [hact] at he
    simp at he
  · rw [hact]
    exact List.Pairwise.nil
  · intro e he
    rw [hact] at he
    simp at he
  · intro r hr
    rw [List.enum] at hr
    have hmem : r ∈ initState.freePhysRegs := h2 r hr
    have hmem2 : r ∈ allocatableRegs := hmem
    constructor
    · rintro ⟨i, hi8, hilen, rfl⟩
      exact h3 i (Nat.zero_le i) (by omega) hi8 (by rw [← List.enum]; exact hr)
    · revert hmem2
      have : ∀ x ∈ allocatableRegs, (0 : Int) ≤ x := by decide
      exact this r
  · intro v r hv hr hvp
    obtain ⟨i, hi1, hi2, hi3⟩ := hlook v r hv
    exact ⟨i, hi1, hi2, hi3⟩
  · intro v r hv hr hvp
    obtain ⟨i, _, hi2, _⟩ := hlook v r hv
    exact absurd (List.get?_mem hi2) hvp
  · intro v hv
    rw [List.enum]
    exact h6 v hv
  · intro v hv
    rw [List.enum] at hv
    rcases h5 v hv with h1b | h1b
    · rw [show initState.allocatedVregs = [] from rfl] at h1b
      simp at h1b
    · exact Or.inl h1b
  · rw [hact]
    exact List.Pairwise.nil
  · intro v r hv
    obtain ⟨i, _, hi2, _⟩ := hlook v r hv
    exact Or.inl (List.get?_mem hi2)
  · intro iu hiu
    simp at hiu

/-- One iteration of the main loop preserves (and extends) the
exclusivity invariant. -/
lemma AInv_scanStep {ps : List Int} {st : AllocState}
    {done : List Interval} {s : Int} (cur : Interval)
    (h : AInv ps st done s)
    (hs : s ≤ cur.start)
    (hfr : cur.vreg ∉ done.map Interval.vreg)
    (hndl : (done.map Interval.vreg).Nodup)
    (hwf : ∀ iv ∈ done ++ [cur], ∀ rg ∈ iv.ranges,
      iv.start ≤ rg.start ∧ rg.endp ≤ iv.endp) :
    AInv ps (scanStep st cur) (done ++ [cur]) cur.start := by
  have h1 : AInv ps (expireOldIntervals st cur.start) done cur.start :=
    AInv_expire h hs
  rw [scanStep]
  set st1 := expireOldIntervals st cur.start with hst1
  split
  · rename_i hmem
    have hcps : cur.vreg ∈ ps := by
      rcases h1.hN cur.vreg hmem with hp | hp
      · exact hp
      · exact absurd hp hfr
    split
    · rename_i hsome
      have hg : AInv ps st1 (done ++ [cur]) cur.start := by
        refine AInv_done_grow h1 cur ?_
        intro w hw hne r hr hlc hlw
        have hPB := h1.hD1 _ _ hlc hr hcps
        exfalso
        by_cases hwp : w.vreg ∈ ps
        · obtain ⟨i1, hi18, hig1, hir1⟩ := hPB
          obtain ⟨i2, hi28, hig2, hir2⟩ := h1.hD1 _ _ hlw hr hwp
          have h12 : (10 : Int) + Int.ofNat i1 = 10 + Int.ofNat i2 := by
            rw [← hir1, ← hir2]
          have hii : i1 = i2 := Int.ofNat.inj (add_left_cancel h12)
          subst hii
          rw [hig1] at hig2
          exact hne (by simpa using hig2)
        · exact (h1.hD2 _ _ hlw hr hwp).1 (ParamB_paramRegsP hPB)
      refine AInv_preallocInsert hg cur ?_ ?_
      · exact List.mem_append_right _ (List.mem_singleton.mpr rfl)
      · intro e he hv
        exact hfr (hv ▸ List.mem_map_of_mem Interval.vreg (h1.hA e he).1)
    · rename_i hnone
      refine AInv_done_grow h1 cur ?_
      intro w hw hne r hr hlc hlw
      rw [hlc] at hnone
      simp at hnone
  · rename_i hnmem
    have hcps : cur.vreg ∉ ps := fun hp => hnmem (h1.hI _ hp)
    have hlcnone : alookup st1.vregToPhys cur.vreg = Option.none := by
      cases hl : alookup st1.vregToPhys cur.vreg with
      | none => rfl
      | some r0 =>
        rcases h1.hDom _ _ hl with hin | hin
        · exact absurd hin hcps
        · exact absurd hin hfr
    split
    · rename_i hempty
      rw [spillAtInterval]
      split
      · refine AInv_of_eq ?_ ?_ ?_ ?_ (AInv_done_grow h1 cur ?_)
        · rfl
        · rfl
        · rfl
        · rfl
        · intro w hw hne r hr hlc hlw
          rw [hlcnone] at hlc
          exact Option.noConfusion hlc
      · rename_i a rest heq
        dsimp only
        split
        · rename_i hlt
          exact AInv_stealBranch cur (maxEndIdx st1.active) _
            (maxEndIdx_lt (by rw [heq]; simp)) rfl h1 hcps hfr
            (le_refl _) hndl hwf
        · rename_i hge
          refine AInv_of_eq ?_ ?_ ?_ ?_ (AInv_done_grow h1 cur ?_)
          · rfl
          · rfl
          · rfl
          · rfl
          · intro w hw hne r hr hlc hlw
            rw [hlcnone] at hlc
            exact Option.noConfusion hlc
    · rename_i hnempty
      have hpne : st1.freePhysRegs ≠ [] := by
        intro hh
        rw [List.isEmpty_iff] at hnempty
        exact hnempty hh
      exact AInv_allocBranch cur h1 hpne hcps hfr (le_refl _) hndl hwf

lemma AInv_runLinearScan {ps : List Int} :
    ∀ (rest : List Interval) (st : AllocState) (done : List Interval)
      (s : Int),
      AInv ps st done s →
      (∀ iv ∈ rest, s ≤ iv.start) →
      List.Pairwise (fun a b : Interval => a.start ≤ b.start) rest →
      ((done ++ rest).map Interval.vreg).Nodup →
      (∀ iv ∈ done ++ rest, ∀ rg ∈ iv.ranges,
        iv.start ≤ rg.start ∧ rg.endp ≤ iv.endp) →
      ∃ s', AInv ps (List.foldl scanStep st rest) (done ++ rest) s' := by
  intro rest
  induction rest with
  | nil =>
    intro st done s h _ _ _ _
    exact ⟨s, by simpa using h⟩
  | cons cur rest2 ih =>
    intro st done s h hstart hsorted hnodup hwf
    rw [List.foldl_cons]
    have hnodup2 : ((done ++ [cur]) ++ rest2).map Interval.vreg
        |>.Nodup := by
      rw [List.append_assoc, List.singleton_append]
      exact hnodup
    have hmaps : (done ++ cur :: rest2).map Interval.vreg =
        done.map Interval.vreg ++ cur.vreg :: rest2.map Interval.vreg := by
      rw [List.map_append, List.map_cons]
    rw [hmaps] at hnodup
    obtain ⟨hnd1, hnd2, hdisj⟩ := List.nodup_append.mp hnodup
    have hfr : cur.vreg ∉ done.map Interval.vreg := by
      intro hmem
      exact hdisj hmem (List.mem_cons_self _ _)
    have hwf1 : ∀ iv ∈ done ++ [cur], ∀ rg ∈ iv.ranges,
        iv.start ≤ rg.start ∧ rg.endp ≤ iv.endp := by
      intro iv hiv
      refine hwf iv ?_
      rcases List.mem_append.mp hiv with h1 | h1
      · exact List.mem_append_left _ h1
      · have h2 : iv = cur := by simpa using h1
        rw [h2]
        exact List.mem_append_right _ (List.mem_cons_self _ _)
    have h2 := AInv_scanStep cur h (hstart cur (List.mem_cons_self _ _))
      hfr hnd1 hwf1
    have hres := ih (scanStep st cur) (done ++ [cur]) cur.start h2
      (fun iv hiv => (List.pairwise_cons.mp hsorted).1 iv hiv)
      (List.pairwise_cons.mp hsorted).2
      hnodup2
      (by
        intro iv hiv
        refine hwf iv ?_
        rw [List.append_assoc, List.singleton_append] at hiv
        exact hiv)
    rw [List.append_assoc, List.singleton_append] at hres
    exact hres

/-- C1 (amended): for any parameter list and any start-sorted interval
list with distinct vregs and well-formed ranges, two distinct vregs whose
intervals overlap never receive the same REAL register in `vregToPhys`:
the mapped values can only coincide when both are the `-1` sentinel that
`spillAtInterval` copies out of a victimised parameter interval's
never-initialised `physReg` field. -/
theorem C1_exclusive_unless_minus_one (ps : List Int)
    (sorted : List Interval)
    (hnd : (sorted.map Interval.vreg).Nodup)
    (hsorted : List.Pairwise (fun a b : Interval => a.start ≤ b.start)
      sorted)
    (hwf : ∀ iv ∈ sorted, ∀ rg ∈ iv.ranges,
      iv.start ≤ rg.start ∧ rg.endp ≤ iv.endp) :
    ∀ iu ∈ sorted, ∀ iv ∈ sorted, iu.vreg ≠ iv.vreg → ∀ r : Int,
      r ≠ -1 →
      alookup (runLinearScan (processParameters initState ps)
        sorted).vregToPhys iu.vreg = some r →
      alookup (runLinearScan (processParameters initState ps)
        sorted).vregToPhys iv.vreg = some r →
      ¬ ∃ p : Int, iu.containsPos p = true ∧ iv.containsPos p = true := by
  intro iu hiu iv hiv hne r hr hlu hlv
  cases sorted with
  | nil => simp at hiu
  | cons a rest =>
    have hstart : ∀ x ∈ a :: rest, a.start ≤ x.start := by
      intro x hx
      rcases List.mem_cons.mp hx with rfl | hx2
      · exact le_refl _
      · exact (List.pairwise_cons.mp hsorted).1 x hx2
    obtain ⟨s', hinv⟩ := AInv_runLinearScan (a :: rest)
      (processParameters initState ps) [] a.start (AInv_init ps a.start)
      hstart hsorted (by simpa using hnd) (by simpa using hwf)
    rw [List.nil_append] at hinv
    exact hinv.hF iu hiu iv hiv hne r hr hlu hlv

/-- The amended C1 theorem applied to a concrete run in which vregs 5 and
6 (non-overlapping) both end up with register 10. -/
theorem C1_exclusive_unless_minus_one_witness :
    ¬ ∃ p : Int,
      Interval.containsPos ⟨5, [⟨0, 1⟩]⟩ p = true ∧
      Interval.containsPos ⟨6, [⟨3, 4⟩]⟩ p = true :=
  C1_exclusive_unless_minus_one []
    [⟨5, [⟨0, 1⟩]⟩, ⟨6, [⟨3, 4⟩]⟩]
    (by decide) (by decide) (by decide)
    ⟨5, [⟨0, 1⟩]⟩ (by decide) ⟨6, [⟨3, 4⟩]⟩ (by decide) (by decide)
    10 (by decide) (by decide) (by decide)

end ToyC
